import Mathlib

/-
Verification of the Chadsembler toolchain (Python sources) against its
natural-language specification.  Each Python module is shallowly embedded:
pure functions become Lean functions, machine integers are Int/Nat with
explicit modular wrapping, fallible code (Python exceptions / exit calls)
returns Option.  Strings of bits are `List Char` over the characters
'0' and '1', most significant bit first, exactly as in the source.
-/

namespace Csm

/-! ### binarystring.py -/

/-- Helper for `to_binary`: the binary digits of `n`, least significant first.
The fuel argument makes the recursion structural; `n` itself is always
sufficient fuel since the argument halves each step. -/
def to_binary_go_fueled (fuel n : Nat) : List Char :=
  match fuel with
  | 0 => []
  | f + 1 =>
    if n = 0 then []
    else (if n % 2 = 1 then '1' else '0') :: to_binary_go_fueled f (n / 2)

/-- binarystring.to_binary: `f"{value:b}"` — minimal-width binary rendering of
a non-negative integer, MSB first; 0 renders as "0". -/
def to_binary (value : Nat) : List Char :=
  if value = 0 then ['0'] else (to_binary_go_fueled value value).reverse

/-- binarystring.number_bits: position of the highest set bit among the low 32
bits (a 32-bit scan, faithfully reproducing the Python loop). -/
def number_bits (value : Nat) : Nat :=
  match (List.range 32).find? (fun i => (value <<< i) &&& 0x80000000 ≠ 0) with
  | some i => 32 - i
  | none => 0

/-- binarystring.pad_binary: left pad with `bit`, `n` times (a negative count
pads zero times, as Python's string repetition does). -/
def pad_binary (binary_string : List Char) (n : Int) (bit : Char) : List Char :=
  List.replicate n.toNat bit ++ binary_string

/-- binarystring.overflow: `value % (2**bits)` with Python's floor-modulo. -/
def overflow (value : Int) (bits : Nat) : Int :=
  value.fmod (2 ^ bits)

/-- binarystring.unsigned_int. -/
def unsigned_int (value : Int) (bits : Nat) : List Char :=
  let bits := max bits 1
  let binary_string := to_binary (overflow value bits).toNat
  pad_binary binary_string ((bits : Int) - binary_string.length) '0'

/-- binarystring.signed_int (sign-magnitude encoding). -/
def signed_int (value : Int) (bits : Nat) : List Char :=
  let bits := max bits 2
  let sign_bit : Char := if value < 0 then '1' else '0'
  let value := if value < 0 then -value else value
  let binary_string := to_binary (overflow value (bits - 1)).toNat
  sign_bit :: pad_binary binary_string ((bits : Int) - binary_string.length - 1) '0'

def bit_value (c : Char) : Nat :=
  if c = '1' then 1 else 0

/-- binarystring.read_unsigned_int: `int(s, 2)` on a string of binary digits.
(Python raises on the empty string; the empty case is never reached on the
machine's fixed-width words and evaluates to 0 here.) -/
def read_unsigned_int (binary_string : List Char) : Nat :=
  binary_string.foldl (fun a c => 2 * a + bit_value c) 0

/-- binarystring.read_signed_int: leading bit is the sign, remaining bits the
magnitude.  (Python raises on strings of length < 2; unreachable on the
machine's words, the stub value is 0.) -/
def read_signed_int : List Char → Int
  | [] => 0
  | c :: rest => (if c = '0' then 1 else -1) * (read_unsigned_int rest : Int)

/-- binarystring.logical_shift_left. -/
def logical_shift_left (binary_string : List Char) (n : Int) : Option (Char × List Char) :=
  let length := binary_string.length
  if n < 1 then none
  else if n > length then some ('0', List.replicate length '0')
  else some (binary_string.getD (n.toNat - 1) '0',
             binary_string.drop n.toNat ++ List.replicate n.toNat '0')

/-- binarystring.logical_shift_right. -/
def logical_shift_right (binary_string : List Char) (n : Int) : Option (Char × List Char) :=
  let length := binary_string.length
  if n < 1 then none
  else if n > length then some ('0', List.replicate length '0')
  else some (binary_string.getD (length - n.toNat) '0',
             List.replicate n.toNat '0' ++ binary_string.take (length - n.toNat))

/-- binarystring.arithmetic_shift_left (alias of the logical left shift). -/
def arithmetic_shift_left (binary_string : List Char) (n : Int) : Option (Char × List Char) :=
  logical_shift_left binary_string n

/-- binarystring.arithmetic_shift_right (vacated bits copy the sign bit). -/
def arithmetic_shift_right (binary_string : List Char) (n : Int) : Option (Char × List Char) :=
  let length := binary_string.length
  if n < 1 then none
  else if n > length then some (binary_string.getD 0 '0',
                                List.replicate length (binary_string.getD 0 '0'))
  else some (binary_string.getD (length - n.toNat) '0',
             List.replicate n.toNat (binary_string.getD 0 '0') ++
               binary_string.take (length - n.toNat))

/-- binarystring.circular_shift_left: rotate left by `n mod width`, reporting
no change (`none`) when the effective rotation is 0.  (Python raises a
division error on the empty string; that case is unreachable on the
machine's words.) -/
def circular_shift_left (binary_string : List Char) (n : Int) : Option (List Char) :=
  if n < 1 then none
  else
    let length := binary_string.length
    let n := n.fmod length
    if n = 0 then none
    else some (binary_string.drop n.toNat ++ binary_string.take n.toNat)

/-- binarystring.circular_shift_right. -/
def circular_shift_right (binary_string : List Char) (n : Int) : Option (List Char) :=
  if n < 1 then none
  else
    let length := binary_string.length
    let n := n.fmod length
    if n = 0 then none
    else
      let i := length - n.toNat
      some (binary_string.drop i ++ binary_string.take i)

/-- binarystring.circular_shift_left_carry. -/
def circular_shift_left_carry (binary_string : List Char) (carry_bit : Char) (n : Int) :
    Option (Char × List Char) :=
  match circular_shift_left (carry_bit :: binary_string) n with
  | some (b :: rest) => some (b, rest)
  | some [] => none
  | none => none

/-- binarystring.circular_shift_right_carry. -/
def circular_shift_right_carry (binary_string : List Char) (carry_bit : Char) (n : Int) :
    Option (Char × List Char) :=
  match circular_shift_right (binary_string ++ [carry_bit]) n with
  | some bits =>
    match bits.getLast? with
    | some b => some (b, bits.dropLast)
    | none => none
  | none => none

/-- binarystring.bitwise_and (`str((ord(l)-48) & (ord(r)-48))` per bit pair;
on bit characters this is the single digit of the result). -/
def bitwise_and (left right : List Char) : List Char :=
  (left.zip right).map (fun p => Char.ofNat (48 + ((p.1.toNat - 48) &&& (p.2.toNat - 48))))

/-- binarystring.bitwise_or. -/
def bitwise_or (left right : List Char) : List Char :=
  (left.zip right).map (fun p => Char.ofNat (48 + ((p.1.toNat - 48) ||| (p.2.toNat - 48))))

/-- binarystring.bitwise_not. -/
def bitwise_not (binary : List Char) : List Char :=
  binary.map (fun c => Char.ofNat (48 + ((c.toNat - 48) ^^^ 1)))

/-- binarystring.bitwise_xor. -/
def bitwise_xor (left right : List Char) : List Char :=
  (left.zip right).map (fun p => Char.ofNat (48 + ((p.1.toNat - 48) ^^^ (p.2.toNat - 48))))

/-! ### Supporting lemmas about the binary-string layer -/

theorem to_binary_go_fueled_read (fuel : Nat) :
    ∀ n, n ≤ fuel →
      (to_binary_go_fueled fuel n).foldr (fun c a => 2 * a + bit_value c) 0 = n := by
  induction fuel with
  | zero => intro n hn; interval_cases n; rfl
  | succ f ih =>
    intro n hn
    rw [to_binary_go_fueled]
    by_cases h0 : n = 0
    · simp [h0]
    · have hdiv : n / 2 ≤ f := by
        have h1 : 0 < n := Nat.pos_of_ne_zero h0
        have := Nat.div_lt_self h1 (by norm_num : 1 < 2)
        omega
      simp only [h0, if_false, List.foldr_cons, ih (n / 2) hdiv]
      rcases Nat.mod_two_eq_zero_or_one n with h | h <;>
        simp [h, bit_value] <;> omega

theorem to_binary_go_fueled_length (fuel : Nat) :
    ∀ n b, n < 2 ^ b → (to_binary_go_fueled fuel n).length ≤ b := by
  induction fuel with
  | zero => intro n b _; simp [to_binary_go_fueled]
  | succ f ih =>
    intro n b hb
    rw [to_binary_go_fueled]
    by_cases h0 : n = 0
    · simp [h0]
    · have hb1 : 1 ≤ b := by
        by_contra h
        have : b = 0 := by omega
        subst this
        simp at hb
        omega
      have hpow : 2 ^ b = 2 * 2 ^ (b - 1) := by
        conv_lhs => rw [show b = (b - 1) + 1 from by omega]
        ring
      have hdiv : n / 2 < 2 ^ (b - 1) := by
        apply Nat.div_lt_of_lt_mul
        omega
      have := ih (n / 2) (b - 1) hdiv
      simp only [h0, if_false, List.length_cons]
      omega

theorem read_unsigned_int_append_zeros (k : Nat) (l : List Char) :
    read_unsigned_int (List.replicate k '0' ++ l) = read_unsigned_int l := by
  induction k with
  | zero => simp
  | succ m ih =>
    rw [List.replicate_succ]
    simpa [read_unsigned_int, bit_value] using ih

theorem read_unsigned_int_to_binary (n : Nat) : read_unsigned_int (to_binary n) = n := by
  unfold to_binary
  by_cases h0 : n = 0
  · simp [h0, read_unsigned_int, bit_value]
  · simp only [h0, if_false]
    rw [read_unsigned_int, List.foldl_reverse]
    exact to_binary_go_fueled_read n n le_rfl

theorem to_binary_length_le (n b : Nat) (h1 : 1 ≤ b) (hb : n < 2 ^ b) :
    (to_binary n).length ≤ b := by
  unfold to_binary
  by_cases h0 : n = 0
  · simpa [h0] using h1
  · simp only [h0, if_false, List.length_reverse]
    exact to_binary_go_fueled_length n n b hb

theorem overflow_of_nonneg_lt (v : Int) (b : Nat) (h0 : 0 ≤ v) (h : v < 2 ^ b) :
    overflow v b = v := by
  unfold overflow
  rw [Int.fmod_eq_emod _ (by positivity)]
  exact Int.emod_eq_of_lt h0 (by exact_mod_cast h)

/-! ### Claim C2: logical shifts with n at least the width -/

/-- C2 counterexample: on the one-bit string "1" with shift amount 1 (equal to
the width) both logical shifts return carry '1', not the pair ('0', "0") the
claim promises for every n at least the width. -/
theorem logical_shift_full_width_counterexample :
    logical_shift_left ['1'] 1 = some ('1', ['0']) ∧
    logical_shift_right ['1'] 1 = some ('1', ['0']) ∧
    logical_shift_left ['1'] 1 ≠ some ('0', ['0']) := by
  refine ⟨by decide, by decide, by decide⟩

/-- C2 (amended): for every bit-string s with |s| >= 1 and n >= |s|, both
logical shifts return a result of all '0' bits; the carry is '0' when
n > |s| strictly, while at n = |s| the carry is the final bit shifted out
(the last bit of s for the left shift, the first bit for the right shift). -/
theorem logical_shift_ge_width (s : List Char) (n : Int)
    (hs : 1 ≤ s.length) (hn : (s.length : Int) ≤ n) :
    logical_shift_left s n =
      some ((if (s.length : Int) < n then '0' else s.getD (s.length - 1) '0'),
            List.replicate s.length '0') ∧
    logical_shift_right s n =
      some ((if (s.length : Int) < n then '0' else s.getD 0 '0'),
            List.replicate s.length '0') := by
  have hn1 : ¬ n < 1 := by omega
  rcases lt_or_eq_of_le hn with hlt | heq
  · constructor
    · simp only [logical_shift_left, hn1, if_false, if_pos hlt, hlt, if_true]
    · simp only [logical_shift_right, hn1, if_false, if_pos hlt, hlt, if_true]
  · have hng : ¬ ((s.length : Int) < n) := by omega
    have htn : n.toNat = s.length := by omega
    constructor
    · simp only [logical_shift_left, hn1, if_false, hng, if_neg hng, htn,
        List.drop_length, List.nil_append]
    · simp only [logical_shift_right, hn1, if_false, hng, if_neg hng, htn,
        Nat.sub_self, List.take_zero, List.append_nil]

/-- C2 amended witness at s = "10", n = 2. -/
theorem logical_shift_ge_width_witness :
    (1 ≤ (['1', '0'] : List Char).length) ∧
    (((['1', '0'] : List Char).length : Int) ≤ 2) ∧
    (logical_shift_left ['1', '0'] 2 =
      some ((if ((['1', '0'] : List Char).length : Int) < 2 then '0'
             else (['1', '0'] : List Char).getD ((['1', '0'] : List Char).length - 1) '0'),
            List.replicate (['1', '0'] : List Char).length '0') ∧
     logical_shift_right ['1', '0'] 2 =
      some ((if ((['1', '0'] : List Char).length : Int) < 2 then '0'
             else (['1', '0'] : List Char).getD 0 '0'),
            List.replicate (['1', '0'] : List Char).length '0')) :=
  ⟨by decide, by decide, logical_shift_ge_width ['1', '0'] 2 (by decide) (by decide)⟩

/-! ### Claim C4: sign-magnitude encoding round trip -/

/-- C4: for every integer v and n >= 2 with |v| < 2^(n-1), signed_int v n is an
n-character bit string, its first bit is '1' exactly when v < 0, its
remaining n-1 bits read back (as an unsigned value) to |v| mod 2^(n-1), and
read_signed_int inverts the encoding. -/
theorem signed_int_sign_magnitude (v : Int) (n : Nat)
    (h2 : 2 ≤ n) (hb : v.natAbs < 2 ^ (n - 1)) :
    (signed_int v n).length = n ∧
    ((signed_int v n).headD '0' = '1' ↔ v < 0) ∧
    read_unsigned_int ((signed_int v n).drop 1) = v.natAbs % 2 ^ (n - 1) ∧
    read_signed_int (signed_int v n) = v := by
  have hmax : max n 2 = n := by omega
  have habs : (if v < 0 then -v else v) = (v.natAbs : Int) := by
    split <;> omega
  have hofl : overflow (if v < 0 then -v else v) (n - 1) = (v.natAbs : Int) := by
    rw [habs]
    exact overflow_of_nonneg_lt _ _ (by positivity) (by exact_mod_cast hb)
  have hlen : (to_binary v.natAbs).length ≤ n - 1 :=
    to_binary_length_le _ _ (by omega) hb
  have hread : read_unsigned_int (to_binary v.natAbs) = v.natAbs :=
    read_unsigned_int_to_binary _
  have hbody : signed_int v n =
      (if v < 0 then '1' else '0') ::
        (List.replicate (((n : Int) - (to_binary v.natAbs).length - 1)).toNat '0' ++
          to_binary v.natAbs) := by
    unfold signed_int
    simp only [hmax, hofl, Int.toNat_natCast, pad_binary]
  have hpadlen : (((n : Int) - (to_binary v.natAbs).length - 1)).toNat
      = n - 1 - (to_binary v.natAbs).length := by omega
  refine ⟨?_, ?_, ?_, ?_⟩
  · rw [hbody]
    simp only [List.length_cons, List.length_append, List.length_replicate, hpadlen]
    omega
  · rw [hbody]
    constructor
    · intro h
      by_contra hneg
      simp [hneg] at h
    · intro h
      simp [h]
  · rw [hbody]
    simp only [List.drop_succ_cons, List.drop_zero, hpadlen,
      read_unsigned_int_append_zeros, hread]
    exact (Nat.mod_eq_of_lt hb).symm
  · rw [hbody, read_signed_int]
    simp only [hpadlen, read_unsigned_int_append_zeros, hread]
    rcases lt_or_ge v 0 with h | h
    · rw [if_pos h, if_neg (by decide : ¬ ('1' : Char) = '0')]
      omega
    · rw [if_neg (not_lt.mpr h), if_pos (rfl : ('0' : Char) = '0')]
      omega

/-- C4 witness at v = -5, n = 8. -/
theorem signed_int_sign_magnitude_witness :
    (2 ≤ 8) ∧ ((-5 : Int).natAbs < 2 ^ (8 - 1)) ∧
    ((signed_int (-5) 8).length = 8 ∧
     ((signed_int (-5) 8).headD '0' = '1' ↔ (-5 : Int) < 0) ∧
     read_unsigned_int ((signed_int (-5) 8).drop 1) = (-5 : Int).natAbs % 2 ^ (8 - 1) ∧
     read_signed_int (signed_int (-5) 8) = -5) :=
  ⟨by decide, by decide, signed_int_sign_magnitude (-5) 8 (by decide) (by decide)⟩

/-! ### Claim C5: circular shifts are mutually inverse -/

/-- Interpretation of a shift result: `none` means "no change", so the input
string is kept.  Used by the machine operations CSL and CSR. -/
def apply_or_keep (r : Option (List Char)) (s : List Char) : List Char :=
  r.getD s

/-- C5: for every non-empty bit string s and 0 < n <= |s|, a circular left
shift by n followed by a circular right shift by n (each treating a `none`
result as "keep the string") returns s. -/
theorem circular_shift_round_trip (s : List Char) (n : Int)
    (h0 : 0 < n) (hn : n ≤ (s.length : Int)) :
    apply_or_keep
      (circular_shift_right (apply_or_keep (circular_shift_left s n) s) n)
      (apply_or_keep (circular_shift_left s n) s) = s := by
  have hL : 0 < s.length := by
    by_contra h
    have : s.length = 0 := by omega
    rw [this] at hn
    omega
  have hn1 : ¬ n < 1 := by omega
  have hfm : n.fmod s.length = n.emod s.length := Int.fmod_eq_emod _ (by positivity)
  by_cases hz : n.fmod s.length = 0
  · -- effective rotation 0: both shifts report "no change"
    unfold circular_shift_left circular_shift_right apply_or_keep
    simp only [hn1, if_false, hz, if_true, Option.getD_none]
  · -- effective rotation k with 0 < k < |s|
    have hknn : 0 ≤ n.fmod s.length := by
      rw [hfm]; exact Int.emod_nonneg _ (by positivity)
    have hklt : n.fmod s.length < s.length := by
      rw [hfm]; exact Int.emod_lt_of_pos _ (by exact_mod_cast hL)
    set k : Nat := (n.fmod s.length).toNat with hk
    have hkpos : 0 < k := by omega
    have hkL : k < s.length := by omega
    have h1 : circular_shift_left s n = some (s.drop k ++ s.take k) := by
      unfold circular_shift_left
      simp only [hn1, if_false, hz, if_false]
    have hlen_drop : (s.drop k).length = s.length - k := by simp
    have hlen_t : (s.drop k ++ s.take k).length = s.length := by
      simp [Nat.sub_add_cancel (le_of_lt hkL), Nat.min_eq_left (le_of_lt hkL)]
    have h2 : circular_shift_right (s.drop k ++ s.take k) n =
        some (s.take k ++ s.drop k) := by
      unfold circular_shift_right
      simp only [hn1, if_false, hlen_t, hz, if_false]
      congr 1
      have hdl : List.drop (s.length - k) (s.drop k ++ s.take k) = s.take k :=
        List.drop_left' hlen_drop
      have htl : List.take (s.length - k) (s.drop k ++ s.take k) = s.drop k :=
        List.take_left' hlen_drop
      rw [hdl, htl]
    have hkeep : apply_or_keep (circular_shift_left s n) s = s.drop k ++ s.take k := by
      rw [apply_or_keep, h1, Option.getD_some]
    rw [hkeep, h2]
    simp [apply_or_keep]

/-- C5 witness at s = "100", n = 2. -/
theorem circular_shift_round_trip_witness :
    ((0 : Int) < 2) ∧ ((2 : Int) ≤ ((['1', '0', '0'] : List Char).length : Int)) ∧
    apply_or_keep
      (circular_shift_right (apply_or_keep (circular_shift_left ['1', '0', '0'] 2) ['1', '0', '0']) 2)
      (apply_or_keep (circular_shift_left ['1', '0', '0'] 2) ['1', '0', '0']) = ['1', '0', '0'] :=
  ⟨by decide, by decide, circular_shift_round_trip ['1', '0', '0'] 2 (by decide) (by decide)⟩

/-! ### csmtokens.py: token types and tokens -/

namespace tokentypes

def END : Nat := 0
def INSTRUCTION : Nat := 1
def ADDRESSING_MODE : Nat := 2
def VALUE : Nat := 3
def REGISTER : Nat := 4
def LABEL : Nat := 5
def SEPARATOR : Nat := 6
def LEFT_BRACE : Nat := 7
def RIGHT_BRACE : Nat := 8
def ASSEMBLY_DIRECTIVE : Nat := 9

end tokentypes

structure TypedToken where
  type : Nat
  value : String
  row : Int
  column : Int
deriving DecidableEq

/-! ### csmstructs.py: descriptors, symbols, scopes -/

structure Instruction where
  mnemonic : String
  opcode : Nat
  operands : Nat
deriving DecidableEq

structure Register where
  register : String
  variants : List String
  offset : Nat
deriving DecidableEq

structure AddressingMode where
  symbol : String
  variants : List String
  opcode : Nat
deriving DecidableEq

structure Symbol where
  value : Int
  type : Nat
deriving DecidableEq

structure Scope where
  tokens : List TypedToken
  symbol_table : List (String × Symbol)
  number_instructions : Nat
  number_variables : Nat
deriving DecidableEq

structure Operand where
  addressing_mode : TypedToken
  value : TypedToken
deriving DecidableEq

structure MemoryValue where
  address : Int
  bits : List Char
  value : Int
deriving DecidableEq

/-- Python dict lookup `table.get(key, None)` on an insertion-ordered table. -/
def table_get (table : List (String × Symbol)) (key : String) : Option Symbol :=
  (table.find? (fun p => p.1 = key)).map Prod.snd

/-! ### architecture.py: static instruction set, registers, addressing modes -/

namespace instructions

def HLT : Instruction := ⟨"HLT", 0, 0⟩
def ADD : Instruction := ⟨"ADD", 1, 2⟩
def SUB : Instruction := ⟨"SUB", 2, 2⟩
def STA : Instruction := ⟨"STA", 3, 2⟩
def NOP : Instruction := ⟨"NOP", 4, 0⟩
def LDA : Instruction := ⟨"LDA", 5, 2⟩
def BRA : Instruction := ⟨"BRA", 6, 2⟩
def BRZ : Instruction := ⟨"BRZ", 7, 2⟩
def BRP : Instruction := ⟨"BRP", 8, 2⟩
def INP : Instruction := ⟨"INP", 9, 1⟩
def OUT : Instruction := ⟨"OUT", 10, 1⟩
def OUTC : Instruction := ⟨"OUTC", 11, 1⟩
def OUTB : Instruction := ⟨"OUTB", 12, 1⟩
def AND : Instruction := ⟨"AND", 13, 2⟩
def OR : Instruction := ⟨"OR", 14, 2⟩
def NOT : Instruction := ⟨"NOT", 15, 2⟩
def XOR : Instruction := ⟨"XOR", 16, 2⟩
def LSL : Instruction := ⟨"LSL", 17, 2⟩
def LSR : Instruction := ⟨"LSR", 18, 2⟩
def ASL : Instruction := ⟨"ASL", 19, 2⟩
def ASR : Instruction := ⟨"ASR", 20, 2⟩
def CSL : Instruction := ⟨"CSL", 21, 2⟩
def CSR : Instruction := ⟨"CSR", 22, 2⟩
def CSLC : Instruction := ⟨"CSLC", 23, 2⟩
def CSRC : Instruction := ⟨"CSRC", 24, 2⟩
def CALL : Instruction := ⟨"CALL", 25, 1⟩
def RET : Instruction := ⟨"RET", 26, 0⟩

def INSTRUCTION_SET : List Instruction :=
  [HLT, ADD, SUB, STA, NOP, LDA, BRA, BRZ,
   BRP, INP, OUT, OUTC, OUTB, AND, OR,
   NOT, XOR, LSL, LSR, ASL, ASR, CSL, CSR,
   CSLC, CSRC, CALL, RET]

def NON_IMMEDIATE_MODE_INSTRUCTIONS : List Instruction := [STA, BRA, BRZ, BRP, CALL]

def NUMBER_INSTRUCTIONS : Nat := 27

/-- architecture.instructions.get_instruction: first matching mnemonic. -/
def get_instruction (instruction : String) : Option Instruction :=
  INSTRUCTION_SET.find? (fun i => i.mnemonic = instruction)

def DAT : String := "DAT"

end instructions

namespace registers

def ACCUMULATOR : Register := ⟨"ACC", ["ACC", "ACCUMULATOR"], 1⟩
def PROGRAM_COUNTER : Register := ⟨"PC", ["PC", "PROGRAMCOUNTER"], 2⟩
def RETURN_REGISTER : Register := ⟨"RR", ["RR", "RETURNREGISTER"], 3⟩
def FLAGS_REGISTER : Register := ⟨"FR", ["FR", "FLAGSREGISTER"], 4⟩

def SPR : List Register := [ACCUMULATOR, PROGRAM_COUNTER, RETURN_REGISTER, FLAGS_REGISTER]

def GPR : Register := ⟨"REG", ["REG", "R", "REGISTER"], 0⟩

def NUMBER_SPRS : Nat := 4

/-- architecture.registers.get_spr: first special register owning the variant. -/
def get_spr (register : String) : Option Register :=
  SPR.find? (fun r => register ∈ r.variants)

end registers

namespace addressingmodes

def REGISTER : AddressingMode := ⟨"%", ["%", "REGISTER"], 0⟩
def DIRECT : AddressingMode := ⟨"@", ["@", "DIRECT"], 1⟩
def INDIRECT : AddressingMode := ⟨">", [">", "INDIRECT"], 2⟩
def IMMEDIATE : AddressingMode := ⟨"#", ["#", "IMMEDIATE"], 3⟩

def NUMBER_MODES : Nat := 4

def ADDRESSING_MODES : List AddressingMode := [REGISTER, DIRECT, INDIRECT, IMMEDIATE]

/-- architecture.addressingmodes.get_addressing_mode. -/
def get_addressing_mode (addressing_mode : String) : Option AddressingMode :=
  ADDRESSING_MODES.find? (fun am => addressing_mode ∈ am.variants)

end addressingmodes

/-! ### csmdefaults.py -/

namespace defaults

/-- csmdefaults.defaults.wrap_bounds with Python's floor-modulo. -/
def wrap_bounds (lower upper value : Int) : Int :=
  lower + (value - lower).fmod (upper + 1 - lower)

def VARIABLE_VALUE : Int := 0

def OPERAND_VALUE : String := "0"

end defaults

namespace symboltypes

def BRANCH : Nat := 1
def VARIABLE : Nat := 2
def PROCEDURE : Nat := 3

end symboltypes

/-! ### csmstructs.py: Memory

An access that fails the bounds check calls `exit(...)` (a fatal
segmentation fault); the fallible operations therefore return Option,
`none` marking program termination. -/

structure Memory where
  number_registers : Nat
  architecture : Nat
  memory_pool : List (List Char)
deriving DecidableEq

/-- Memory.__init__: register slots plus `2 ** (operand_bits - 1)` data slots,
each zero-filled at the architecture width. -/
def Memory.init (number_registers architecture operand_bits : Nat) : Memory :=
  { number_registers := number_registers
    architecture := architecture
    memory_pool := List.replicate (number_registers + 2 ^ (operand_bits - 1))
      (List.replicate architecture '0') }

/-- Memory.__calculate_address: signed offset from the register origin. -/
def Memory.calculate_address (m : Memory) (address : Int) : Option Nat :=
  let pointer : Int := (m.number_registers : Int) + address
  if -1 < pointer ∧ pointer < (m.memory_pool.length : Int) then some pointer.toNat
  else none

/-- Memory.get. -/
def Memory.get (m : Memory) (address : Int) : Option (List Char) :=
  (m.calculate_address address).map (fun p => m.memory_pool.getD p [])

/-- Memory.insert_binary. -/
def Memory.insert_binary (m : Memory) (address : Int) (value : List Char) : Option Memory :=
  (m.calculate_address address).map
    (fun p => { m with memory_pool := m.memory_pool.set p value })

/-- Memory.insert_value. -/
def Memory.insert_value (m : Memory) (address : Int) (value : Int) : Option Memory :=
  m.insert_binary address (signed_int value m.architecture)

/-! ### Memory access lemmas -/

theorem Memory.calculate_address_isSome (m : Memory) (address : Int) :
    (m.calculate_address address).isSome ↔
      (-(m.number_registers : Int) ≤ address ∧
       address < (m.memory_pool.length : Int) - m.number_registers) := by
  unfold Memory.calculate_address
  dsimp only
  split <;> rename_i h <;> simp <;> omega

theorem Memory.calculate_address_eq_some (m : Memory) (address : Int) (p : Nat)
    (h : m.calculate_address address = some p) :
    p = ((m.number_registers : Int) + address).toNat ∧ p < m.memory_pool.length ∧
    0 ≤ (m.number_registers : Int) + address := by
  unfold Memory.calculate_address at h
  dsimp only at h
  split at h
  · rename_i hc
    obtain ⟨h1, h2⟩ := hc
    cases h
    refine ⟨rfl, by omega, by omega⟩
  · exact absurd h (by simp)

theorem Memory.insert_binary_fields (m : Memory) (a : Int) (v : List Char) (m' : Memory)
    (h : m.insert_binary a v = some m') :
    m'.number_registers = m.number_registers ∧ m'.architecture = m.architecture ∧
    m'.memory_pool.length = m.memory_pool.length := by
  unfold Memory.insert_binary at h
  cases hc : m.calculate_address a with
  | none => rw [hc] at h; exact absurd h (by simp)
  | some p =>
    rw [hc] at h
    simp only [Option.map_some', Option.some.injEq] at h
    subst h
    refine ⟨rfl, rfl, by simp⟩

theorem Memory.get_insert_binary_self (m : Memory) (a : Int) (v : List Char) (m' : Memory)
    (h : m.insert_binary a v = some m') : m'.get a = some v := by
  unfold Memory.insert_binary at h
  cases hc : m.calculate_address a with
  | none => rw [hc] at h; exact absurd h (by simp)
  | some p =>
    rw [hc] at h
    simp only [Option.map_some', Option.some.injEq] at h
    subst h
    have hp := Memory.calculate_address_eq_some m a p hc
    have hca : Memory.calculate_address
        { m with memory_pool := m.memory_pool.set p v } a = some p := by
      unfold Memory.calculate_address
      unfold Memory.calculate_address at hc
      simpa only [List.length_set] using hc
    unfold Memory.get
    rw [hca]
    simp only [Option.map_some', Option.some.injEq]
    rw [List.getD_eq_getElem _ _ (by simpa using hp.2.1)]
    exact List.getElem_set_self _

theorem Memory.get_insert_binary_ne (m : Memory) (a : Int) (v : List Char) (m' : Memory)
    (b : Int) (hne : b ≠ a) (h : m.insert_binary a v = some m') : m'.get b = m.get b := by
  unfold Memory.insert_binary at h
  cases hc : m.calculate_address a with
  | none => rw [hc] at h; exact absurd h (by simp)
  | some p =>
    rw [hc] at h
    simp only [Option.map_some', Option.some.injEq] at h
    subst h
    have hp := Memory.calculate_address_eq_some m a p hc
    have hcb : Memory.calculate_address
        { m with memory_pool := m.memory_pool.set p v } b = m.calculate_address b := by
      unfold Memory.calculate_address
      simp only [List.length_set]
    unfold Memory.get
    rw [hcb]
    cases hq : m.calculate_address b with
    | none => simp
    | some q =>
      have hqq := Memory.calculate_address_eq_some m b q hq
      have hpa : ((m.number_registers : Int) + a).toNat = p := hp.1.symm
      have hqb : ((m.number_registers : Int) + b).toNat = q := hqq.1.symm
      have hapos : 0 ≤ (m.number_registers : Int) + a := hp.2.2
      have hbpos : 0 ≤ (m.number_registers : Int) + b := hqq.2.2
      have hpq : p ≠ q := by
        intro hpq
        apply hne
        omega
      simp only [Option.map_some', Option.some.injEq]
      rw [List.getD_eq_getElem _ _ (by simpa using hqq.2.1),
          List.getD_eq_getElem _ _ hqq.2.1]
      exact List.getElem_set_ne (by omega) _

theorem Memory.get_isSome_iff (m : Memory) (address : Int) :
    (m.get address).isSome ↔ (m.calculate_address address).isSome := by
  unfold Memory.get
  cases m.calculate_address address <;> simp

theorem Memory.insert_binary_isSome_iff (m : Memory) (address : Int) (v : List Char) :
    (m.insert_binary address v).isSome ↔ (m.calculate_address address).isSome := by
  unfold Memory.insert_binary
  cases m.calculate_address address <;> simp

/-! ### codegenerator.py: derived field widths -/

namespace CodeGenerator

def machine_operation_bits : Nat := number_bits (instructions.NUMBER_INSTRUCTIONS - 1)

def addressing_mode_bits : Nat := number_bits (addressingmodes.NUMBER_MODES - 1)

def number_registers (cfg_registers : Nat) : Nat := cfg_registers + registers.NUMBER_SPRS

/-- codegenerator operand width: sign bit plus enough bits for the larger of
the register file and the top memory address.  (When the register count
exceeds the memory size the register branch is taken, so the `cfg_memory - 1`
subtraction is only evaluated with cfg_memory at least NUMBER_SPRS.) -/
def operand_bits (cfg_registers cfg_memory : Nat) : Nat :=
  (if number_registers cfg_registers > cfg_memory
   then number_bits (number_registers cfg_registers)
   else number_bits (cfg_memory - 1)) + 1

def total_bits (cfg_registers cfg_memory : Nat) : Nat :=
  machine_operation_bits + addressing_mode_bits + 2 * operand_bits cfg_registers cfg_memory

def number_gprs (cfg_registers : Nat) : Nat :=
  number_registers cfg_registers - registers.NUMBER_SPRS

end CodeGenerator

/-! ### Facts about number_bits on machine-sized inputs -/

theorem number_bits_pred (x i : Nat) :
    (decide ((x <<< i) &&& 0x80000000 ≠ 0)) = true ↔
      (i ≤ 31 ∧ x.testBit (31 - i) = true) := by
  have h80 : (0x80000000 : Nat) = 2 ^ 31 := by norm_num
  rw [decide_eq_true_iff, h80, Nat.and_two_pow]
  have hiff : ((x <<< i).testBit 31).toNat * 2 ^ 31 ≠ 0 ↔ (x <<< i).testBit 31 = true := by
    cases h : (x <<< i).testBit 31 <;> simp [h]
  rw [hiff, Nat.testBit_shiftLeft]
  simp [Bool.and_eq_true, decide_eq_true_iff, ge_iff_le]

theorem testBit_log2 (x : Nat) (hx : 1 ≤ x) : x.testBit x.log2 = true := by
  rw [Nat.testBit_to_div_mod, decide_eq_true_iff]
  have h1 : 2 ^ x.log2 ≤ x := Nat.log2_self_le (by omega)
  have h2 : x < 2 ^ (x.log2 + 1) := Nat.lt_log2_self
  have hdiv : x / 2 ^ x.log2 = 1 := by
    apply Nat.div_eq_of_lt_le (by omega)
    have : (1 + 1) * 2 ^ x.log2 = 2 ^ (x.log2 + 1) := by ring
    omega
  rw [hdiv]

theorem find?_range_le (n : Nat) (p : Nat → Bool) (b j : Nat)
    (hf : (List.range n).find? p = some b) (hj : j < n) (hp : p j = true) : b ≤ j := by
  have hsplit : List.range n = List.range (j + 1) ++ (List.range (n - (j + 1))).map (j + 1 + ·) := by
    rw [← List.range_add]
    congr 1
    omega
  rw [hsplit, List.find?_append] at hf
  cases hfirst : (List.range (j + 1)).find? p with
  | some b' =>
    rw [hfirst] at hf
    simp only [Option.or_some] at hf
    cases hf
    have := List.mem_of_find?_eq_some hfirst
    simp at this
    omega
  | none =>
    exfalso
    have : ∀ a ∈ List.range (j + 1), ¬ p a = true := by
      intro a ha
      exact List.find?_eq_none.mp hfirst a ha
    exact this j (by simp) hp

theorem number_bits_ge_one (x : Nat) (h1 : 1 ≤ x) (h2 : x < 2 ^ 32) : 1 ≤ number_bits x := by
  have hL : x.log2 ≤ 31 := by
    have := (Nat.log2_lt (by omega : x ≠ 0)).mpr h2
    omega
  have hwit : (decide ((x <<< (31 - x.log2)) &&& 0x80000000 ≠ 0)) = true := by
    rw [number_bits_pred]
    refine ⟨by omega, ?_⟩
    rw [show 31 - (31 - x.log2) = x.log2 from by omega]
    exact testBit_log2 x h1
  unfold number_bits
  cases hf : (List.range 32).find? (fun i => (x <<< i) &&& 0x80000000 ≠ 0) with
  | none =>
    exfalso
    have : ∀ a ∈ List.range 32, ¬ (fun i => decide ((x <<< i) &&& 0x80000000 ≠ 0)) a = true := by
      intro a ha
      exact List.find?_eq_none.mp hf a ha
    exact this (31 - x.log2) (by simp; omega) hwit
  | some b =>
    have hb := List.mem_of_find?_eq_some hf
    simp at hb
    show 1 ≤ 32 - b
    omega

theorem lt_two_pow_number_bits (x : Nat) (h1 : 1 ≤ x) (h2 : x < 2 ^ 32) :
    x < 2 ^ number_bits x := by
  have hL : x.log2 ≤ 31 := by
    have := (Nat.log2_lt (by omega : x ≠ 0)).mpr h2
    omega
  have hwit : (decide ((x <<< (31 - x.log2)) &&& 0x80000000 ≠ 0)) = true := by
    rw [number_bits_pred]
    refine ⟨by omega, ?_⟩
    rw [show 31 - (31 - x.log2) = x.log2 from by omega]
    exact testBit_log2 x h1
  unfold number_bits
  cases hf : (List.range 32).find? (fun i => (x <<< i) &&& 0x80000000 ≠ 0) with
  | none =>
    exfalso
    have : ∀ a ∈ List.range 32, ¬ (fun i => decide ((x <<< i) &&& 0x80000000 ≠ 0)) a = true := by
      intro a ha
      exact List.find?_eq_none.mp hf a ha
    exact this (31 - x.log2) (by simp; omega) hwit
  | some b =>
    have hble : b ≤ 31 - x.log2 :=
      find?_range_le 32 _ b (31 - x.log2) hf (by omega) hwit
    have hlt : x < 2 ^ (x.log2 + 1) := Nat.lt_log2_self
    show x < 2 ^ (32 - b)
    calc x < 2 ^ (x.log2 + 1) := hlt
    _ ≤ 2 ^ (32 - b) := by
        apply Nat.pow_le_pow_right (by norm_num)
        omega

/-! ### Claim C1: memory bounds checking -/

set_option maxRecDepth 4000 in
/-- C1 counterexample: with 3 configured GPRs (R = 7 register slots) and
configured memory size M = 100, the derived operand width is 8, the pool
holds 2^7 = 128 data slots, and a get at address 100 — outside the claimed
valid range [-7, 99] — succeeds instead of seg-faulting. -/
theorem memory_get_beyond_configured_size :
    ((Memory.init (CodeGenerator.number_registers 3) (CodeGenerator.total_bits 3 100)
        (CodeGenerator.operand_bits 3 100)).get 100).isSome = true ∧
    ¬ ((100 : Int) ≤ (100 : Int) - 1) := by
  constructor
  · decide
  · omega

/-- C1 (amended): for a Memory built the way CodeGenerator.run builds it
(R = gprs + 4 register slots, operand width derived from the configuration),
get, insert_binary and insert_value all succeed exactly when the signed
address lies in [-(R), 2^(operand_bits - 1) - 1]; this data range covers at
least the configured [0, M-1] whenever M fits the 32-bit scan of
number_bits, and any access outside the range is the fatal segmentation
fault (modelled as `none`, the program exits before touching the pool). -/
theorem memory_access_exact_range (cfg_registers cfg_memory architecture : Nat)
    (address : Int) (v : List Char) (iv : Int)
    (hm : 4 ≤ cfg_memory ∨ cfg_memory < CodeGenerator.number_registers cfg_registers)
    (hm32 : cfg_memory ≤ 2 ^ 32) (hr32 : CodeGenerator.number_registers cfg_registers < 2 ^ 32) :
    (((Memory.init (CodeGenerator.number_registers cfg_registers) architecture
        (CodeGenerator.operand_bits cfg_registers cfg_memory)).get address).isSome ↔
      (-(CodeGenerator.number_registers cfg_registers : Int) ≤ address ∧
        address < 2 ^ (CodeGenerator.operand_bits cfg_registers cfg_memory - 1))) ∧
    (((Memory.init (CodeGenerator.number_registers cfg_registers) architecture
        (CodeGenerator.operand_bits cfg_registers cfg_memory)).insert_binary address v).isSome ↔
      (-(CodeGenerator.number_registers cfg_registers : Int) ≤ address ∧
        address < 2 ^ (CodeGenerator.operand_bits cfg_registers cfg_memory - 1))) ∧
    (((Memory.init (CodeGenerator.number_registers cfg_registers) architecture
        (CodeGenerator.operand_bits cfg_registers cfg_memory)).insert_value address iv).isSome ↔
      (-(CodeGenerator.number_registers cfg_registers : Int) ≤ address ∧
        address < 2 ^ (CodeGenerator.operand_bits cfg_registers cfg_memory - 1))) ∧
    ((cfg_memory : Int) ≤ 2 ^ (CodeGenerator.operand_bits cfg_registers cfg_memory - 1)) := by
  set R := CodeGenerator.number_registers cfg_registers with hR
  set ob := CodeGenerator.operand_bits cfg_registers cfg_memory with hob
  have hpool : (Memory.init R architecture ob).memory_pool.length = R + 2 ^ (ob - 1) := by
    simp [Memory.init]
  have hcalc : ((Memory.init R architecture ob).calculate_address address).isSome ↔
      (-(R : Int) ≤ address ∧ address < 2 ^ (ob - 1)) := by
    rw [Memory.calculate_address_isSome, hpool]
    have hnr : (Memory.init R architecture ob).number_registers = R := rfl
    rw [hnr]
    constructor
    · rintro ⟨h1, h2⟩
      constructor
      · omega
      · have : ((R + 2 ^ (ob - 1) : Nat) : Int) = (R : Int) + 2 ^ (ob - 1) := by
          push_cast; ring
        omega
    · rintro ⟨h1, h2⟩
      constructor
      · omega
      · have : ((R + 2 ^ (ob - 1) : Nat) : Int) = (R : Int) + 2 ^ (ob - 1) := by
          push_cast; ring
        omega
  refine ⟨?_, ?_, ?_, ?_⟩
  · rw [Memory.get_isSome_iff]; exact hcalc
  · rw [Memory.insert_binary_isSome_iff]; exact hcalc
  · rw [Memory.insert_value, Memory.insert_binary_isSome_iff]; exact hcalc
  · -- coverage of the configured size: M <= 2^(ob-1)
    rw [hob]
    unfold CodeGenerator.operand_bits
    simp only [Nat.add_sub_cancel]
    have hRdef : R = cfg_registers + 4 := by rw [hR]; rfl
    split
    · rename_i hgt
      rw [← hR] at hgt ⊢
      have h2 := lt_two_pow_number_bits R (by omega) hr32
      have h3 : cfg_memory < 2 ^ number_bits R := lt_trans (by omega) h2
      exact_mod_cast h3.le
    · rename_i hle
      rw [← hR] at hle
      have hm4 : 4 ≤ cfg_memory := by
        rcases hm with h | h <;> omega
      have h1 : 1 ≤ cfg_memory - 1 := by omega
      have h32 : cfg_memory - 1 < 2 ^ 32 := by
        have hp : (2 : Nat) ^ 32 = 4294967296 := by norm_num
        omega
      have h2 := lt_two_pow_number_bits (cfg_memory - 1) h1 h32
      have h3 : cfg_memory ≤ 2 ^ number_bits (cfg_memory - 1) := by omega
      exact_mod_cast h3

/-! ### Python int() on the numeric token texts reaching the code generator -/

def str_digits_to_nat (l : List Char) : Nat :=
  l.foldl (fun a c => 10 * a + (c.toNat - 48)) 0

/-- Python `int(text)` for the sign-and-digits texts carried by VALUE tokens
and the digit suffixes carried by GPR REGISTER tokens. -/
def py_int (s : String) : Int :=
  match s.data with
  | [] => 0
  | c :: rest =>
    if c = '-' then -(str_digits_to_nat rest : Int)
    else if c = '+' then (str_digits_to_nat rest : Int)
    else (str_digits_to_nat (c :: rest) : Int)

/-- codegenerator.CodeGenerator.__resolve_operand, with the object state
(GPR count, the scope's symbol table and the global symbol table) passed
explicitly.  An unresolvable global label raises KeyError (none); a token of
any other type falls through Python's match and yields None (none). -/
def CodeGenerator.resolve_operand (number_gprs : Int)
    (global_symbol_table local_symbol_table : List (String × Symbol))
    (operand : Operand) : Option Int :=
  if operand.value.type = tokentypes.LABEL then
    match table_get local_symbol_table operand.value.value with
    | some symbol => some symbol.value
    | none =>
      match table_get global_symbol_table operand.value.value with
      | some symbol => some symbol.value
      | none => none
  else if operand.value.type = tokentypes.VALUE then
    some (py_int operand.value.value)
  else if operand.value.type = tokentypes.REGISTER then
    match registers.get_spr operand.value.value with
    | none => some (defaults.wrap_bounds 1 number_gprs (py_int operand.value.value) * -1)
    | some spr => some ((number_gprs + (spr.offset : Int)) * -1)
  else none

theorem wrap_bounds_range (G v : Int) (hG : 1 ≤ G) :
    1 ≤ defaults.wrap_bounds 1 G v ∧ defaults.wrap_bounds 1 G v ≤ G := by
  have hfm : defaults.wrap_bounds 1 G v = 1 + (v - 1) % (G + 1 - 1) := by
    unfold defaults.wrap_bounds
    rw [Int.fmod_eq_emod _ (by omega)]
  have h1 := Int.emod_nonneg (v - 1) (by omega : (G + 1 - 1) ≠ 0)
  have h2 := Int.emod_lt_of_pos (v - 1) (by omega : (0 : Int) < G + 1 - 1)
  omega

/-! ### Claim C3: operand encoding at code generation -/

/-- C3 counterexample: an immediate-literal operand with the negative text
"-5" is encoded as the negative integer -5 by __resolve_operand, not as a
non-negative value. -/
theorem resolve_operand_negative_immediate :
    CodeGenerator.resolve_operand 3 [] []
      { addressing_mode := ⟨tokentypes.ADDRESSING_MODE, "#", -1, -1⟩,
        value := ⟨tokentypes.VALUE, "-5", -1, -1⟩ } = some (-5) ∧
    ¬ ((0 : Int) ≤ -5) := by
  constructor
  · decide
  · omega

/-- C3 (amended): __resolve_operand encodes a GPR operand with numeric text k
as the negation of k wrapped into [1, G] by modulo (hence always in
[-G, -1], so GPR 0 is never encoded) and a special register with offset o as
-(G + o).  A label resolves to its symbol's stored value (local table first,
falling back to the global table) and an immediate literal resolves to its
literal integer value; these are non-negative — and hence sign-discriminable
from register references — whenever the symbol values are non-negative and
the literal carries no minus sign, but a negative literal is encoded
negative. -/
theorem resolve_operand_encoding (G : Int) (hG : 1 ≤ G)
    (gtab ltab : List (String × Symbol)) (am tok : TypedToken) :
    (tok.type = tokentypes.REGISTER → registers.get_spr tok.value = none →
      CodeGenerator.resolve_operand G gtab ltab ⟨am, tok⟩
          = some (defaults.wrap_bounds 1 G (py_int tok.value) * -1) ∧
        -G ≤ defaults.wrap_bounds 1 G (py_int tok.value) * -1 ∧
        defaults.wrap_bounds 1 G (py_int tok.value) * -1 ≤ -1) ∧
    (∀ spr, tok.type = tokentypes.REGISTER → registers.get_spr tok.value = some spr →
      CodeGenerator.resolve_operand G gtab ltab ⟨am, tok⟩
        = some ((G + (spr.offset : Int)) * -1)) ∧
    (tok.type = tokentypes.VALUE →
      CodeGenerator.resolve_operand G gtab ltab ⟨am, tok⟩ = some (py_int tok.value) ∧
      (tok.value.data.head? ≠ some '-' → 0 ≤ py_int tok.value)) ∧
    (tok.type = tokentypes.LABEL →
      CodeGenerator.resolve_operand G gtab ltab ⟨am, tok⟩ =
        (match table_get ltab tok.value with
         | some symbol => some symbol.value
         | none => (table_get gtab tok.value).map Symbol.value)) := by
  refine ⟨?_, ?_, ?_, ?_⟩
  · intro hty hspr
    have hwb := wrap_bounds_range G (py_int tok.value) hG
    have hres : CodeGenerator.resolve_operand G gtab ltab ⟨am, tok⟩
        = some (defaults.wrap_bounds 1 G (py_int tok.value) * -1) := by
      unfold CodeGenerator.resolve_operand
      simp only [hty]
      rw [if_neg (by decide), if_neg (by decide), if_pos trivial, hspr]
    exact ⟨hres, by omega, by omega⟩
  · intro spr hty hspr
    unfold CodeGenerator.resolve_operand
    simp only [hty]
    rw [if_neg (by decide), if_neg (by decide), if_pos trivial, hspr]
  · intro hty
    constructor
    · unfold CodeGenerator.resolve_operand
      simp only [hty]
      rw [if_neg (by decide), if_pos trivial]
    · intro hhead
      cases hdata : tok.value.data with
      | nil => simp [py_int, hdata]
      | cons c rest =>
        rw [hdata] at hhead
        simp only [List.head?, ne_eq, Option.some.injEq] at hhead
        have hminus : ¬ c = '-' := hhead
        simp only [py_int, hdata]
        rw [if_neg hminus]
        by_cases hplus : c = '+'
        · rw [if_pos hplus]
          positivity
        · rw [if_neg hplus]
          positivity
  · intro hty
    unfold CodeGenerator.resolve_operand
    simp only [hty]
    rw [if_pos trivial]
    cases hl : table_get ltab tok.value with
    | some s => rfl
    | none =>
      cases hg : table_get gtab tok.value with
      | some s => rfl
      | none => rfl

/-- C3 amended witness: G = 3, a GPR token "5", the special register "PC", an
immediate literal "12" and a label "X" stored at value 7. -/
theorem resolve_operand_encoding_witness :
    ((1 : Int) ≤ 3) ∧
    ((⟨tokentypes.REGISTER, "5", -1, -1⟩ : TypedToken).type = tokentypes.REGISTER →
      registers.get_spr (⟨tokentypes.REGISTER, "5", -1, -1⟩ : TypedToken).value = none →
      CodeGenerator.resolve_operand 3 [] [("X", ⟨7, 1⟩)]
          ⟨⟨tokentypes.ADDRESSING_MODE, "%", -1, -1⟩, ⟨tokentypes.REGISTER, "5", -1, -1⟩⟩
          = some (defaults.wrap_bounds 1 3
              (py_int (⟨tokentypes.REGISTER, "5", -1, -1⟩ : TypedToken).value) * -1) ∧
        -3 ≤ defaults.wrap_bounds 1 3
              (py_int (⟨tokentypes.REGISTER, "5", -1, -1⟩ : TypedToken).value) * -1 ∧
        defaults.wrap_bounds 1 3
              (py_int (⟨tokentypes.REGISTER, "5", -1, -1⟩ : TypedToken).value) * -1 ≤ -1) :=
  ⟨by decide,
   (resolve_operand_encoding 3 (by decide) [] [("X", ⟨7, 1⟩)]
      ⟨tokentypes.ADDRESSING_MODE, "%", -1, -1⟩ ⟨tokentypes.REGISTER, "5", -1, -1⟩).1⟩

/-- C1 amended witness at the minimum configuration (3 GPRs, 100 memory
cells), probing address 100. -/
theorem memory_access_exact_range_witness :
    ((4 ≤ 100 ∨ 100 < CodeGenerator.number_registers 3) ∧ 100 ≤ 2 ^ 32 ∧
      CodeGenerator.number_registers 3 < 2 ^ 32) ∧
    ((((Memory.init (CodeGenerator.number_registers 3) (CodeGenerator.total_bits 3 100)
        (CodeGenerator.operand_bits 3 100)).get 100).isSome ↔
      (-(CodeGenerator.number_registers 3 : Int) ≤ 100 ∧
        (100 : Int) < 2 ^ (CodeGenerator.operand_bits 3 100 - 1))) ∧
     (((Memory.init (CodeGenerator.number_registers 3) (CodeGenerator.total_bits 3 100)
        (CodeGenerator.operand_bits 3 100)).insert_binary 100 ['0']).isSome ↔
      (-(CodeGenerator.number_registers 3 : Int) ≤ 100 ∧
        (100 : Int) < 2 ^ (CodeGenerator.operand_bits 3 100 - 1))) ∧
     (((Memory.init (CodeGenerator.number_registers 3) (CodeGenerator.total_bits 3 100)
        (CodeGenerator.operand_bits 3 100)).insert_value 100 7).isSome ↔
      (-(CodeGenerator.number_registers 3 : Int) ≤ 100 ∧
        (100 : Int) < 2 ^ (CodeGenerator.operand_bits 3 100 - 1))) ∧
     ((100 : Int) ≤ 2 ^ (CodeGenerator.operand_bits 3 100 - 1))) :=
  ⟨⟨Or.inl (by norm_num), by norm_num, by decide⟩,
   memory_access_exact_range 3 100 (CodeGenerator.total_bits 3 100) 100 ['0'] 7
     (Or.inl (by norm_num)) (by norm_num) (by decide)⟩

/-! ### machineoperations.py

Each Python operation mutates the shared Memory; here every operation takes
the memory and returns the next machine state.  HLT exits cleanly (halted);
a failed memory access exits fatally (none).  Console output is external
behaviour and leaves the memory unchanged; INP's already-parsed integer from
standard input is carried in the `input_value` field. -/

inductive StepResult where
  | next (memory : Memory)
  | halted
deriving DecidableEq

structure MachineOperations where
  architecture : Nat
  gprs : Nat
  input_value : Int
deriving DecidableEq

namespace MachineOperations

def program_counter_address (mo : MachineOperations) : Int :=
  ((registers.PROGRAM_COUNTER.offset + mo.gprs : Nat) : Int) * -1

def flags_register_address (mo : MachineOperations) : Int :=
  ((registers.FLAGS_REGISTER.offset + mo.gprs : Nat) : Int) * -1

def return_register_address (mo : MachineOperations) : Int :=
  ((registers.RETURN_REGISTER.offset + mo.gprs : Nat) : Int) * -1

def opHLT (_mo : MachineOperations) (_mem : Memory) (_source _destination : MemoryValue) :
    Option StepResult :=
  some .halted

def opADD (_mo : MachineOperations) (mem : Memory) (source destination : MemoryValue) :
    Option StepResult :=
  (mem.insert_value destination.address (destination.value + source.value)).map .next

def opSUB (_mo : MachineOperations) (mem : Memory) (source destination : MemoryValue) :
    Option StepResult :=
  (mem.insert_value destination.address (destination.value - source.value)).map .next

def opSTA (_mo : MachineOperations) (mem : Memory) (source destination : MemoryValue) :
    Option StepResult :=
  (mem.insert_binary source.address destination.bits).map .next

def opNOP (_mo : MachineOperations) (mem : Memory) (_source _destination : MemoryValue) :
    Option StepResult :=
  some (.next mem)

def opLDA (_mo : MachineOperations) (mem : Memory) (source destination : MemoryValue) :
    Option StepResult :=
  (mem.insert_binary destination.address source.bits).map .next

def opBRA (mo : MachineOperations) (mem : Memory) (source _destination : MemoryValue) :
    Option StepResult :=
  (mem.insert_value mo.program_counter_address source.address).map .next

def opBRZ (mo : MachineOperations) (mem : Memory) (source destination : MemoryValue) :
    Option StepResult :=
  if destination.value = 0 then
    (mem.insert_value mo.program_counter_address source.address).map .next
  else some (.next mem)

def opBRP (mo : MachineOperations) (mem : Memory) (source destination : MemoryValue) :
    Option StepResult :=
  if destination.value > -1 then
    (mem.insert_value mo.program_counter_address source.address).map .next
  else some (.next mem)

def opINP (mo : MachineOperations) (mem : Memory) (source _destination : MemoryValue) :
    Option StepResult :=
  (mem.insert_value source.address mo.input_value).map .next

def opOUT (_mo : MachineOperations) (mem : Memory) (_source _destination : MemoryValue) :
    Option StepResult :=
  some (.next mem)

def opOUTC (_mo : MachineOperations) (mem : Memory) (_source _destination : MemoryValue) :
    Option StepResult :=
  some (.next mem)

def opOUTB (_mo : MachineOperations) (mem : Memory) (_source _destination : MemoryValue) :
    Option StepResult :=
  some (.next mem)

def opAND (_mo : MachineOperations) (mem : Memory) (source destination : MemoryValue) :
    Option StepResult :=
  (mem.insert_binary destination.address (bitwise_and source.bits destination.bits)).map .next

def opOR (_mo : MachineOperations) (mem : Memory) (source destination : MemoryValue) :
    Option StepResult :=
  (mem.insert_binary destination.address (bitwise_or source.bits destination.bits)).map .next

def opNOT (_mo : MachineOperations) (mem : Memory) (source destination : MemoryValue) :
    Option StepResult :=
  (mem.insert_binary destination.address (bitwise_not source.bits)).map .next

def opXOR (_mo : MachineOperations) (mem : Memory) (source destination : MemoryValue) :
    Option StepResult :=
  (mem.insert_binary destination.address (bitwise_xor source.bits destination.bits)).map .next

/-- Shared body of the four carry-emitting shifts: on a non-null shift write
the carry (left padded to the architecture width) into FR, then the shifted
value into the destination. -/
def apply_carry_shift (mo : MachineOperations) (mem : Memory) (destination : MemoryValue)
    (shift : Option (Char × List Char)) : Option StepResult :=
  match shift with
  | none => some (.next mem)
  | some (carry_bit, value) =>
    match mem.insert_binary mo.flags_register_address
        (pad_binary [carry_bit] ((mo.architecture : Int) - 1) '0') with
    | none => none
    | some m1 => (m1.insert_binary destination.address value).map .next

def opLSL (mo : MachineOperations) (mem : Memory) (source destination : MemoryValue) :
    Option StepResult :=
  apply_carry_shift mo mem destination (logical_shift_left destination.bits source.value)

def opLSR (mo : MachineOperations) (mem : Memory) (source destination : MemoryValue) :
    Option StepResult :=
  apply_carry_shift mo mem destination (logical_shift_right destination.bits source.value)

def opASL (mo : MachineOperations) (mem : Memory) (source destination : MemoryValue) :
    Option StepResult :=
  apply_carry_shift mo mem destination (arithmetic_shift_left destination.bits source.value)

def opASR (mo : MachineOperations) (mem : Memory) (source destination : MemoryValue) :
    Option StepResult :=
  apply_carry_shift mo mem destination (arithmetic_shift_right destination.bits source.value)

def opCSL (_mo : MachineOperations) (mem : Memory) (source destination : MemoryValue) :
    Option StepResult :=
  match circular_shift_left destination.bits source.value with
  | some value =>
    if value = [] then some (.next mem)
    else (mem.insert_binary destination.address value).map .next
  | none => some (.next mem)

def opCSR (_mo : MachineOperations) (mem : Memory) (source destination : MemoryValue) :
    Option StepResult :=
  match circular_shift_right destination.bits source.value with
  | some value =>
    if value = [] then some (.next mem)
    else (mem.insert_binary destination.address value).map .next
  | none => some (.next mem)

def opCSLC (mo : MachineOperations) (mem : Memory) (source destination : MemoryValue) :
    Option StepResult :=
  match mem.get mo.flags_register_address with
  | none => none
  | some flags =>
    match flags.getLast? with
    | none => none
    | some carry_bit =>
      apply_carry_shift mo mem destination
        (circular_shift_left_carry destination.bits carry_bit source.value)

def opCSRC (mo : MachineOperations) (mem : Memory) (source destination : MemoryValue) :
    Option StepResult :=
  match mem.get mo.flags_register_address with
  | none => none
  | some flags =>
    match flags.getLast? with
    | none => none
    | some carry_bit =>
      apply_carry_shift mo mem destination
        (circular_shift_right_carry destination.bits carry_bit source.value)

/-- MachineOperations.CALL: RR receives the bits currently in PC, then PC
receives the source operand's address as a signed value. -/
def opCALL (mo : MachineOperations) (mem : Memory) (source _destination : MemoryValue) :
    Option StepResult :=
  match mem.get mo.program_counter_address with
  | none => none
  | some pc_bits =>
    match mem.insert_binary mo.return_register_address pc_bits with
    | none => none
    | some m1 => (m1.insert_value mo.program_counter_address source.address).map .next

/-- MachineOperations.RET: PC receives the bits currently in RR. -/
def opRET (mo : MachineOperations) (mem : Memory) (_source _destination : MemoryValue) :
    Option StepResult :=
  match mem.get mo.return_register_address with
  | none => none
  | some rr_bits => (mem.insert_binary mo.program_counter_address rr_bits).map .next

/-- MachineOperations.execute: dispatch on the opcode as an index into the
27-entry table; any opcode beyond the table is a fatal IndexError. -/
def execute (mo : MachineOperations) (mem : Memory) (opcode : Nat)
    (source destination : MemoryValue) : Option StepResult :=
  match opcode with
  | 0 => mo.opHLT mem source destination
  | 1 => mo.opADD mem source destination
  | 2 => mo.opSUB mem source destination
  | 3 => mo.opSTA mem source destination
  | 4 => mo.opNOP mem source destination
  | 5 => mo.opLDA mem source destination
  | 6 => mo.opBRA mem source destination
  | 7 => mo.opBRZ mem source destination
  | 8 => mo.opBRP mem source destination
  | 9 => mo.opINP mem source destination
  | 10 => mo.opOUT mem source destination
  | 11 => mo.opOUTC mem source destination
  | 12 => mo.opOUTB mem source destination
  | 13 => mo.opAND mem source destination
  | 14 => mo.opOR mem source destination
  | 15 => mo.opNOT mem source destination
  | 16 => mo.opXOR mem source destination
  | 17 => mo.opLSL mem source destination
  | 18 => mo.opLSR mem source destination
  | 19 => mo.opASL mem source destination
  | 20 => mo.opASR mem source destination
  | 21 => mo.opCSL mem source destination
  | 22 => mo.opCSR mem source destination
  | 23 => mo.opCSLC mem source destination
  | 24 => mo.opCSRC mem source destination
  | 25 => mo.opCALL mem source destination
  | 26 => mo.opRET mem source destination
  | _ => none

end MachineOperations

/-! ### imports/virtualmachine.py -/

structure VirtualMachine where
  memory : Memory
  machine_operation_bits : Nat
  addressing_mode_bits : Nat
  operand_bits : Nat
  number_gprs : Nat
  input_value : Int
deriving DecidableEq

namespace VirtualMachine

def architecture (vm : VirtualMachine) : Nat :=
  vm.machine_operation_bits + vm.addressing_mode_bits + 2 * vm.operand_bits

def program_counter_address (vm : VirtualMachine) : Int :=
  ((registers.PROGRAM_COUNTER.offset + vm.number_gprs : Nat) : Int) * -1

def machine_operations (vm : VirtualMachine) : MachineOperations :=
  ⟨vm.architecture, vm.number_gprs, vm.input_value⟩

/-- VirtualMachine.__resolve_operand: the memory read of the raw operand
address happens before the mode dispatch, also for immediate operands. -/
def resolve_operand (vm : VirtualMachine) (mem : Memory)
    (addressing_mode operand : List Char) : Option MemoryValue :=
  let operand_value : Int := read_signed_int operand
  match mem.get operand_value with
  | none => none
  | some binary_at_operand =>
    let value_at_operand : Int := read_signed_int binary_at_operand
    if read_unsigned_int addressing_mode = addressingmodes.REGISTER.opcode ∨
       read_unsigned_int addressing_mode = addressingmodes.DIRECT.opcode then
      some ⟨operand_value, binary_at_operand, value_at_operand⟩
    else if read_unsigned_int addressing_mode = addressingmodes.INDIRECT.opcode then
      match mem.get value_at_operand with
      | none => none
      | some b2 => some ⟨value_at_operand, b2, read_signed_int b2⟩
    else if read_unsigned_int addressing_mode = addressingmodes.IMMEDIATE.opcode then
      some ⟨operand_value, signed_int operand_value vm.architecture, operand_value⟩
    else none

/-- VirtualMachine.__handle_instruction: write PC+1 (unsigned, W wide) into
the PC register, slice the fetched word into opcode, mode, source and
destination fields, resolve both operands against the updated memory
(destination always in register mode "0"), and dispatch. -/
def handle_instruction (vm : VirtualMachine) (machine_code : List Char)
    (program_counter : Nat) : Option StepResult :=
  match vm.memory.insert_binary vm.program_counter_address
      (unsigned_int ((program_counter : Int) + 1) vm.architecture) with
  | none => none
  | some mem1 =>
    let machine_operation := machine_code.take vm.machine_operation_bits
    let addressing_mode :=
      (machine_code.drop vm.machine_operation_bits).take vm.addressing_mode_bits
    let source_operand :=
      (machine_code.drop (vm.machine_operation_bits + vm.addressing_mode_bits)).take
        vm.operand_bits
    let destination_operand :=
      (machine_code.drop
        (vm.machine_operation_bits + vm.addressing_mode_bits + vm.operand_bits)).take
        vm.operand_bits
    match vm.resolve_operand mem1 addressing_mode source_operand with
    | none => none
    | some src =>
      match vm.resolve_operand mem1 ['0'] destination_operand with
      | none => none
      | some dst =>
        vm.machine_operations.execute mem1 (read_unsigned_int machine_operation) src dst

end VirtualMachine

theorem read_unsigned_int_unsigned_int (v : Int) (b : Nat) :
    read_unsigned_int (unsigned_int v b) = (overflow v (max b 1)).toNat := by
  unfold unsigned_int pad_binary
  rw [read_unsigned_int_append_zeros, read_unsigned_int_to_binary]

/-! ### Claim C7: STA and LDA writes and their frame -/

/-- C7: STA writes the destination operand's bits to the source operand's
address, LDA writes the source operand's bits to the destination operand's
address (deliberately asymmetric), and in both cases every other memory or
register slot keeps its previous contents. -/
theorem sta_lda_write_and_frame (mo : MachineOperations) (mem : Memory)
    (src dst : MemoryValue) (m1 m2 : Memory)
    (hsta : mo.opSTA mem src dst = some (.next m1))
    (hlda : mo.opLDA mem src dst = some (.next m2)) :
    (m1.get src.address = some dst.bits ∧
      ∀ b, b ≠ src.address → m1.get b = mem.get b) ∧
    (m2.get dst.address = some src.bits ∧
      ∀ b, b ≠ dst.address → m2.get b = mem.get b) := by
  unfold MachineOperations.opSTA at hsta
  unfold MachineOperations.opLDA at hlda
  have hins1 : mem.insert_binary src.address dst.bits = some m1 := by
    cases hi : mem.insert_binary src.address dst.bits with
    | none => rw [hi] at hsta; exact absurd hsta (by simp)
    | some mm =>
      rw [hi] at hsta
      simp only [Option.map_some', Option.some.injEq, StepResult.next.injEq] at hsta
      rw [hsta]
  have hins2 : mem.insert_binary dst.address src.bits = some m2 := by
    cases hi : mem.insert_binary dst.address src.bits with
    | none => rw [hi] at hlda; exact absurd hlda (by simp)
    | some mm =>
      rw [hi] at hlda
      simp only [Option.map_some', Option.some.injEq, StepResult.next.injEq] at hlda
      rw [hlda]
  refine ⟨⟨Memory.get_insert_binary_self _ _ _ _ hins1,
           fun b hb => Memory.get_insert_binary_ne _ _ _ _ b hb hins1⟩,
          ⟨Memory.get_insert_binary_self _ _ _ _ hins2,
           fun b hb => Memory.get_insert_binary_ne _ _ _ _ b hb hins2⟩⟩

/-- C7 witness: a 4-slot memory; STA writes "111" at address 0, LDA writes
"010" at address 1, other slots untouched. -/
theorem sta_lda_write_and_frame_witness :
    ((⟨3, 3, 0⟩ : MachineOperations).opSTA (Memory.init 2 3 2)
        ⟨0, ['0', '1', '0'], 2⟩ ⟨1, ['1', '1', '1'], -3⟩ =
      some (.next ⟨2, 3, (List.replicate 4 (List.replicate 3 '0')).set 2 ['1', '1', '1']⟩)) ∧
    ((⟨3, 3, 0⟩ : MachineOperations).opLDA (Memory.init 2 3 2)
        ⟨0, ['0', '1', '0'], 2⟩ ⟨1, ['1', '1', '1'], -3⟩ =
      some (.next ⟨2, 3, (List.replicate 4 (List.replicate 3 '0')).set 3 ['0', '1', '0']⟩)) ∧
    (((⟨2, 3, (List.replicate 4 (List.replicate 3 '0')).set 2 ['1', '1', '1']⟩ : Memory).get 0 =
        some ['1', '1', '1'] ∧
      ∀ b, b ≠ (0 : Int) →
        (⟨2, 3, (List.replicate 4 (List.replicate 3 '0')).set 2 ['1', '1', '1']⟩ : Memory).get b =
          (Memory.init 2 3 2).get b) ∧
     ((⟨2, 3, (List.replicate 4 (List.replicate 3 '0')).set 3 ['0', '1', '0']⟩ : Memory).get 1 =
        some ['0', '1', '0'] ∧
      ∀ b, b ≠ (1 : Int) →
        (⟨2, 3, (List.replicate 4 (List.replicate 3 '0')).set 3 ['0', '1', '0']⟩ : Memory).get b =
          (Memory.init 2 3 2).get b)) :=
  ⟨by decide, by decide,
   sta_lda_write_and_frame ⟨3, 3, 0⟩ (Memory.init 2 3 2)
     ⟨0, ['0', '1', '0'], 2⟩ ⟨1, ['1', '1', '1'], -3⟩ _ _ (by decide) (by decide)⟩

/-! ### Claim C6: CALL stores the already-incremented PC; RET resumes there -/

theorem machine_operations_pc_address (vm : VirtualMachine) :
    vm.machine_operations.program_counter_address = vm.program_counter_address := rfl

/-- C6: when the VM fetches a CALL from address p, the cycle first writes the
unsigned W-wide encoding of p+1 into PC; after CALL executes, RR holds that
encoding of p+1 and PC holds the source operand's address (signed, W wide).
A later RET executed with RR unmodified copies RR into PC, so the program
counter read for the next fetch is p+1. -/
theorem call_then_ret_resumes_after_call
    (vm : VirtualMachine) (p : Nat) (code : List Char) (mem1 : Memory)
    (src : MemoryValue) (m' : Memory)
    (harch : vm.memory.architecture = vm.architecture)
    (hpcw : vm.memory.insert_binary vm.program_counter_address
        (unsigned_int ((p : Int) + 1) vm.architecture) = some mem1)
    (hop : read_unsigned_int (code.take vm.machine_operation_bits) = 25)
    (hsrc : vm.resolve_operand mem1
        ((code.drop vm.machine_operation_bits).take vm.addressing_mode_bits)
        ((code.drop (vm.machine_operation_bits + vm.addressing_mode_bits)).take vm.operand_bits)
        = some src)
    (hstep : vm.handle_instruction code p = some (.next m')) :
    (m'.get vm.machine_operations.return_register_address =
        some (unsigned_int ((p : Int) + 1) vm.architecture) ∧
     m'.get vm.program_counter_address = some (signed_int src.address vm.architecture)) ∧
    (∀ (mem2 : Memory) (q : Nat) (code2 : List Char) (m3 : Memory),
      mem2.get vm.machine_operations.return_register_address =
          some (unsigned_int ((p : Int) + 1) vm.architecture) →
      read_unsigned_int (code2.take vm.machine_operation_bits) = 26 →
      ({vm with memory := mem2} : VirtualMachine).handle_instruction code2 q =
          some (.next m3) →
      m3.get vm.program_counter_address = some (unsigned_int ((p : Int) + 1) vm.architecture) ∧
      (p + 1 < 2 ^ vm.architecture →
        (m3.get vm.program_counter_address).map read_unsigned_int = some (p + 1))) := by
  have hne_rr_pc : ∀ g : Nat,
      ((registers.RETURN_REGISTER.offset + g : Nat) : Int) * -1 ≠
      ((registers.PROGRAM_COUNTER.offset + g : Nat) : Int) * -1 := by
    intro g
    have h3 : registers.RETURN_REGISTER.offset = 3 := rfl
    have h2 : registers.PROGRAM_COUNTER.offset = 2 := rfl
    rw [h3, h2]
    push_cast
    omega
  have hne2 : vm.machine_operations.return_register_address ≠ vm.program_counter_address := by
    show ((registers.RETURN_REGISTER.offset + vm.number_gprs : Nat) : Int) * -1 ≠
      ((registers.PROGRAM_COUNTER.offset + vm.number_gprs : Nat) : Int) * -1
    exact hne_rr_pc vm.number_gprs
  have hread_unsigned : ∀ W : Nat, p + 1 < 2 ^ W →
      read_unsigned_int (unsigned_int ((p : Int) + 1) W) = p + 1 := by
    intro W hW
    rw [read_unsigned_int_unsigned_int]
    have hlt : ((p : Int) + 1) < 2 ^ (max W 1) := by
      have h1 : (2 : Int) ^ W ≤ 2 ^ (max W 1) :=
        pow_le_pow_right₀ (by omega) (le_max_left _ _)
      have h2 : ((p : Int) + 1) < 2 ^ W := by exact_mod_cast hW
      omega
    rw [overflow_of_nonneg_lt _ _ (by positivity) hlt]
    omega
  constructor
  · -- the CALL part
    unfold VirtualMachine.handle_instruction at hstep
    rw [hpcw] at hstep
    dsimp only at hstep
    rw [hsrc] at hstep
    dsimp only at hstep
    cases hdst : vm.resolve_operand mem1 ['0']
        ((code.drop (vm.machine_operation_bits + vm.addressing_mode_bits +
          vm.operand_bits)).take vm.operand_bits) with
    | none => rw [hdst] at hstep; exact absurd hstep (by simp)
    | some dst =>
      rw [hdst] at hstep
      dsimp only at hstep
      rw [hop] at hstep
      have hexec : vm.machine_operations.execute mem1 25 src dst =
          vm.machine_operations.opCALL mem1 src dst := rfl
      rw [hexec] at hstep
      unfold MachineOperations.opCALL at hstep
      have hpcget : mem1.get vm.machine_operations.program_counter_address =
          some (unsigned_int ((p : Int) + 1) vm.architecture) := by
        rw [machine_operations_pc_address]
        exact Memory.get_insert_binary_self _ _ _ _ hpcw
      rw [hpcget] at hstep
      dsimp only at hstep
      cases hrr : mem1.insert_binary vm.machine_operations.return_register_address
          (unsigned_int ((p : Int) + 1) vm.architecture) with
      | none => rw [hrr] at hstep; exact absurd hstep (by simp)
      | some m2 =>
        rw [hrr] at hstep
        dsimp only at hstep
        have hm2arch : m2.architecture = vm.architecture := by
          have h1 := Memory.insert_binary_fields _ _ _ _ hpcw
          have h2 := Memory.insert_binary_fields _ _ _ _ hrr
          rw [h2.2.1, h1.2.1, harch]
        unfold Memory.insert_value at hstep
        rw [hm2arch] at hstep
        cases hpc2 : m2.insert_binary vm.machine_operations.program_counter_address
            (signed_int src.address vm.architecture) with
        | none => rw [hpc2] at hstep; exact absurd hstep (by simp)
        | some mfin =>
          rw [hpc2] at hstep
          simp only [Option.map_some', Option.some.injEq, StepResult.next.injEq] at hstep
          subst hstep
          constructor
          · rw [Memory.get_insert_binary_ne _ _ _ _ _ hne2 hpc2]
            exact Memory.get_insert_binary_self _ _ _ _ hrr
          · rw [← machine_operations_pc_address]
            exact Memory.get_insert_binary_self _ _ _ _ hpc2
  · -- the RET part
    intro mem2 q code2 m3 hrr2 hop2 hstep2
    unfold VirtualMachine.handle_instruction at hstep2
    cases hpcw2 : mem2.insert_binary vm.program_counter_address
        (unsigned_int ((q : Int) + 1) vm.architecture) with
    | none =>
      rw [show ({vm with memory := mem2} : VirtualMachine).program_counter_address =
            vm.program_counter_address from rfl,
          show ({vm with memory := mem2} : VirtualMachine).architecture =
            vm.architecture from rfl] at hstep2
      rw [hpcw2] at hstep2
      exact absurd hstep2 (by simp)
    | some mem2b =>
      rw [show ({vm with memory := mem2} : VirtualMachine).program_counter_address =
            vm.program_counter_address from rfl,
          show ({vm with memory := mem2} : VirtualMachine).architecture =
            vm.architecture from rfl] at hstep2
      rw [hpcw2] at hstep2
      dsimp only at hstep2
      cases hs2 : ({vm with memory := mem2} : VirtualMachine).resolve_operand mem2b
          ((code2.drop vm.machine_operation_bits).take vm.addressing_mode_bits)
          ((code2.drop (vm.machine_operation_bits + vm.addressing_mode_bits)).take
            vm.operand_bits) with
      | none => rw [hs2] at hstep2; exact absurd hstep2 (by simp)
      | some src2 =>
        rw [hs2] at hstep2
        dsimp only at hstep2
        cases hd2 : ({vm with memory := mem2} : VirtualMachine).resolve_operand mem2b ['0']
            ((code2.drop (vm.machine_operation_bits + vm.addressing_mode_bits +
              vm.operand_bits)).take vm.operand_bits) with
        | none => rw [hd2] at hstep2; exact absurd hstep2 (by simp)
        | some dst2 =>
          rw [hd2] at hstep2
          dsimp only at hstep2
          rw [hop2] at hstep2
          have hexec : ({vm with memory := mem2} : VirtualMachine).machine_operations.execute
              mem2b 26 src2 dst2 =
              ({vm with memory := mem2} : VirtualMachine).machine_operations.opRET
                mem2b src2 dst2 := rfl
          rw [hexec] at hstep2
          unfold MachineOperations.opRET at hstep2
          have hrrb : mem2b.get
              ({vm with memory := mem2} : VirtualMachine).machine_operations.return_register_address =
              some (unsigned_int ((p : Int) + 1) vm.architecture) := by
            have heq : ({vm with memory := mem2} : VirtualMachine).machine_operations.return_register_address =
                vm.machine_operations.return_register_address := rfl
            rw [heq]
            rw [Memory.get_insert_binary_ne _ _ _ _ _ hne2 hpcw2]
            exact hrr2
          rw [hrrb] at hstep2
          dsimp only at hstep2
          cases hfin : mem2b.insert_binary
              ({vm with memory := mem2} : VirtualMachine).machine_operations.program_counter_address
              (unsigned_int ((p : Int) + 1) vm.architecture) with
          | none => rw [hfin] at hstep2; exact absurd hstep2 (by simp)
          | some mfin =>
            rw [hfin] at hstep2
            simp only [Option.map_some', Option.some.injEq, StepResult.next.injEq] at hstep2
            have heqpc : ({vm with memory := mem2} :
                VirtualMachine).machine_operations.program_counter_address =
                vm.program_counter_address := rfl
            rw [heqpc] at hfin
            rw [hstep2] at hfin
            have hpcget : m3.get vm.program_counter_address =
                some (unsigned_int ((p : Int) + 1) vm.architecture) :=
              Memory.get_insert_binary_self _ _ _ _ hfin
            refine ⟨hpcget, fun hW => ?_⟩
            rw [hpcget]
            simp only [Option.map_some', Option.some.injEq]
            exact hread_unsigned vm.architecture hW

/-! ### C6 witness: a concrete 15-bit machine with a CALL at address 0 and a
RET at address 2 -/

def call_demo_code : List Char :=
  ['1', '1', '0', '0', '1', '0', '1', '0', '0', '1', '0', '0', '0', '0', '0']

def ret_demo_code : List Char :=
  ['1', '1', '0', '1', '0', '0', '0', '0', '0', '0', '0', '0', '0', '0', '0']

def call_demo_pool : List (List Char) :=
  ((List.replicate 15 (List.replicate 15 '0')).set 7 call_demo_code).set 9 ret_demo_code

def call_demo_memory : Memory := ⟨7, 15, call_demo_pool⟩

def call_demo_vm : VirtualMachine := ⟨call_demo_memory, 5, 2, 4, 3, 0⟩

def call_demo_m1 : Memory := ⟨7, 15, call_demo_pool.set 2 (unsigned_int 1 15)⟩

def call_demo_src : MemoryValue := ⟨2, ret_demo_code, read_signed_int ret_demo_code⟩

def call_demo_mfin : Memory :=
  ⟨7, 15, ((call_demo_pool.set 2 (unsigned_int 1 15)).set 1 (unsigned_int 1 15)).set 2
      (signed_int 2 15)⟩

def call_demo_m3 : Memory :=
  ⟨7, 15, (call_demo_mfin.memory_pool.set 2 (unsigned_int 3 15)).set 2 (unsigned_int 1 15)⟩

set_option maxRecDepth 8000 in
/-- C6 witness: CALL fetched from address 0 leaves RR = unsigned(1) and
PC = signed(2); the RET at address 2 then restores PC to unsigned(1), so the
next fetch is from address 1. -/
theorem call_then_ret_resumes_after_call_witness :
    (call_demo_vm.memory.architecture = call_demo_vm.architecture) ∧
    (call_demo_vm.memory.insert_binary call_demo_vm.program_counter_address
        (unsigned_int ((0 : Int) + 1) call_demo_vm.architecture) = some call_demo_m1) ∧
    (read_unsigned_int (call_demo_code.take call_demo_vm.machine_operation_bits) = 25) ∧
    (call_demo_vm.resolve_operand call_demo_m1
        ((call_demo_code.drop call_demo_vm.machine_operation_bits).take
          call_demo_vm.addressing_mode_bits)
        ((call_demo_code.drop (call_demo_vm.machine_operation_bits +
          call_demo_vm.addressing_mode_bits)).take call_demo_vm.operand_bits)
        = some call_demo_src) ∧
    (call_demo_vm.handle_instruction call_demo_code 0 = some (.next call_demo_mfin)) ∧
    ((call_demo_mfin.get call_demo_vm.machine_operations.return_register_address =
        some (unsigned_int ((0 : Int) + 1) call_demo_vm.architecture) ∧
      call_demo_mfin.get call_demo_vm.program_counter_address =
        some (signed_int call_demo_src.address call_demo_vm.architecture)) ∧
     (call_demo_m3.get call_demo_vm.program_counter_address =
        some (unsigned_int ((0 : Int) + 1) call_demo_vm.architecture) ∧
      (0 + 1 < 2 ^ call_demo_vm.architecture →
        (call_demo_m3.get call_demo_vm.program_counter_address).map read_unsigned_int =
          some (0 + 1)))) := by
  have H := call_then_ret_resumes_after_call call_demo_vm 0 call_demo_code call_demo_m1
    call_demo_src call_demo_mfin rfl (by decide) (by decide) (by decide) (by decide)
  exact ⟨rfl, by decide, by decide, by decide, by decide,
    H.1, H.2 call_demo_mfin 2 ret_demo_code call_demo_m3 (by decide) (by decide) (by decide)⟩

/-! ### codegenerator.py: the full code generation pass

The Python CodeGenerator mutates its scopes' symbol tables, the shared
Memory and the two cursors offset/index; the embedding threads that state
explicitly.  A KeyError, an unknown mnemonic, an unresolvable operand or an
out-of-range token index crashes the program (none). -/

namespace CodeGenerator

/-- Python dict item assignment `table[key].value = v`; KeyError when the
key is absent. -/
def update_symbol_value (table : List (String × Symbol)) (key : String) (v : Int) :
    Option (List (String × Symbol)) :=
  if (table.find? (fun p => p.1 = key)).isSome then
    some (table.map (fun p => if p.1 = key then (p.1, { p.2 with value := v }) else p))
  else none

/-- CodeGenerator.__update_global_symbols: walk the procedure scopes in
declaration order, storing each scope's start offset into its global
PROCEDURE symbol. -/
def update_global_symbols_go :
    List (String × Scope) → Nat → List (String × Symbol) → Option (List (String × Symbol))
  | [], _, table => some table
  | (identifier, scope) :: rest, offset, table =>
    match update_symbol_value table identifier (offset : Int) with
    | none => none
    | some t2 =>
      update_global_symbols_go rest
        (offset + scope.number_instructions + scope.number_variables) t2

def update_global_symbols (global_scope : Scope)
    (procedure_scopes : List (String × Scope)) : Option Scope :=
  (update_global_symbols_go procedure_scopes
      (global_scope.number_instructions + global_scope.number_variables)
      global_scope.symbol_table).map
    (fun t => { global_scope with symbol_table := t })

/-- CodeGenerator.__update_local_symbols, inner walk over the symbol table in
insertion order: BRANCH symbols are rebased by the current instruction
index, VARIABLE symbols are written to memory at the running offset. -/
def update_local_symbols_go (total_bits index : Nat) :
    List (String × Symbol) → Nat → Memory →
    Option (List (String × Symbol) × Nat × Memory)
  | [], offset, memory => some ([], offset, memory)
  | (k, symbol) :: rest, offset, memory =>
    if symbol.type = symboltypes.BRANCH then
      (update_local_symbols_go total_bits index rest offset memory).map
        (fun r => ((k, { symbol with value := symbol.value + index }) :: r.1, r.2))
    else if symbol.type = symboltypes.VARIABLE then
      match memory.insert_binary (offset : Int) (signed_int symbol.value total_bits) with
      | none => none
      | some m2 =>
        (update_local_symbols_go total_bits index rest (offset + 1) m2).map
          (fun r => ((k, { symbol with value := (offset : Int) }) :: r.1, r.2))
    else
      (update_local_symbols_go total_bits index rest offset memory).map
        (fun r => ((k, symbol) :: r.1, r.2))

def update_local_symbols (total_bits index : Nat) (scope : Scope) (offset : Nat)
    (memory : Memory) : Option (Scope × Nat × Memory) :=
  let offset := offset + scope.number_instructions
  (update_local_symbols_go total_bits index scope.symbol_table offset memory).map
    (fun r => ({ scope with symbol_table := r.1 }, r.2))

/-- CodeGenerator.__generate_machine_operation. -/
def generate_machine_operation (mo_bits am_bits op_bits : Nat) (number_gprs : Int)
    (gtab ltab : List (String × Symbol)) (instruction : Instruction)
    (source_operand destination_operand : Operand) : Option (List Char) :=
  match addressingmodes.get_addressing_mode source_operand.addressing_mode.value with
  | none => none
  | some am =>
    match resolve_operand number_gprs gtab ltab source_operand with
    | none => none
    | some sv =>
      match resolve_operand number_gprs gtab ltab destination_operand with
      | none => none
      | some dv =>
        some (unsigned_int (instruction.opcode : Int) mo_bits ++
              unsigned_int (am.opcode : Int) am_bits ++
              signed_int sv op_bits ++ signed_int dv op_bits)

/-- CodeGenerator.__generate_code, emission walk: each INSTRUCTION token takes
its source operand pair from the next two tokens and its destination pair
from tokens four and five ahead (unconditionally, as the code generator
assumes the analyser's normal form). -/
def generate_code_go (mo_bits am_bits op_bits : Nat) (number_gprs : Int)
    (gtab ltab : List (String × Symbol)) :
    List TypedToken → Nat → Memory → Option (Nat × Memory)
  | [], gen_index, memory => some (gen_index, memory)
  | token :: rest, gen_index, memory =>
    if token.type = tokentypes.INSTRUCTION then
      match instructions.get_instruction token.value with
      | none => none
      | some instruction =>
        let default_operand : Operand :=
          ⟨⟨tokentypes.ADDRESSING_MODE, addressingmodes.REGISTER.symbol, -1, -1⟩,
           ⟨tokentypes.VALUE, defaults.OPERAND_VALUE, -1, -1⟩⟩
        let source_operand : Option Operand :=
          if instruction.operands > 0 then
            match rest.get? 0, rest.get? 1 with
            | some a, some b => some ⟨a, b⟩
            | _, _ => none
          else some default_operand
        let destination_operand : Option Operand :=
          if instruction.operands > 1 then
            match rest.get? 3, rest.get? 4 with
            | some a, some b => some ⟨a, b⟩
            | _, _ => none
          else some default_operand
        match source_operand with
        | none => none
        | some src =>
          match destination_operand with
          | none => none
          | some dst =>
            match generate_machine_operation mo_bits am_bits op_bits number_gprs
                gtab ltab instruction src dst with
            | none => none
            | some word =>
              match memory.insert_binary (gen_index : Int) word with
              | none => none
              | some m2 =>
                generate_code_go mo_bits am_bits op_bits number_gprs gtab ltab
                  rest (gen_index + 1) m2
    else
      generate_code_go mo_bits am_bits op_bits number_gprs gtab ltab rest gen_index memory

/-- CodeGenerator.__generate_code: local symbol pass, emission walk, then the
index cursor jumps to the offset cursor. -/
def generate_code (mo_bits am_bits op_bits total_bits : Nat) (number_gprs : Int)
    (gtab : List (String × Symbol)) (scope : Scope) (offset index : Nat)
    (memory : Memory) : Option (Scope × Nat × Nat × Memory) :=
  match update_local_symbols total_bits index scope offset memory with
  | none => none
  | some (scope2, offset2, mem2) =>
    match generate_code_go mo_bits am_bits op_bits number_gprs gtab
        scope2.symbol_table scope2.tokens index mem2 with
    | none => none
    | some (_, mem3) => some (scope2, offset2, offset2, mem3)

def run_procedures (mo_bits am_bits op_bits total_bits : Nat) (number_gprs : Int)
    (gtab : List (String × Symbol)) :
    List (String × Scope) → Nat → Nat → Memory → Option (Nat × Nat × Memory)
  | [], offset, index, memory => some (offset, index, memory)
  | (_, scope) :: rest, offset, index, memory =>
    match generate_code mo_bits am_bits op_bits total_bits number_gprs gtab scope
        offset index memory with
    | none => none
    | some (_, offset2, index2, mem2) =>
      run_procedures mo_bits am_bits op_bits total_bits number_gprs gtab rest
        offset2 index2 mem2

/-- CodeGenerator.run: update global symbols, build the memory, generate the
global scope then each procedure scope (the mutated global symbol table is
shared with the procedure passes), and return the memory with the three
field widths. -/
def run (cfg_registers cfg_memory : Nat) (global_scope : Scope)
    (procedure_scopes : List (String × Scope)) : Option (Memory × Nat × Nat × Nat) :=
  match update_global_symbols global_scope procedure_scopes with
  | none => none
  | some gs2 =>
    let memory := Memory.init (number_registers cfg_registers)
      (total_bits cfg_registers cfg_memory) (operand_bits cfg_registers cfg_memory)
    match generate_code machine_operation_bits addressing_mode_bits
        (operand_bits cfg_registers cfg_memory) (total_bits cfg_registers cfg_memory)
        (number_gprs cfg_registers : Int) gs2.symbol_table gs2 0 0 memory with
    | none => none
    | some (gs3, offset1, index1, mem1) =>
      match run_procedures machine_operation_bits addressing_mode_bits
          (operand_bits cfg_registers cfg_memory) (total_bits cfg_registers cfg_memory)
          (number_gprs cfg_registers : Int) gs3.symbol_table procedure_scopes
          offset1 index1 mem1 with
      | none => none
      | some (_, _, mem2) =>
        some (mem2, machine_operation_bits, addressing_mode_bits,
              operand_bits cfg_registers cfg_memory)

end CodeGenerator

/-! ### Claim C8: every slot of the generated memory is W bits wide -/

theorem overflow_bounds (v : Int) (b : Nat) : 0 ≤ overflow v b ∧ overflow v b < 2 ^ b := by
  unfold overflow
  rw [Int.fmod_eq_emod _ (by positivity)]
  constructor
  · exact Int.emod_nonneg _ (by positivity : (0 : Int) < 2 ^ b).ne'
  · exact Int.emod_lt_of_pos _ (by positivity)

theorem unsigned_int_length (v : Int) (b : Nat) : (unsigned_int v b).length = max b 1 := by
  unfold unsigned_int pad_binary
  dsimp only
  obtain ⟨h0, h1⟩ := overflow_bounds v (max b 1)
  have hcast : (((2 : Nat) ^ max b 1 : Nat) : Int) = (2 : Int) ^ max b 1 := by push_cast; rfl
  have hlt : (overflow v (max b 1)).toNat < 2 ^ max b 1 := by omega
  have hlen := to_binary_length_le _ (max b 1) (by omega) hlt
  simp only [List.length_append, List.length_replicate]
  omega

theorem signed_int_length (v : Int) (b : Nat) : (signed_int v b).length = max b 2 := by
  unfold signed_int pad_binary
  dsimp only
  obtain ⟨h0, h1⟩ := overflow_bounds (if v < 0 then -v else v) (max b 2 - 1)
  have hcast : (((2 : Nat) ^ (max b 2 - 1) : Nat) : Int) = (2 : Int) ^ (max b 2 - 1) := by
    push_cast; rfl
  have hlt : (overflow (if v < 0 then -v else v) (max b 2 - 1)).toNat < 2 ^ (max b 2 - 1) := by
    omega
  have hlen := to_binary_length_le _ (max b 2 - 1) (by omega) hlt
  simp only [List.length_cons, List.length_append, List.length_replicate]
  omega

theorem pool_widths_insert (m : Memory) (a : Int) (v : List Char) (m' : Memory) (W : Nat)
    (hW : ∀ s ∈ m.memory_pool, s.length = W) (hv : v.length = W)
    (h : m.insert_binary a v = some m') : ∀ s ∈ m'.memory_pool, s.length = W := by
  unfold Memory.insert_binary at h
  cases hc : m.calculate_address a with
  | none => rw [hc] at h; exact absurd h (by simp)
  | some p =>
    rw [hc] at h
    simp only [Option.map_some', Option.some.injEq] at h
    subst h
    intro s hs
    rcases List.mem_or_eq_of_mem_set hs with hmem | heq
    · exact hW s hmem
    · rw [heq]; exact hv

theorem update_local_symbols_go_widths (total index : Nat) (W : Nat)
    (htot : total = W) (hW2 : 2 ≤ W) :
    ∀ (table : List (String × Symbol)) (offset : Nat) (m : Memory)
      (res : List (String × Symbol) × Nat × Memory),
      (∀ s ∈ m.memory_pool, s.length = W) →
      CodeGenerator.update_local_symbols_go total index table offset m = some res →
      ∀ s ∈ res.2.2.memory_pool, s.length = W := by
  intro table
  induction table with
  | nil =>
    intro offset m res hW h
    unfold CodeGenerator.update_local_symbols_go at h
    cases h
    exact hW
  | cons hd tl ih =>
    intro offset m res hW h
    obtain ⟨k, symbol⟩ := hd
    unfold CodeGenerator.update_local_symbols_go at h
    split at h
    · cases hrec : CodeGenerator.update_local_symbols_go total index tl offset m with
      | none => rw [hrec] at h; exact absurd h (by simp)
      | some r2 =>
        rw [hrec] at h
        simp only [Option.map_some', Option.some.injEq] at h
        subst h
        exact ih offset m r2 hW hrec
    · split at h
      · cases hins : m.insert_binary (offset : Int) (signed_int symbol.value total) with
        | none => rw [hins] at h; exact absurd h (by simp)
        | some m2 =>
          rw [hins] at h
          dsimp only at h
          have hW2' : ∀ s ∈ m2.memory_pool, s.length = W :=
            pool_widths_insert m _ _ m2 W hW
              (by rw [signed_int_length]; omega) hins
          cases hrec : CodeGenerator.update_local_symbols_go total index tl (offset + 1) m2 with
          | none => rw [hrec] at h; exact absurd h (by simp)
          | some r2 =>
            rw [hrec] at h
            simp only [Option.map_some', Option.some.injEq] at h
            subst h
            exact ih (offset + 1) m2 r2 hW2' hrec
      · cases hrec : CodeGenerator.update_local_symbols_go total index tl offset m with
        | none => rw [hrec] at h; exact absurd h (by simp)
        | some r2 =>
          rw [hrec] at h
          simp only [Option.map_some', Option.some.injEq] at h
          subst h
          exact ih offset m r2 hW hrec

theorem generate_machine_operation_length (mo_bits am_bits op_bits : Nat) (G : Int)
    (gtab ltab : List (String × Symbol)) (instruction : Instruction)
    (src dst : Operand) (w : List Char)
    (h : CodeGenerator.generate_machine_operation mo_bits am_bits op_bits G gtab ltab
        instruction src dst = some w) :
    w.length = max mo_bits 1 + max am_bits 1 + 2 * max op_bits 2 := by
  unfold CodeGenerator.generate_machine_operation at h
  cases h1 : addressingmodes.get_addressing_mode src.addressing_mode.value with
  | none => rw [h1] at h; exact absurd h (by simp)
  | some am =>
    rw [h1] at h
    cases h2 : CodeGenerator.resolve_operand G gtab ltab src with
    | none => rw [h2] at h; exact absurd h (by simp)
    | some sv =>
      rw [h2] at h
      cases h3 : CodeGenerator.resolve_operand G gtab ltab dst with
      | none => rw [h3] at h; exact absurd h (by simp)
      | some dv =>
        rw [h3] at h
        simp only [Option.some.injEq] at h
        subst h
        simp only [List.length_append, unsigned_int_length, signed_int_length]
        omega

theorem generate_code_go_widths (mo_bits am_bits op_bits : Nat) (G : Int)
    (gtab ltab : List (String × Symbol)) (W : Nat)
    (hword : max mo_bits 1 + max am_bits 1 + 2 * max op_bits 2 = W) :
    ∀ (tokens : List TypedToken) (gen_index : Nat) (m : Memory) (res : Nat × Memory),
      (∀ s ∈ m.memory_pool, s.length = W) →
      CodeGenerator.generate_code_go mo_bits am_bits op_bits G gtab ltab tokens
        gen_index m = some res →
      ∀ s ∈ res.2.memory_pool, s.length = W := by
  intro tokens
  induction tokens with
  | nil =>
    intro gen_index m res hW h
    unfold CodeGenerator.generate_code_go at h
    cases h
    exact hW
  | cons token rest ih =>
    intro gen_index m res hW h
    unfold CodeGenerator.generate_code_go at h
    split at h
    · cases hg : instructions.get_instruction token.value with
      | none => rw [hg] at h; exact absurd h (by simp)
      | some instruction =>
        rw [hg] at h
        dsimp only at h
        split at h
        · exact absurd h (by simp)
        · rename_i src hsrc
          split at h
          · exact absurd h (by simp)
          · rename_i dst hdst
            cases hw : CodeGenerator.generate_machine_operation mo_bits am_bits op_bits G
                gtab ltab instruction src dst with
            | none => rw [hw] at h; exact absurd h (by simp)
            | some word =>
              rw [hw] at h
              dsimp only at h
              cases hins : m.insert_binary (gen_index : Int) word with
              | none => rw [hins] at h; exact absurd h (by simp)
              | some m2 =>
                rw [hins] at h
                dsimp only at h
                have hwl := generate_machine_operation_length _ _ _ _ _ _ _ _ _ _ hw
                have hW2 : ∀ s ∈ m2.memory_pool, s.length = W :=
                  pool_widths_insert m _ _ m2 W hW (by omega) hins
                exact ih (gen_index + 1) m2 res hW2 h
    · exact ih gen_index m res hW h

theorem generate_code_widths (mo_bits am_bits op_bits total_bits : Nat) (G : Int)
    (gtab : List (String × Symbol)) (scope : Scope) (offset index : Nat) (m : Memory)
    (res : Scope × Nat × Nat × Memory) (W : Nat)
    (htot : total_bits = W)
    (hword : max mo_bits 1 + max am_bits 1 + 2 * max op_bits 2 = W)
    (hW2 : 2 ≤ W)
    (hW : ∀ s ∈ m.memory_pool, s.length = W)
    (h : CodeGenerator.generate_code mo_bits am_bits op_bits total_bits G gtab scope
        offset index m = some res) :
    ∀ s ∈ res.2.2.2.memory_pool, s.length = W := by
  unfold CodeGenerator.generate_code at h
  cases h1 : CodeGenerator.update_local_symbols total_bits index scope offset m with
  | none => rw [h1] at h; exact absurd h (by simp)
  | some r1 =>
    rw [h1] at h
    obtain ⟨scope2, offset2, mem2⟩ := r1
    dsimp only at h
    have hWm2 : ∀ s ∈ mem2.memory_pool, s.length = W := by
      unfold CodeGenerator.update_local_symbols at h1
      dsimp only at h1
      cases h1g : CodeGenerator.update_local_symbols_go total_bits index
          scope.symbol_table (offset + scope.number_instructions) m with
      | none => rw [h1g] at h1; exact absurd h1 (by simp)
      | some rg =>
        rw [h1g] at h1
        simp only [Option.map_some', Option.some.injEq] at h1
        have := update_local_symbols_go_widths total_bits index W htot hW2
          scope.symbol_table (offset + scope.number_instructions) m rg hW h1g
        have hpair := h1
        simp only [Prod.mk.injEq] at hpair
        have hm : rg.2.2 = mem2 := by rw [hpair.2]
        rw [hm] at this
        exact this
    cases h2 : CodeGenerator.generate_code_go mo_bits am_bits op_bits G gtab
        scope2.symbol_table scope2.tokens index mem2 with
    | none => rw [h2] at h; exact absurd h (by simp)
    | some r2 =>
      rw [h2] at h
      obtain ⟨i2, m3⟩ := r2
      dsimp only at h
      cases h
      exact generate_code_go_widths mo_bits am_bits op_bits G gtab scope2.symbol_table W
        hword scope2.tokens index mem2 ⟨i2, m3⟩ hWm2 h2

theorem run_procedures_widths (mo_bits am_bits op_bits total_bits : Nat) (G : Int)
    (gtab : List (String × Symbol)) (W : Nat)
    (htot : total_bits = W)
    (hword : max mo_bits 1 + max am_bits 1 + 2 * max op_bits 2 = W)
    (hW2 : 2 ≤ W) :
    ∀ (scopes : List (String × Scope)) (offset index : Nat) (m : Memory)
      (res : Nat × Nat × Memory),
      (∀ s ∈ m.memory_pool, s.length = W) →
      CodeGenerator.run_procedures mo_bits am_bits op_bits total_bits G gtab scopes
        offset index m = some res →
      ∀ s ∈ res.2.2.memory_pool, s.length = W := by
  intro scopes
  induction scopes with
  | nil =>
    intro offset index m res hW h
    unfold CodeGenerator.run_procedures at h
    cases h
    exact hW
  | cons hd tl ih =>
    intro offset index m res hW h
    obtain ⟨name, scope⟩ := hd
    unfold CodeGenerator.run_procedures at h
    cases h1 : CodeGenerator.generate_code mo_bits am_bits op_bits total_bits G gtab
        scope offset index m with
    | none => rw [h1] at h; exact absurd h (by simp)
    | some r1 =>
      rw [h1] at h
      obtain ⟨s1, o1, i1, m1⟩ := r1
      have hW1 : ∀ s ∈ m1.memory_pool, s.length = W :=
        generate_code_widths mo_bits am_bits op_bits total_bits G gtab scope offset
          index m ⟨s1, o1, i1, m1⟩ W htot hword hW2 hW h1
      exact ih o1 i1 m1 res hW1 h

theorem codegen_operand_bits_ge_two (cfg_registers cfg_memory : Nat)
    (hr32 : cfg_registers + 4 < 2 ^ 32) (hm32 : cfg_memory ≤ 2 ^ 32) :
    2 ≤ CodeGenerator.operand_bits cfg_registers cfg_memory := by
  unfold CodeGenerator.operand_bits
  have hR : CodeGenerator.number_registers cfg_registers = cfg_registers + 4 := rfl
  split
  · rename_i hgt
    have := number_bits_ge_one (CodeGenerator.number_registers cfg_registers)
      (by omega) (by omega)
    omega
  · rename_i hle
    rw [hR] at hle
    have hm4 : cfg_registers + 4 ≤ cfg_memory := by omega
    have h32 : cfg_memory - 1 < 2 ^ 32 := by
      have hp : (2 : Nat) ^ 32 = 4294967296 := by norm_num
      omega
    have := number_bits_ge_one (cfg_memory - 1) (by omega) h32
    omega

/-- C8 (amended): whenever CodeGenerator.run returns its (memory, widths)
tuple — for a register file and memory size within the 32-bit scan of
number_bits (gprs + 4 < 2^32 and M ≤ 2^32, which keeps operand_bits ≥ 2 so
signed operand fields are not padded past their width) — every slot of the
returned Memory (register slots, emitted instructions, variable
initialisers and untouched defaults alike) is a bit string of exactly
W = opcode_bits + mode_bits + 2*operand_bits characters.  Outside that
range the invariant fails (see the counterexample). -/
theorem codegen_memory_slot_widths (cfg_registers cfg_memory : Nat)
    (global_scope : Scope) (procedure_scopes : List (String × Scope))
    (mem : Memory) (ob mb opb : Nat)
    (hr32 : cfg_registers + 4 < 2 ^ 32) (hm32 : cfg_memory ≤ 2 ^ 32)
    (hrun : CodeGenerator.run cfg_registers cfg_memory global_scope procedure_scopes
      = some (mem, ob, mb, opb)) :
    ∀ slot ∈ mem.memory_pool, slot.length = ob + mb + 2 * opb := by
  have hmo : CodeGenerator.machine_operation_bits = 5 := by decide
  have ham : CodeGenerator.addressing_mode_bits = 2 := by decide
  have hopb2 := codegen_operand_bits_ge_two cfg_registers cfg_memory hr32 hm32
  unfold CodeGenerator.run at hrun
  cases h1 : CodeGenerator.update_global_symbols global_scope procedure_scopes with
  | none => rw [h1] at hrun; exact absurd hrun (by simp)
  | some gs2 =>
    rw [h1] at hrun
    dsimp only at hrun
    cases h2 : CodeGenerator.generate_code CodeGenerator.machine_operation_bits
        CodeGenerator.addressing_mode_bits (CodeGenerator.operand_bits cfg_registers cfg_memory)
        (CodeGenerator.total_bits cfg_registers cfg_memory)
        (CodeGenerator.number_gprs cfg_registers : Int) gs2.symbol_table gs2 0 0
        (Memory.init (CodeGenerator.number_registers cfg_registers)
          (CodeGenerator.total_bits cfg_registers cfg_memory)
          (CodeGenerator.operand_bits cfg_registers cfg_memory)) with
    | none => rw [h2] at hrun; exact absurd hrun (by simp)
    | some r2 =>
      rw [h2] at hrun
      obtain ⟨gs3, offset1, index1, mem1⟩ := r2
      dsimp only at hrun
      cases h3 : CodeGenerator.run_procedures CodeGenerator.machine_operation_bits
          CodeGenerator.addressing_mode_bits
          (CodeGenerator.operand_bits cfg_registers cfg_memory)
          (CodeGenerator.total_bits cfg_registers cfg_memory)
          (CodeGenerator.number_gprs cfg_registers : Int) gs3.symbol_table
          procedure_scopes offset1 index1 mem1 with
      | none => rw [h3] at hrun; exact absurd hrun (by simp)
      | some r3 =>
        rw [h3] at hrun
        obtain ⟨of, ix, mem2⟩ := r3
        dsimp only at hrun
        simp only [Option.some.injEq, Prod.mk.injEq] at hrun
        obtain ⟨hmem, hob, hmb, hopb⟩ := hrun
        set W := CodeGenerator.total_bits cfg_registers cfg_memory with hWdef
        have hWval : W = 5 + 2 + 2 * CodeGenerator.operand_bits cfg_registers cfg_memory := by
          rw [hWdef]
          unfold CodeGenerator.total_bits
          omega
        have hword : max CodeGenerator.machine_operation_bits 1 +
            max CodeGenerator.addressing_mode_bits 1 +
            2 * max (CodeGenerator.operand_bits cfg_registers cfg_memory) 2 = W := by
          rw [hmo, ham]
          omega
        have hinit : ∀ s ∈ (Memory.init (CodeGenerator.number_registers cfg_registers)
            (CodeGenerator.total_bits cfg_registers cfg_memory)
            (CodeGenerator.operand_bits cfg_registers cfg_memory)).memory_pool,
            s.length = W := by
          intro s hs
          unfold Memory.init at hs
          simp only [List.mem_replicate] at hs
          rw [hs.2, List.length_replicate, hWdef]
        have hWm1 : ∀ s ∈ mem1.memory_pool, s.length = W :=
          generate_code_widths _ _ _ _ _ _ _ _ _ _ _ W rfl hword (by omega) hinit h2
        have hWm2 : ∀ s ∈ mem2.memory_pool, s.length = W :=
          run_procedures_widths _ _ _ _ _ _ W rfl hword (by omega) procedure_scopes
            offset1 index1 mem1 ⟨of, ix, mem2⟩ hWm1 h3
        intro slot hslot
        rw [← hmem] at hslot
        rw [hWm2 slot hslot, hWval, ← hob, ← hmb, ← hopb, hmo, ham]

/-! ### C8 witness: a one-instruction program at the minimum configuration -/

def codegen_demo_global : Scope :=
  ⟨[⟨tokentypes.INSTRUCTION, "OUT", 1, 1⟩, ⟨tokentypes.ADDRESSING_MODE, "%", 1, 5⟩,
    ⟨tokentypes.REGISTER, "ACC", 1, 6⟩, ⟨tokentypes.END, "/", 1, 9⟩], [], 1, 0⟩

def codegen_demo_memory : Memory :=
  ⟨7, 23, (List.replicate 135 (List.replicate 23 '0')).set 7
      (unsigned_int 10 5 ++ unsigned_int 0 2 ++ signed_int (-4) 8 ++ signed_int 0 8)⟩

set_option maxRecDepth 8000 in
/-- C8 witness: "OUT %ACC" at 3 GPRs and 100 memory cells generates a pool of
135 slots that all carry exactly 5 + 2 + 2*8 = 23 bits. -/
theorem codegen_memory_slot_widths_witness :
    (3 + 4 < 2 ^ 32) ∧ (100 ≤ 2 ^ 32) ∧
    (CodeGenerator.run 3 100 codegen_demo_global [] = some (codegen_demo_memory, 5, 2, 8)) ∧
    (∀ slot ∈ codegen_demo_memory.memory_pool, slot.length = 5 + 2 + 2 * 8) :=
  ⟨by norm_num, by norm_num, by decide,
   codegen_memory_slot_widths 3 100 codegen_demo_global [] codegen_demo_memory 5 2 8
     (by norm_num) (by norm_num) (by decide)⟩

def c8cx_memory : Memory :=
  ⟨7, 9, (List.replicate 8 (List.replicate 9 '0')).set 7
      (unsigned_int 10 5 ++ unsigned_int 0 2 ++ signed_int (-4) 1 ++ signed_int 0 1)⟩

set_option maxRecDepth 4000 in
/-- C8 counterexample: the claimed width invariant is not universal.  With a
memory size of 2^32 + 1 cells, number_bits scans only 32 bit positions and
returns 0 for 2^32, so operand_bits collapses to 0 + 1 = 1 and
W = 5 + 2 + 2·1 = 9; but signed_int pads every operand field to at least
max(operand_bits, 2) = 2 bits, so the word emitted for "OUT %ACC" is 11
characters long and is stored as an 11-character slot in the 9-wide pool:
the returned memory violates the claimed uniform width W. -/
theorem codegen_slot_width_counterexample :
    CodeGenerator.run 3 4294967297 codegen_demo_global [] =
      some (c8cx_memory, 5, 2, 1) ∧
    CodeGenerator.total_bits 3 4294967297 = 9 ∧
    ¬ (∀ slot ∈ c8cx_memory.memory_pool, slot.length = 5 + 2 + 2 * 1) := by
  refine ⟨by decide, by decide, ?_⟩
  intro hall
  have h7 : (unsigned_int 10 5 ++ unsigned_int 0 2 ++ signed_int (-4) 1 ++
      signed_int 0 1) ∈ c8cx_memory.memory_pool := by decide
  have := hall _ h7
  exact absurd this (by decide)


/-! ### imports/lexer.py (with imports/csmdefaults.py and the key sets of
imports/architecture.py)

The lexer walks the source character list once, emitting typed tokens; a
synthetic END token is appended after the walk.  Error recording
(handle_value / handle_label) only feeds the error report and never alters
the emitted token stream, so it is elided here. -/

namespace lexerdefaults

def SEPARATOR : Char := ','

def LEFT_SCOPE : Char := '\x7b'

def RIGHT_SCOPE : Char := '\x7d'

def SCOPE_CHARS : List Char := [LEFT_SCOPE, RIGHT_SCOPE]

def SPACING_CHARS : List Char := [' ', '\t', '\x0b']

def LINE_BREAK_CHARS : List Char := ['\n', '\r', '\x0c']

def WHITESPACE_CHARS : List Char := SPACING_CHARS ++ LINE_BREAK_CHARS

def LABEL_CHARS : List Char :=
  "abcdefghijklmnopqrstuvwxyzABCDEFGHIJKLMNOPQRSTUVWXYZ_1234567890".data

def VALUE_BEGIN_CHARS : List Char := "+-1234567890".data

def VALUE_CHARS : List Char := "1234567890".data

end lexerdefaults

namespace lexerarch

def INSTRUCTION_SET_KEYS : List String :=
  ["HLT", "ADD", "SUB", "STA", "NOP", "LDA", "BRA", "BRZ", "BRP", "INP", "OUT",
   "OUTC", "OUTB", "AND", "OR", "NOT", "XOR", "LSL", "LSR", "ASL", "ASR",
   "CSL", "CSR", "CSLC", "CSRC", "CALL", "RET"]

def SPECIAL_PURPOSE_REGISTER_KEYS : List String :=
  ["ACC", "ACCUMULATOR", "PC", "PROGRAMCOUNTER", "RR", "RETURNREGISTER",
   "FR", "FLAGSREGISTER"]

def ADDRESSING_MODE_KEYS : List String :=
  ["%", "REGISTER", "@", "DIRECT", ">", "INDIRECT", "#", "IMMEDIATE"]

def ADDRESSING_MODES_DICT : List (String × AddressingMode) :=
  [("%", addressingmodes.REGISTER), ("REGISTER", addressingmodes.REGISTER),
   ("@", addressingmodes.DIRECT), ("DIRECT", addressingmodes.DIRECT),
   (">", addressingmodes.INDIRECT), ("INDIRECT", addressingmodes.INDIRECT),
   ("#", addressingmodes.IMMEDIATE), ("IMMEDIATE", addressingmodes.IMMEDIATE)]

end lexerarch

structure PositionToken where
  row : Int
  column : Int
deriving DecidableEq

/-- csmtokens.PositionToken.advance_position. -/
def advance_position (p : PositionToken) (current_char : Char) (reset_value : Int) :
    PositionToken :=
  if current_char ∈ lexerdefaults.LINE_BREAK_CHARS then ⟨p.row + 1, reset_value⟩
  else ⟨p.row, p.column + 1⟩

namespace Lexer

/-- Lexer.__skip_line: advance until a line break (source indexing is always
in range along the walk, so out-of-range reads default harmlessly). -/
def skip_line (src : List Char) (index : Nat) : Nat :=
  if h : index + 1 < src.length ∧ src.getD index ' ' ∉ lexerdefaults.LINE_BREAK_CHARS then
    skip_line src (index + 1)
  else index
termination_by src.length - index
decreasing_by omega

/-- A character on which Lexer.__get_token stops accumulating. -/
def is_token_delimiter (directive_sigil comment_sigil c : Char) : Prop :=
  c = comment_sigil ∨ c = directive_sigil ∨ c = lexerdefaults.SEPARATOR ∨
  c ∈ lexerdefaults.WHITESPACE_CHARS ∨ c ∈ lexerdefaults.LINE_BREAK_CHARS ∨
  c ∈ lexerdefaults.SCOPE_CHARS ∨
  String.mk [c] ∈ lexerarch.ADDRESSING_MODE_KEYS

instance (dp cp c : Char) : Decidable (is_token_delimiter dp cp c) := by
  unfold is_token_delimiter
  infer_instance

/-- Lexer.__get_token's final index: the first delimiter position at or after
the current index. -/
def get_token_end (src : List Char) (dp cp : Char) (index : Nat) : Nat :=
  if h : index < src.length ∧ ¬ is_token_delimiter dp cp (src.getD index ' ') then
    get_token_end src dp cp (index + 1)
  else index
termination_by src.length - index
decreasing_by omega

/-- csmdefaults.defaults.default_casing. -/
def default_casing (token : List Char) : List Char := token.map Char.toUpper

/-- Lexer.__is_gpr: split the trailing digits off; the digit text is the GPR
number when the stem is a GPR variant, otherwise empty.  (The Python loop
indexes from the end; tokens reaching it never consist solely of digits,
on which both formulations agree.) -/
def is_gpr (token : List Char) : List Char :=
  let digits := (token.reverse.takeWhile Char.isDigit).reverse
  let register := token.take (token.length - digits.length)
  if String.mk register ∈ registers.GPR.variants then digits else []

/-- Lexer.__get_type. -/
def get_type (token : List Char) : Nat :=
  if String.mk token ∈ lexerarch.INSTRUCTION_SET_KEYS then tokentypes.INSTRUCTION
  else if String.mk token ∈ lexerarch.SPECIAL_PURPOSE_REGISTER_KEYS then tokentypes.REGISTER
  else if String.mk token ∈ lexerarch.ADDRESSING_MODE_KEYS then tokentypes.ADDRESSING_MODE
  else if String.mk token = instructions.DAT then tokentypes.ASSEMBLY_DIRECTIVE
  else tokentypes.LABEL

/-- Lexer.__handle_token on an already-extracted upper-cased word. -/
def handle_token (position : PositionToken) (token : List Char) : TypedToken :=
  if token.getD 0 ' ' ∈ lexerdefaults.VALUE_BEGIN_CHARS then
    ⟨tokentypes.VALUE, String.mk token, position.row, position.column⟩
  else
    let isGPR := is_gpr token
    if isGPR ≠ [] then
      ⟨tokentypes.REGISTER, String.mk isGPR, position.row, position.column⟩
    else
      let token_type := get_type token
      if token_type = tokentypes.ADDRESSING_MODE then
        let value :=
          match lexerarch.ADDRESSING_MODES_DICT.find? (fun p => p.1 = String.mk token) with
          | some p => p.2.symbol
          | none => ""
        ⟨token_type, value, position.row, position.column⟩
      else ⟨token_type, String.mk token, position.row, position.column⟩

theorem skip_line_ge (src : List Char) : ∀ index, index ≤ skip_line src index := by
  intro index
  induction index using skip_line.induct src with
  | case1 index h ih =>
    rw [skip_line, dif_pos h]
    omega
  | case2 index h =>
    rw [skip_line, dif_neg h]

theorem get_token_end_ge (src : List Char) (dp cp : Char) :
    ∀ index, index ≤ get_token_end src dp cp index := by
  intro index
  induction index using get_token_end.induct src dp cp with
  | case1 index h ih =>
    rw [get_token_end, dif_pos h]
    omega
  | case2 index h =>
    rw [get_token_end, dif_neg h]

theorem get_token_end_gt (src : List Char) (dp cp : Char) (index : Nat)
    (h : index < src.length) (hd : ¬ is_token_delimiter dp cp (src.getD index ' ')) :
    index + 1 ≤ get_token_end src dp cp index := by
  rw [get_token_end, dif_pos ⟨h, hd⟩]
  exact get_token_end_ge src dp cp (index + 1)

/-- Lexer.__tokenise, main walk.  Each iteration appends the tokens the
Python loop appends and advances index and position as the Python loop does;
the walk terminates with the synthetic END token. -/
def tokenise_loop (src : List Char) (dp cp : Char) :
    Nat → PositionToken → List TypedToken → List TypedToken
  | index, position, tokens =>
    if hin : index < src.length then
      let current_char := src.getD index ' '
      if h1 : current_char = dp ∨ current_char = cp then
        let i2 := skip_line src index
        tokenise_loop src dp cp (i2 + 1) (advance_position position (src.getD i2 ' ') 1)
          (tokens ++ [⟨tokentypes.END, String.mk lexerdefaults.LINE_BREAK_CHARS,
            position.row, position.column⟩])
      else if h2 : current_char ∈ lexerdefaults.LINE_BREAK_CHARS ∧ tokens ≠ [] ∧
          tokens.getLast?.map TypedToken.type ≠ some tokentypes.END then
        tokenise_loop src dp cp (index + 1) (advance_position position current_char 1)
          (tokens ++ [⟨tokentypes.END, "/", position.row, position.column⟩])
      else if h3 : current_char = lexerdefaults.LEFT_SCOPE then
        tokenise_loop src dp cp (index + 1) (advance_position position current_char 1)
          (tokens ++ [⟨tokentypes.LEFT_BRACE, String.mk [lexerdefaults.LEFT_SCOPE],
            position.row, position.column⟩])
      else if h4 : current_char = lexerdefaults.RIGHT_SCOPE then
        tokenise_loop src dp cp (index + 1) (advance_position position current_char 1)
          (tokens ++ [⟨tokentypes.RIGHT_BRACE, String.mk [lexerdefaults.RIGHT_SCOPE],
            position.row, position.column⟩])
      else if h5 : current_char = lexerdefaults.SEPARATOR then
        tokenise_loop src dp cp (index + 1) (advance_position position current_char 1)
          (tokens ++ [⟨tokentypes.SEPARATOR, String.mk [lexerdefaults.SEPARATOR],
            position.row, position.column⟩])
      else if h6 : String.mk [current_char] ∈ lexerarch.ADDRESSING_MODE_KEYS then
        tokenise_loop src dp cp (index + 1) (advance_position position current_char 1)
          (tokens ++ [⟨tokentypes.ADDRESSING_MODE, String.mk [current_char],
            position.row, position.column⟩])
      else if h7 : current_char ∉ lexerdefaults.WHITESPACE_CHARS then
        let i3 := get_token_end src dp cp index
        let token := handle_token position (default_casing ((src.drop index).take (i3 - index)))
        tokenise_loop src dp cp i3
          (advance_position ⟨position.row, position.column + (token.value.length : Int) - 1⟩
            (src.getD (i3 - 1) ' ') 1)
          (tokens ++ [token])
      else
        tokenise_loop src dp cp (index + 1) (advance_position position current_char 1) tokens
    else
      tokens ++ [⟨tokentypes.END, String.mk lexerdefaults.LINE_BREAK_CHARS,
        position.row, position.column⟩]
termination_by index _ _ => src.length - index
decreasing_by
  · have := skip_line_ge src index
    omega
  · omega
  · omega
  · omega
  · omega
  · omega
  · have hdelim : ¬ is_token_delimiter dp cp (src.getD index ' ') := by
      unfold is_token_delimiter
      push_neg
      refine ⟨?_, ?_, h5, ?_, ?_, ?_, h6⟩
      · intro hcp
        exact h1 (Or.inr hcp)
      · intro hdp
        exact h1 (Or.inl hdp)
      · exact fun hw => h7 hw
      · intro hlb
        apply h7
        unfold lexerdefaults.WHITESPACE_CHARS
        exact List.mem_append_right _ hlb
      · intro hsc
        simp only [lexerdefaults.SCOPE_CHARS, List.mem_cons,
          List.mem_singleton, List.not_mem_nil, or_false] at hsc
        rcases hsc with hsc | hsc
        · exact h3 hsc
        · exact h4 hsc
    have := get_token_end_gt src dp cp index hin hdelim
    omega
  · omega

/-- Lexer.__tokenise. -/
def tokenise (source_code : List Char) (directive_sigil comment_sigil : Char) :
    List TypedToken :=
  tokenise_loop source_code directive_sigil comment_sigil 0 ⟨1, 1⟩ []

/-- Lexer.run: returns the token stream; the subsequent error report either
exits (on recorded errors) or leaves the stream untouched. -/
def run (source_code : List Char) (directive_sigil comment_sigil : Char) :
    List TypedToken :=
  tokenise source_code directive_sigil comment_sigil

end Lexer

/-! ### Claim C10: the lexer always emits a non-empty, END-terminated stream -/

theorem tokenise_loop_last_end (src : List Char) (dp cp : Char) :
    ∀ (index : Nat) (position : PositionToken) (tokens : List TypedToken),
      Lexer.tokenise_loop src dp cp index position tokens ≠ [] ∧
      (Lexer.tokenise_loop src dp cp index position tokens).getLast?.map TypedToken.type =
        some tokentypes.END := by
  intro index position tokens
  induction index, position, tokens using Lexer.tokenise_loop.induct src dp cp with
  | case1 index position tokens hin c h1 i2 ih =>
    rw [Lexer.tokenise_loop]
    dsimp only
    rw [dif_pos hin, dif_pos h1]
    exact ih
  | case2 index position tokens hin c h1 h2 ih =>
    rw [Lexer.tokenise_loop]
    dsimp only
    rw [dif_pos hin, dif_neg h1, dif_pos h2]
    exact ih
  | case3 index position tokens hin c h1 h2 h3 ih =>
    rw [Lexer.tokenise_loop]
    dsimp only
    rw [dif_pos hin, dif_neg h1, dif_neg h2, dif_pos h3]
    exact ih
  | case4 index position tokens hin c h1 h2 h3 h4 ih =>
    rw [Lexer.tokenise_loop]
    dsimp only
    rw [dif_pos hin, dif_neg h1, dif_neg h2, dif_neg h3, dif_pos h4]
    exact ih
  | case5 index position tokens hin c h1 h2 h3 h4 h5 ih =>
    rw [Lexer.tokenise_loop]
    dsimp only
    rw [dif_pos hin, dif_neg h1, dif_neg h2, dif_neg h3, dif_neg h4, dif_pos h5]
    exact ih
  | case6 index position tokens hin c h1 h2 h3 h4 h5 h6 ih =>
    rw [Lexer.tokenise_loop]
    dsimp only
    rw [dif_pos hin, dif_neg h1, dif_neg h2, dif_neg h3, dif_neg h4, dif_neg h5, dif_pos h6]
    exact ih
  | case7 index position tokens hin c h1 h2 h3 h4 h5 h6 h7 i3 token ih =>
    rw [Lexer.tokenise_loop]
    dsimp only
    rw [dif_pos hin, dif_neg h1, dif_neg h2, dif_neg h3, dif_neg h4, dif_neg h5, dif_neg h6,
      dif_pos h7]
    exact ih
  | case8 index position tokens hin c h1 h2 h3 h4 h5 h6 h7 ih =>
    rw [Lexer.tokenise_loop]
    dsimp only
    rw [dif_pos hin, dif_neg h1, dif_neg h2, dif_neg h3, dif_neg h4, dif_neg h5, dif_neg h6,
      dif_neg h7]
    exact ih
  | case9 index position tokens hin =>
    rw [Lexer.tokenise_loop]
    dsimp only
    rw [dif_neg hin]
    constructor
    · simp
    · rw [List.getLast?_append]
      simp

/-- C10: for every input source string (empty and newline-free included),
Lexer.run returns a non-empty token list whose final element is an END token
— the synthetic END appended unconditionally at end of input. -/
theorem lexer_run_ends_with_end (source_code : List Char)
    (directive_sigil comment_sigil : Char) :
    Lexer.run source_code directive_sigil comment_sigil ≠ [] ∧
    (Lexer.run source_code directive_sigil comment_sigil).getLast?.map TypedToken.type =
      some tokentypes.END :=
  tokenise_loop_last_end source_code directive_sigil comment_sigil 0 ⟨1, 1⟩ []

/-! ### semanticanalayser.py

The analyser walks each scope's token stream, counting operands, inserting
defaulted addressing modes and operands in place, and recording positioned
errors.  Errors are recorded as (row, column, error id) triples; a crash
(IndexError on the token list, an unknown mnemonic) is none. -/

namespace errormessages

def EXCESS_OPERANDS : Nat := 0

def NO_SOURCE_OPERAND : Nat := 1

def REGISTER_MODE_MISMATCH : Nat := 2

def REGISTER_OPERAND_MISMATCH : Nat := 3

def UNDECLARED_LABEL : Nat := 4

def GPR_ZERO : Nat := 5

def NON_REGISTER_INP_OPERAND : Nat := 6

def IMMEDIATE_MODE : Nat := 7

def NON_REGISTER_DESTINATION_OPERAND : Nat := 8

end errormessages

structure AnalyserError where
  row : Int
  column : Int
  err : Nat
deriving DecidableEq

/-- Python list indexing `l[i]`, with negative indices wrapping from the end
and an IndexError (none) outside the range. -/
def py_get (l : List TypedToken) (i : Int) : Option TypedToken :=
  let j : Int := if i < 0 then (l.length : Int) + i else i
  if 0 ≤ j ∧ j < l.length then l.get? j.toNat else none

/-- Python `list.insert(i, x)` for a non-negative index (clamped to the list
length, as Python clamps). -/
def py_insert (l : List TypedToken) (i : Nat) (x : TypedToken) : List TypedToken :=
  l.insertIdx (min i l.length) x

namespace SemanticAnalyser

/-- SemanticAnalyser.__count_operands: count operand-typed tokens from the
given index up to the next END token; running off the list is an
IndexError. -/
def count_operands (tokens : List TypedToken) (index : Nat) : Option Nat :=
  match h : tokens.get? index with
  | none => none
  | some t =>
    if t.type = tokentypes.END then some 0
    else
      match count_operands tokens (index + 1) with
      | none => none
      | some n =>
        some (if t.type = tokentypes.VALUE ∨ t.type = tokentypes.REGISTER ∨
                 t.type = tokentypes.LABEL then n + 1 else n)
termination_by tokens.length - index
decreasing_by
  simp_wf
  have h2 : index < tokens.length := (List.get?_eq_some.mp h).choose
  omega

/-- The non-separator body of SemanticAnalyser.__get_operand: depending on
the token found at the operand position, insert default operand tokens in
place of a missing operand or addressing mode, returning the mutated stream
and the position of the addressing-mode token to read. -/
def operand_step (tokens : List TypedToken) (index : Nat) (token : TypedToken) :
    Option (List TypedToken × Nat) :=
  if token.type = tokentypes.END then
    let t1 := py_insert tokens index
      ⟨tokentypes.REGISTER, registers.ACCUMULATOR.register, -1, -1⟩
    let t2 := py_insert t1 index
      ⟨tokentypes.ADDRESSING_MODE, addressingmodes.REGISTER.symbol, -1, -1⟩
    match py_get t2 ((index : Int) - 1) with
    | none => none
    | some prev =>
      if prev.type = tokentypes.REGISTER ∨ prev.type = tokentypes.LABEL ∨
         prev.type = tokentypes.VALUE then
        some (py_insert t2 index
          ⟨tokentypes.SEPARATOR, String.mk [lexerdefaults.SEPARATOR], -1, -1⟩,
          index + 1)
      else some (t2, index)
  else if token.type = tokentypes.REGISTER then
    some (py_insert tokens index
      ⟨tokentypes.ADDRESSING_MODE, addressingmodes.REGISTER.symbol, -1, -1⟩, index)
  else if token.type = tokentypes.LABEL ∨ token.type = tokentypes.VALUE then
    some (py_insert tokens index
      ⟨tokentypes.ADDRESSING_MODE, addressingmodes.DIRECT.symbol, -1, -1⟩, index)
  else some (tokens, index)

/-- SemanticAnalyser.__get_operand: skip separators, apply `operand_step`,
and return the (addressing mode, value) pair together with the mutated
stream. -/
def get_operand (tokens : List TypedToken) (index : Nat) :
    Option (Operand × List TypedToken) :=
  match h : tokens.get? index with
  | none => none
  | some token =>
    if token.type = tokentypes.SEPARATOR then
      get_operand tokens (index + 1)
    else
      match operand_step tokens index token with
      | none => none
      | some (t, i) =>
        match t.get? i, t.get? (i + 1) with
        | some a, some b => some (⟨a, b⟩, t)
        | _, _ => none
termination_by tokens.length - index
decreasing_by
  simp_wf
  have h2 : index < tokens.length := (List.get?_eq_some.mp h).choose
  omega

/-- SemanticAnalyser.__analyse_addressing_mode. -/
def analyse_addressing_mode (operand : Operand) : List AnalyserError :=
  if operand.addressing_mode.value = addressingmodes.REGISTER.symbol ∧
     operand.value.type ≠ tokentypes.REGISTER then
    [⟨operand.value.row, operand.value.column, errormessages.REGISTER_MODE_MISMATCH⟩]
  else if operand.addressing_mode.value ≠ addressingmodes.REGISTER.symbol ∧
     operand.value.type = tokentypes.REGISTER then
    [⟨operand.value.row, operand.value.column, errormessages.REGISTER_OPERAND_MISMATCH⟩]
  else []

/-- SemanticAnalyser.__analyse_operand_value. -/
def analyse_operand_value (gtab ltab : List (String × Symbol)) (operand : Operand) :
    List AnalyserError :=
  if operand.value.type = tokentypes.LABEL ∧
     table_get gtab operand.value.value = none ∧
     table_get ltab operand.value.value = none then
    [⟨operand.value.row, operand.value.column, errormessages.UNDECLARED_LABEL⟩]
  else if operand.value.type = tokentypes.REGISTER ∧ operand.value.value = "0" then
    [⟨operand.value.row, operand.value.column, errormessages.GPR_ZERO⟩]
  else []

/-- SemanticAnalyser.__analyse_operand. -/
def analyse_operand (gtab ltab : List (String × Symbol)) (operand : Operand) :
    List AnalyserError :=
  analyse_addressing_mode operand ++ analyse_operand_value gtab ltab operand

/-- SemanticAnalyser.__analyse_instruction at a given INSTRUCTION index:
count the operands, then process source (index+1) and destination (index+3)
operands, mutating the stream and collecting errors in recording order. -/
def analyse_instruction (gtab ltab : List (String × Symbol))
    (tokens : List TypedToken) (index : Nat) :
    Option (List TypedToken × List AnalyserError) :=
  match tokens.get? index with
  | none => none
  | some token =>
    match instructions.get_instruction token.value with
    | none => none
    | some instruction =>
      match count_operands tokens index with
      | none => none
      | some number_operands =>
        if number_operands > instruction.operands then
          some (tokens, [⟨token.row, token.column, errormessages.EXCESS_OPERANDS⟩])
        else
          let step1 : Option (List AnalyserError) :=
            if instruction.operands > 1 then
              match tokens.get? (index + 1) with
              | none => none
              | some t1 =>
                some (if t1.type = tokentypes.END then
                  [⟨token.row, token.column, errormessages.NO_SOURCE_OPERAND⟩] else [])
            else some []
          match step1 with
          | none => none
          | some errs1 =>
            if instruction.operands > 0 then
              match get_operand tokens (index + 1) with
              | none => none
              | some (source_operand, tokens2) =>
                let errs2 := analyse_operand gtab ltab source_operand
                let errs3 :=
                  if instruction = instructions.INP ∧
                     source_operand.addressing_mode.value ≠ addressingmodes.REGISTER.symbol
                  then [⟨token.row, token.column, errormessages.NON_REGISTER_INP_OPERAND⟩]
                  else []
                let errs4 :=
                  if instruction ∈ instructions.NON_IMMEDIATE_MODE_INSTRUCTIONS ∧
                     source_operand.addressing_mode.value = addressingmodes.IMMEDIATE.symbol
                  then [⟨token.row, token.column, errormessages.IMMEDIATE_MODE⟩]
                  else []
                if instruction.operands > 1 then
                  match get_operand tokens2 (index + 3) with
                  | none => none
                  | some (destination_operand, tokens3) =>
                    let errs5 := analyse_operand gtab ltab destination_operand
                    let errs6 :=
                      if destination_operand.addressing_mode.value ≠
                         addressingmodes.REGISTER.symbol
                      then [⟨token.row, token.column,
                        errormessages.NON_REGISTER_DESTINATION_OPERAND⟩]
                      else []
                    some (tokens3, errs1 ++ errs2 ++ errs3 ++ errs4 ++ errs5 ++ errs6)
                else some (tokens2, errs1 ++ errs2 ++ errs3 ++ errs4)
            else some (tokens, errs1)

/-- SemanticAnalyser.__semantic_analyse: iterate positions, analysing every
INSTRUCTION token on the live, possibly growing stream.  Each iteration
advances the position by one and insertions add at most five tokens per
instruction, so iterations never exceed six times the initial length; the
fuel passed by `semantic_analyse` therefore never runs out (exhaustion is
modelled as a crash). -/
def semantic_analyse_go (gtab ltab : List (String × Symbol)) :
    Nat → List TypedToken → Nat → List AnalyserError →
    Option (List TypedToken × List AnalyserError)
  | 0, _, _, _ => none
  | fuel + 1, tokens, index, errs =>
    match tokens.get? index with
    | none => some (tokens, errs)
    | some token =>
      if token.type = tokentypes.INSTRUCTION then
        match analyse_instruction gtab ltab tokens index with
        | none => none
        | some (tokens2, errs2) =>
          semantic_analyse_go gtab ltab fuel tokens2 (index + 1) (errs ++ errs2)
      else semantic_analyse_go gtab ltab fuel tokens (index + 1) errs

def semantic_analyse (gtab : List (String × Symbol)) (scope : Scope) :
    Option (Scope × List AnalyserError) :=
  (semantic_analyse_go gtab scope.symbol_table (6 * scope.tokens.length + 1)
      scope.tokens 0 []).map
    (fun r => ({ scope with tokens := r.1 }, r.2))

def run_procedure_scopes (gtab : List (String × Symbol)) :
    List (String × Scope) → List AnalyserError →
    Option (List (String × Scope) × List AnalyserError)
  | [], errs => some ([], errs)
  | (name, scope) :: rest, errs =>
    match semantic_analyse gtab scope with
    | none => none
    | some (scope2, errs2) =>
      (run_procedure_scopes gtab rest (errs ++ errs2)).map
        (fun r => ((name, scope2) :: r.1, r.2))

/-- SemanticAnalyser.run: analyse the global scope then every procedure
scope; the collected errors abort the program when non-empty. -/
def run (global_scope : Scope) (procedure_scopes : List (String × Scope)) :
    Option (Scope × List (String × Scope) × List AnalyserError) :=
  match semantic_analyse global_scope.symbol_table global_scope with
  | none => none
  | some (g2, errsg) =>
    (run_procedure_scopes global_scope.symbol_table procedure_scopes errsg).map
      (fun r => (g2, r.1, r.2))

end SemanticAnalyser

/-! ### C9: semantic analyser operand normal form -/

def c9_scope : Scope :=
  ⟨[⟨tokentypes.INSTRUCTION, "OUT", 1, 1⟩, ⟨tokentypes.ADDRESSING_MODE, "@", 1, 5⟩,
    ⟨tokentypes.END, "/", 1, 9⟩], [], 1, 0⟩

/-- C9 counterexample: on the scope `OUT @ END` — exactly what
InstructionPools leaves behind for the source statement `OUT @FOO DAT`,
whose variable tokens it strips in place — SemanticAnalyser.run completes
without recording any error, yet the arity-1 instruction OUT at index 0 is
not followed by an (addressing mode, operand) pair: the token at index 2 is
the statement END token, not a VALUE/REGISTER/LABEL operand.  The claimed
normal form is not established by an error-free analyser run alone. -/
theorem analyser_normal_form_counterexample :
    SemanticAnalyser.run c9_scope [] = some (c9_scope, [], []) ∧
    ((c9_scope.tokens.get? 0).map TypedToken.type = some tokentypes.INSTRUCTION ∧
     instructions.get_instruction "OUT" = some instructions.OUT ∧
     instructions.OUT.operands = 1) ∧
    ¬ (∃ t, c9_scope.tokens.get? 2 = some t ∧
        (t.type = tokentypes.VALUE ∨ t.type = tokentypes.REGISTER ∨
         t.type = tokentypes.LABEL)) := by
  refine ⟨?_, by decide, by decide⟩
  have h1 : SemanticAnalyser.count_operands c9_scope.tokens 0 = some 0 := by
    simp [SemanticAnalyser.count_operands, c9_scope, tokentypes.INSTRUCTION,
      tokentypes.END, tokentypes.ADDRESSING_MODE, tokentypes.VALUE,
      tokentypes.REGISTER, tokentypes.LABEL]
  have h2 : SemanticAnalyser.get_operand c9_scope.tokens 1 =
      some (⟨⟨tokentypes.ADDRESSING_MODE, "@", 1, 5⟩, ⟨tokentypes.END, "/", 1, 9⟩⟩,
        c9_scope.tokens) := by
    simp [SemanticAnalyser.get_operand, SemanticAnalyser.operand_step, c9_scope,
      tokentypes.INSTRUCTION, tokentypes.END, tokentypes.ADDRESSING_MODE,
      tokentypes.VALUE, tokentypes.REGISTER, tokentypes.LABEL, tokentypes.SEPARATOR]
  have h3 : SemanticAnalyser.analyse_instruction [] [] c9_scope.tokens 0 =
      some (c9_scope.tokens, []) := by
    simp only [SemanticAnalyser.analyse_instruction]
    rw [h1, h2]
    simp [c9_scope, SemanticAnalyser.analyse_operand,
      SemanticAnalyser.analyse_addressing_mode, SemanticAnalyser.analyse_operand_value,
      instructions.get_instruction]
    decide
  simp only [SemanticAnalyser.run, SemanticAnalyser.semantic_analyse,
    SemanticAnalyser.run_procedure_scopes]
  have hg : SemanticAnalyser.semantic_analyse_go [] [] (6 * c9_scope.tokens.length + 1)
      c9_scope.tokens 0 [] = some (c9_scope.tokens, []) := by
    simp only [show (6 * c9_scope.tokens.length + 1) = 18 + 1 by decide]
    rw [SemanticAnalyser.semantic_analyse_go]
    simp only [show c9_scope.tokens.get? 0 =
      some ⟨tokentypes.INSTRUCTION, "OUT", 1, 1⟩ by decide]
    rw [if_pos trivial, h3]
    dsimp only
    rw [show (18 : Nat) = 17 + 1 from rfl, SemanticAnalyser.semantic_analyse_go]
    simp only [show c9_scope.tokens.get? (0 + 1) =
      some ⟨tokentypes.ADDRESSING_MODE, "@", 1, 5⟩ by decide]
    rw [if_neg (by decide)]
    rw [show (17 : Nat) = 16 + 1 from rfl, SemanticAnalyser.semantic_analyse_go]
    simp only [show c9_scope.tokens.get? (0 + 1 + 1) =
      some ⟨tokentypes.END, "/", 1, 9⟩ by decide]
    rw [if_neg (by decide)]
    rw [show (16 : Nat) = 15 + 1 from rfl, SemanticAnalyser.semantic_analyse_go]
    simp only [show c9_scope.tokens.get? (0 + 1 + 1 + 1) = none by decide,
      List.append_nil]
  simp only [show c9_scope.symbol_table = [] from rfl]
  rw [hg]
  rfl


/-! Parser adjacency tables (parser.py): `possible_tokens` lists the token
types allowed to follow a given token type; `__parse` checks every adjacent
pair starting from a virtual leading END token. -/

namespace Parser

def END_NEXT : List Nat :=
  [tokentypes.END, tokentypes.INSTRUCTION, tokentypes.LABEL,
   tokentypes.RIGHT_BRACE, tokentypes.LEFT_BRACE]

def INSTRUCTION_NEXT : List Nat :=
  [tokentypes.END, tokentypes.ADDRESSING_MODE, tokentypes.VALUE,
   tokentypes.REGISTER, tokentypes.LABEL, tokentypes.RIGHT_BRACE]

def ADDRESSING_MODE_NEXT : List Nat :=
  [tokentypes.VALUE, tokentypes.REGISTER, tokentypes.LABEL]

def OPERAND_NEXT : List Nat :=
  [tokentypes.END, tokentypes.SEPARATOR, tokentypes.RIGHT_BRACE, tokentypes.LEFT_BRACE]

def LABEL_NEXT : List Nat :=
  [tokentypes.END, tokentypes.SEPARATOR, tokentypes.INSTRUCTION,
   tokentypes.RIGHT_BRACE, tokentypes.LEFT_BRACE, tokentypes.ASSEMBLY_DIRECTIVE]

def SEPARATOR_NEXT : List Nat :=
  [tokentypes.ADDRESSING_MODE, tokentypes.VALUE, tokentypes.REGISTER, tokentypes.LABEL]

def SCOPE_NEXT : List Nat := [tokentypes.END]

def ASSEMBLY_DIRECTIVE_NEXT : List Nat := [tokentypes.END, tokentypes.VALUE]

def possible_tokens (t : Nat) : List Nat :=
  if t = tokentypes.END then END_NEXT
  else if t = tokentypes.INSTRUCTION then INSTRUCTION_NEXT
  else if t = tokentypes.ADDRESSING_MODE then ADDRESSING_MODE_NEXT
  else if t = tokentypes.VALUE ∨ t = tokentypes.REGISTER then OPERAND_NEXT
  else if t = tokentypes.LABEL then LABEL_NEXT
  else if t = tokentypes.SEPARATOR then SEPARATOR_NEXT
  else if t = tokentypes.RIGHT_BRACE ∨ t = tokentypes.LEFT_BRACE then SCOPE_NEXT
  else if t = tokentypes.ASSEMBLY_DIRECTIVE then ASSEMBLY_DIRECTIVE_NEXT
  else []

/-- One adjacent pair of the stream satisfies the parser's tables. -/
def adjacent (a b : TypedToken) : Prop := b.type ∈ possible_tokens a.type

instance (a b : TypedToken) : Decidable (adjacent a b) :=
  inferInstanceAs (Decidable (b.type ∈ possible_tokens a.type))

def seed_end : TypedToken := ⟨tokentypes.END, "", -1, -1⟩

end Parser

/-- A token a scope stream may contain once InstructionPools has consumed
braces and assembly directives: not a brace or directive, and any
INSTRUCTION token carries a known mnemonic. -/
def good_token (t : TypedToken) : Prop :=
  t.type ≠ tokentypes.LEFT_BRACE ∧ t.type ≠ tokentypes.RIGHT_BRACE ∧
  t.type ≠ tokentypes.ASSEMBLY_DIRECTIVE ∧
  (t.type = tokentypes.INSTRUCTION → instructions.get_instruction t.value ≠ none)

instance (t : TypedToken) : Decidable (good_token t) :=
  inferInstanceAs (Decidable (t.type ≠ tokentypes.LEFT_BRACE ∧
    t.type ≠ tokentypes.RIGHT_BRACE ∧ t.type ≠ tokentypes.ASSEMBLY_DIRECTIVE ∧
    (t.type = tokentypes.INSTRUCTION → instructions.get_instruction t.value ≠ none)))

/-- A scope token stream as the semantic analyser receives it from a
successful parse: every adjacent pair (with the parser's virtual leading
END) passes the adjacency tables, every token is `good_token`, and the
stream ends with the lexer's final END token. -/
def statement_stream (tokens : List TypedToken) : Prop :=
  List.Chain' Parser.adjacent (Parser.seed_end :: tokens) ∧
  (∀ t ∈ tokens, good_token t) ∧
  (tokens.getLast?.map TypedToken.type = some tokentypes.END)

instance (tokens : List TypedToken) : Decidable (statement_stream tokens) :=
  inferInstanceAs (Decidable (List.Chain' Parser.adjacent (Parser.seed_end :: tokens) ∧
    (∀ t ∈ tokens, good_token t) ∧
    (tokens.getLast?.map TypedToken.type = some tokentypes.END)))

/-- The conditions of `statement_stream` restricted to a nonempty suffix,
dropping the virtual seed boundary. -/
def local_stream (l : List TypedToken) : Prop :=
  List.Chain' Parser.adjacent l ∧
  (∀ t ∈ l, good_token t) ∧
  (l.getLast?.map TypedToken.type = some tokentypes.END)

/-- The token types acceptable as an operand value. -/
def operand_type (t : Nat) : Prop :=
  t = tokentypes.VALUE ∨ t = tokentypes.REGISTER ∨ t = tokentypes.LABEL

instance (t : Nat) : Decidable (operand_type t) :=
  inferInstanceAs (Decidable (t = tokentypes.VALUE ∨ t = tokentypes.REGISTER ∨
    t = tokentypes.LABEL))

/-- The positional operand normal form the code generator reads
unconditionally: an addressing mode at index+1, an operand at index+2, and
for a two-operand instruction a separator at index+3 followed by a second
addressing mode / operand pair at index+4, index+5. -/
def instruction_shape (tokens : List TypedToken) (j : Nat) (arity : Nat) : Prop :=
  ((tokens.get? (j + 1)).map TypedToken.type = some tokentypes.ADDRESSING_MODE) ∧
  (∃ t, tokens.get? (j + 2) = some t ∧ operand_type t.type) ∧
  (1 < arity →
    ((tokens.get? (j + 3)).map TypedToken.type = some tokentypes.SEPARATOR) ∧
    ((tokens.get? (j + 4)).map TypedToken.type = some tokentypes.ADDRESSING_MODE) ∧
    (∃ t, tokens.get? (j + 5) = some t ∧ operand_type t.type))

/-- Every arity ≥ 1 instruction of the stream is in operand normal form. -/
def normal_form (tokens : List TypedToken) : Prop :=
  ∀ j t instr, tokens.get? j = some t → t.type = tokentypes.INSTRUCTION →
    instructions.get_instruction t.value = some instr → 1 ≤ instr.operands →
    instruction_shape tokens j instr.operands

/-! Index bookkeeping for the analyser's in-place insertions. -/

lemma get?_some_lt {l : List TypedToken} {k : Nat} {t : TypedToken}
    (h : l.get? k = some t) : k < l.length := by
  rw [List.get?_eq_getElem?] at h
  exact (List.getElem?_eq_some.mp h).1

lemma get?_append_shift (pre l : List TypedToken) (k : Nat) :
    (pre ++ l).get? (pre.length + k) = l.get? k := by
  rw [List.get?_eq_getElem?, List.get?_eq_getElem?,
    List.getElem?_append_right (by omega)]
  congr 1
  omega

lemma py_insert_eq_insertIdx {l : List TypedToken} {i : Nat} (x : TypedToken)
    (h : i ≤ l.length) : py_insert l i x = l.insertIdx i x := by
  unfold py_insert
  rw [Nat.min_eq_left h]

lemma insertIdx_get?_lt {l : List TypedToken} {i k : Nat} (x : TypedToken)
    (hk : k < i) (hi : i ≤ l.length) : (l.insertIdx i x).get? k = l.get? k := by
  have hkl : k < l.length := lt_of_lt_of_le hk hi
  rw [List.get?_eq_getElem?, List.get?_eq_getElem?,
    List.getElem?_eq_getElem (by rw [List.length_insertIdx _ _ hi]; omega),
    List.getElem?_eq_getElem hkl]
  exact congrArg some (List.getElem_insertIdx_of_lt l x i k hk hkl)

lemma insertIdx_get?_self {l : List TypedToken} {i : Nat} (x : TypedToken)
    (hi : i ≤ l.length) : (l.insertIdx i x).get? i = some x := by
  rw [List.get?_eq_getElem?,
    List.getElem?_eq_getElem (by rw [List.length_insertIdx _ _ hi]; omega)]
  exact congrArg some (List.getElem_insertIdx_self l x i hi)

lemma insertIdx_get?_succ {l : List TypedToken} {i k : Nat} (x : TypedToken)
    (hik : i ≤ k) (hi : i ≤ l.length) :
    (l.insertIdx i x).get? (k + 1) = l.get? k := by
  by_cases hkl : k < l.length
  · rw [List.get?_eq_getElem?, List.get?_eq_getElem?,
      List.getElem?_eq_getElem (by rw [List.length_insertIdx _ _ hi]; omega),
      List.getElem?_eq_getElem hkl]
    refine congrArg some ?_
    have h1 : i + (k - i) = k := by omega
    have h2 : i + (k - i) < l.length := by omega
    have := List.getElem_insertIdx_add_succ l x i (k - i) h2
    simp only [h1] at this
    exact this
  · rw [List.get?_eq_getElem?, List.get?_eq_getElem?,
      List.getElem?_eq_none (by rw [List.length_insertIdx _ _ hi]; omega),
      List.getElem?_eq_none (by omega)]

lemma insertIdx_length {l : List TypedToken} {i : Nat} (x : TypedToken)
    (hi : i ≤ l.length) : (l.insertIdx i x).length = l.length + 1 :=
  List.length_insertIdx _ _ hi

lemma insertIdx_append_right (pre l : List TypedToken) (i : Nat) (x : TypedToken)
    (h : pre.length ≤ i) :
    (pre ++ l).insertIdx i x = pre ++ l.insertIdx (i - pre.length) x := by
  induction pre generalizing i with
  | nil => simp
  | cons a pre ih =>
    cases i with
    | zero => simp at h
    | succ i =>
      simp only [List.cons_append, List.insertIdx_succ_cons, List.length_cons,
        Nat.succ_sub_succ] at *
      rw [ih i (by omega)]

lemma py_insert_append (pre l : List TypedToken) (k : Nat) (x : TypedToken) :
    py_insert (pre ++ l) (pre.length + k) x = pre ++ py_insert l k x := by
  unfold py_insert
  rw [List.length_append,
    show min (pre.length + k) (pre.length + l.length) = pre.length + min k l.length
      by omega,
    insertIdx_append_right pre l _ x (by omega)]
  congr 2
  omega

lemma py_get_nonneg (l : List TypedToken) (i : Int) (h : 0 ≤ i) :
    py_get l i = l.get? i.toNat := by
  unfold py_get
  simp only [if_neg (by omega : ¬ i < 0)]
  split
  · rfl
  · rename_i hc
    rw [eq_comm, List.get?_eq_getElem?, List.getElem?_eq_none (by omega)]

lemma next_exists {tokens : List TypedToken} {k : Nat} {t : TypedToken}
    (hlast : tokens.getLast?.map TypedToken.type = some tokentypes.END)
    (h : tokens.get? k = some t) (ht : t.type ≠ tokentypes.END) :
    k + 1 < tokens.length := by
  have hk := get?_some_lt h
  by_cases hk1 : k + 1 < tokens.length
  · exact hk1
  · exfalso
    have hke : k = tokens.length - 1 := by omega
    rw [List.getLast?_eq_getElem?, ← hke, ← List.get?_eq_getElem?, h] at hlast
    simp only [Option.map_some'] at hlast
    exact ht (Option.some.injEq .. ▸ hlast)


/-! Unfolding lemmas for the analyser's worker functions. -/

lemma count_operands_none {tokens : List TypedToken} {x : Nat}
    (h : tokens.get? x = none) : SemanticAnalyser.count_operands tokens x = none := by
  rw [SemanticAnalyser.count_operands]
  split
  · rfl
  · rename_i t heq
    rw [h] at heq
    exact absurd heq (by simp)

lemma count_operands_some {tokens : List TypedToken} {x : Nat} {t : TypedToken}
    (h : tokens.get? x = some t) :
    SemanticAnalyser.count_operands tokens x =
      (if t.type = tokentypes.END then some 0
       else
        match SemanticAnalyser.count_operands tokens (x + 1) with
        | none => none
        | some n =>
          some (if t.type = tokentypes.VALUE ∨ t.type = tokentypes.REGISTER ∨
                   t.type = tokentypes.LABEL then n + 1 else n)) := by
  rw [SemanticAnalyser.count_operands]
  split
  · rename_i heq
    rw [heq] at h
    exact absurd h (by simp)
  · rename_i t' heq
    rw [heq, Option.some.injEq] at h
    subst h
    rfl

lemma get_operand_none {tokens : List TypedToken} {x : Nat}
    (h : tokens.get? x = none) : SemanticAnalyser.get_operand tokens x = none := by
  rw [SemanticAnalyser.get_operand]
  split
  · rfl
  · rename_i t heq
    rw [h] at heq
    exact absurd heq (by simp)

lemma get_operand_sep {tokens : List TypedToken} {x : Nat} {t : TypedToken}
    (h : tokens.get? x = some t) (ht : t.type = tokentypes.SEPARATOR) :
    SemanticAnalyser.get_operand tokens x =
      SemanticAnalyser.get_operand tokens (x + 1) := by
  rw [SemanticAnalyser.get_operand]
  split
  · rename_i heq
    rw [heq] at h
    exact absurd h (by simp)
  · rename_i t' heq
    rw [heq, Option.some.injEq] at h
    subst h
    rw [if_pos ht]

lemma get_operand_nonsep {tokens : List TypedToken} {x : Nat} {t : TypedToken}
    (h : tokens.get? x = some t) (ht : ¬ t.type = tokentypes.SEPARATOR) :
    SemanticAnalyser.get_operand tokens x =
      (match SemanticAnalyser.operand_step tokens x t with
       | none => none
       | some (u, i) =>
         match u.get? i, u.get? (i + 1) with
         | some a, some b => some (⟨a, b⟩, u)
         | _, _ => none) := by
  rw [SemanticAnalyser.get_operand]
  split
  · rename_i heq
    rw [heq] at h
    exact absurd h (by simp)
  · rename_i t' heq
    rw [heq, Option.some.injEq] at h
    subst h
    rw [if_neg ht]


/-! Localisation: operand handling at positions at or beyond the instruction
index never inspects or mutates the stream before that index, so it
commutes with any untouched prefix. -/

lemma count_operands_shift (pre l : List TypedToken) :
    ∀ k, SemanticAnalyser.count_operands (pre ++ l) (pre.length + k) =
      SemanticAnalyser.count_operands l k := by
  refine SemanticAnalyser.count_operands.induct l
    (fun k => SemanticAnalyser.count_operands (pre ++ l) (pre.length + k) =
      SemanticAnalyser.count_operands l k) ?_ ?_ ?_ ?_
  · intro x hx
    rw [count_operands_none (by rw [get?_append_shift, hx]),
      count_operands_none hx]
  · intro x t hx ht
    rw [count_operands_some (by rw [get?_append_shift]; exact hx),
      count_operands_some hx, if_pos ht, if_pos ht]
  · intro x t hx ht hrec ih
    rw [count_operands_some (by rw [get?_append_shift]; exact hx),
      count_operands_some hx, if_neg ht, if_neg ht,
      show pre.length + x + 1 = pre.length + (x + 1) by omega, ih, hrec]
  · intro x t hx ht n hrec ih
    rw [count_operands_some (by rw [get?_append_shift]; exact hx),
      count_operands_some hx, if_neg ht, if_neg ht,
      show pre.length + x + 1 = pre.length + (x + 1) by omega, ih, hrec]

lemma operand_step_shift (pre l : List TypedToken) (x : Nat) (t : TypedToken)
    (hk : 1 ≤ x) :
    SemanticAnalyser.operand_step (pre ++ l) (pre.length + x) t =
      (SemanticAnalyser.operand_step l x t).map
        (fun r => (pre ++ r.1, pre.length + r.2)) := by
  unfold SemanticAnalyser.operand_step
  by_cases hEND : t.type = tokentypes.END
  · rw [if_pos hEND, if_pos hEND]
    dsimp only
    rw [py_insert_append, py_insert_append]
    rw [show py_get
        (pre ++ py_insert (py_insert l x
            ⟨tokentypes.REGISTER, registers.ACCUMULATOR.register, -1, -1⟩) x
            ⟨tokentypes.ADDRESSING_MODE, addressingmodes.REGISTER.symbol, -1, -1⟩)
        (((pre.length + x : Nat) : Int) - 1) =
        py_get (py_insert (py_insert l x
            ⟨tokentypes.REGISTER, registers.ACCUMULATOR.register, -1, -1⟩) x
            ⟨tokentypes.ADDRESSING_MODE, addressingmodes.REGISTER.symbol, -1, -1⟩)
        (((x : Nat) : Int) - 1)
      from ?side]
    case side =>
      rw [py_get_nonneg _ _ (by omega), py_get_nonneg _ _ (by omega),
        show ((pre.length + x : Nat) : Int) - 1 = ((pre.length + (x - 1) : Nat) : Int)
          by push_cast; omega,
        Int.toNat_natCast, get?_append_shift]
      congr 1
      omega
    cases hprev : py_get (py_insert (py_insert l x
        ⟨tokentypes.REGISTER, registers.ACCUMULATOR.register, -1, -1⟩) x
        ⟨tokentypes.ADDRESSING_MODE, addressingmodes.REGISTER.symbol, -1, -1⟩)
        (((x : Nat) : Int) - 1) with
    | none => rfl
    | some prev =>
      dsimp only
      by_cases hpt : prev.type = tokentypes.REGISTER ∨ prev.type = tokentypes.LABEL ∨
          prev.type = tokentypes.VALUE
      · rw [if_pos hpt, if_pos hpt, py_insert_append]
        rfl
      · rw [if_neg hpt, if_neg hpt]
        rfl
  · rw [if_neg hEND, if_neg hEND]
    by_cases hREG : t.type = tokentypes.REGISTER
    · rw [if_pos hREG, if_pos hREG, py_insert_append]
      rfl
    · rw [if_neg hREG, if_neg hREG]
      by_cases hLV : t.type = tokentypes.LABEL ∨ t.type = tokentypes.VALUE
      · rw [if_pos hLV, if_pos hLV, py_insert_append]
        rfl
      · rw [if_neg hLV, if_neg hLV]
        rfl

lemma get_operand_shift_nonsep (pre l : List TypedToken) (x : Nat) (t : TypedToken)
    (hx : l.get? x = some t) (ht : ¬ t.type = tokentypes.SEPARATOR) (hk : 1 ≤ x) :
    SemanticAnalyser.get_operand (pre ++ l) (pre.length + x) =
      (SemanticAnalyser.get_operand l x).map (fun r => (r.1, pre ++ r.2)) := by
  rw [get_operand_nonsep (by rw [get?_append_shift]; exact hx) ht,
    get_operand_nonsep hx ht, operand_step_shift pre l x t hk]
  cases hs : SemanticAnalyser.operand_step l x t with
  | none => rfl
  | some r =>
    obtain ⟨u, i⟩ := r
    dsimp only [Option.map_some']
    rw [show pre.length + i + 1 = pre.length + (i + 1) by omega,
      get?_append_shift, get?_append_shift]
    cases u.get? i with
    | none => rfl
    | some a =>
      cases u.get? (i + 1) with
      | none => rfl
      | some b => rfl

lemma get_operand_shift (pre l : List TypedToken) :
    ∀ k, 1 ≤ k →
      SemanticAnalyser.get_operand (pre ++ l) (pre.length + k) =
        (SemanticAnalyser.get_operand l k).map (fun r => (r.1, pre ++ r.2)) := by
  refine SemanticAnalyser.get_operand.induct l
    (fun k => 1 ≤ k →
      SemanticAnalyser.get_operand (pre ++ l) (pre.length + k) =
        (SemanticAnalyser.get_operand l k).map (fun r => (r.1, pre ++ r.2)))
    ?_ ?_ ?_ ?_ ?_
  · intro x hx _
    rw [get_operand_none (by rw [get?_append_shift, hx]), get_operand_none hx]
    rfl
  · intro x t hx ht ih hk
    rw [get_operand_sep (by rw [get?_append_shift]; exact hx) ht,
      get_operand_sep hx ht,
      show pre.length + x + 1 = pre.length + (x + 1) by omega,
      ih (by omega)]
  · intro x t hx ht _ hk
    exact get_operand_shift_nonsep pre l x t hx ht hk
  · intro x t hx ht u i _ a b _ _ hk
    exact get_operand_shift_nonsep pre l x t hx ht hk
  · intro x t hx ht u i _ _ hk
    exact get_operand_shift_nonsep pre l x t hx ht hk

lemma analyse_instruction_shift (gtab ltab : List (String × Symbol))
    (pre l : List TypedToken) :
    SemanticAnalyser.analyse_instruction gtab ltab (pre ++ l) pre.length =
      (SemanticAnalyser.analyse_instruction gtab ltab l 0).map
        (fun r => (pre ++ r.1, r.2)) := by
  have hg0 : (pre ++ l).get? pre.length = l.get? 0 := by
    have := get?_append_shift pre l 0
    rwa [Nat.add_zero] at this
  have hc0 : SemanticAnalyser.count_operands (pre ++ l) pre.length =
      SemanticAnalyser.count_operands l 0 := by
    have := count_operands_shift pre l 0
    rwa [Nat.add_zero] at this
  unfold SemanticAnalyser.analyse_instruction
  rw [hg0]
  cases h0 : l.get? 0 with
  | none => rfl
  | some token =>
    dsimp only
    cases hins : instructions.get_instruction token.value with
    | none => rfl
    | some instruction =>
      dsimp only
      rw [hc0]
      cases hn : SemanticAnalyser.count_operands l 0 with
      | none => rfl
      | some number_operands =>
        dsimp only
        by_cases hex : number_operands > instruction.operands
        · rw [if_pos hex, if_pos hex]
          rfl
        · rw [if_neg hex, if_neg hex]
          have hg1 : (pre ++ l).get? (pre.length + 1) = l.get? 1 :=
            get?_append_shift pre l 1
          by_cases hop1 : instruction.operands > 1
          · rw [if_pos hop1, if_pos hop1]
            rw [hg1]
            cases h1 : l.get? 1 with
            | none => rfl
            | some t1 =>
              dsimp only
              rw [if_pos (by omega : instruction.operands > 0),
                if_pos (by omega : instruction.operands > 0)]
              rw [get_operand_shift pre l 1 (by omega)]
              cases hsrc : SemanticAnalyser.get_operand l 1 with
              | none => rfl
              | some r =>
                obtain ⟨source_operand, tokens2⟩ := r
                dsimp only [Option.map_some']
                rw [if_pos hop1, if_pos hop1]
                rw [show pre.length + 3 = pre.length + 3 from rfl]
                rw [get_operand_shift pre tokens2 3 (by omega)]
                cases hdst : SemanticAnalyser.get_operand tokens2 3 with
                | none => rfl
                | some r2 =>
                  obtain ⟨destination_operand, tokens3⟩ := r2
                  dsimp only [Option.map_some']
          · rw [if_neg hop1, if_neg hop1]
            dsimp only
            by_cases hop0 : instruction.operands > 0
            · rw [if_pos hop0, if_pos hop0]
              rw [get_operand_shift pre l 1 (by omega)]
              cases hsrc : SemanticAnalyser.get_operand l 1 with
              | none => rfl
              | some r =>
                obtain ⟨source_operand, tokens2⟩ := r
                dsimp only [Option.map_some']
                rw [if_neg hop1, if_neg hop1]
                rfl
            · rw [if_neg hop0, if_neg hop0]
              rfl



/-! Decomposition and reassembly of `statement_stream` around an untouched
prefix, plus concrete insertion shapes. -/

lemma get?_lt_some {l : List TypedToken} {k : Nat} (h : k < l.length) :
    ∃ u, l.get? k = some u := by
  rw [List.get?_eq_getElem?, List.getElem?_eq_getElem h]
  exact ⟨_, rfl⟩

lemma local_next_exists {l : List TypedToken} {k : Nat} {t : TypedToken}
    (hl : local_stream l) (h : l.get? k = some t) (ht : t.type ≠ tokentypes.END) :
    ∃ u, l.get? (k + 1) = some u :=
  get?_lt_some (next_exists hl.2.2 h ht)

lemma statement_stream_extract {pre l : List TypedToken}
    (h : statement_stream (pre ++ l)) (hl : l ≠ []) : local_stream l := by
  obtain ⟨hch, hmem, hlast⟩ := h
  refine ⟨?_, ?_, ?_⟩
  · exact hch.suffix ⟨Parser.seed_end :: pre, by simp⟩
  · intro t ht
    exact hmem t (by simp [ht])
  · rw [List.getLast?_append] at hlast
    cases he : l.getLast? with
    | none => exact absurd (List.getLast?_eq_none_iff.mp he) hl
    | some u =>
      rw [he] at hlast
      simpa using hlast

lemma statement_stream_reassemble {pre r r' : List TypedToken} {a : TypedToken}
    (h : statement_stream (pre ++ a :: r)) (h' : local_stream (a :: r')) :
    statement_stream (pre ++ a :: r') := by
  obtain ⟨hch, hmem, _⟩ := h
  obtain ⟨hch', hmem', hlast'⟩ := h'
  refine ⟨?_, ?_, ?_⟩
  · have hsplit : Parser.seed_end :: (pre ++ a :: r) =
        (Parser.seed_end :: pre) ++ a :: r := by simp
    rw [hsplit, List.chain'_append] at hch
    have hsplit' : Parser.seed_end :: (pre ++ a :: r') =
        (Parser.seed_end :: pre) ++ a :: r' := by simp
    rw [hsplit', List.chain'_append]
    exact ⟨hch.1, hch', by simpa using hch.2.2⟩
  · intro t ht
    rw [List.mem_append] at ht
    cases ht with
    | inl hp => exact hmem t (by simp [hp])
    | inr hr => exact hmem' t hr
  · rw [List.getLast?_append]
    cases he : (a :: r').getLast? with
    | none => simp at he
    | some u =>
      rw [he] at hlast'
      simpa using hlast'

lemma local_stream_cons_tail {a : TypedToken} {l : List TypedToken}
    (h : local_stream (a :: l)) (hl : l ≠ []) : local_stream l := by
  obtain ⟨hch, hmem, hlast⟩ := h
  refine ⟨hch.tail, fun t ht => hmem t (by simp [ht]), ?_⟩
  cases l with
  | nil => exact absurd rfl hl
  | cons b m => rwa [List.getLast?_cons_cons] at hlast

lemma py_insert_cons1 (a : TypedToken) (l : List TypedToken) (x : TypedToken) :
    py_insert (a :: l) 1 x = a :: x :: l := by
  unfold py_insert
  rw [Nat.min_eq_left (by simp)]
  rfl

lemma py_insert_cons2 (a b : TypedToken) (l : List TypedToken) (x : TypedToken) :
    py_insert (a :: b :: l) 2 x = a :: b :: x :: l := by
  unfold py_insert
  rw [Nat.min_eq_left (by simp)]
  rfl

/-! Enumerating the parser's expected-next tables for the token types the
operand walk can encounter. -/

lemma adjacent_after_instruction {a b : TypedToken}
    (ha : a.type = tokentypes.INSTRUCTION) (h : Parser.adjacent a b) :
    b.type = tokentypes.END ∨ b.type = tokentypes.ADDRESSING_MODE ∨
    b.type = tokentypes.VALUE ∨ b.type = tokentypes.REGISTER ∨
    b.type = tokentypes.LABEL ∨ b.type = tokentypes.RIGHT_BRACE := by
  unfold Parser.adjacent at h
  rw [ha] at h
  rw [show Parser.possible_tokens tokentypes.INSTRUCTION = Parser.INSTRUCTION_NEXT
    from rfl] at h
  simpa [Parser.INSTRUCTION_NEXT] using h

lemma adjacent_after_am {a b : TypedToken}
    (ha : a.type = tokentypes.ADDRESSING_MODE) (h : Parser.adjacent a b) :
    b.type = tokentypes.VALUE ∨ b.type = tokentypes.REGISTER ∨
    b.type = tokentypes.LABEL := by
  unfold Parser.adjacent at h
  rw [ha] at h
  rw [show Parser.possible_tokens tokentypes.ADDRESSING_MODE =
    Parser.ADDRESSING_MODE_NEXT from rfl] at h
  simpa [Parser.ADDRESSING_MODE_NEXT] using h

lemma adjacent_after_operand {a b : TypedToken}
    (ha : a.type = tokentypes.VALUE ∨ a.type = tokentypes.REGISTER)
    (h : Parser.adjacent a b) :
    b.type = tokentypes.END ∨ b.type = tokentypes.SEPARATOR ∨
    b.type = tokentypes.RIGHT_BRACE ∨ b.type = tokentypes.LEFT_BRACE := by
  unfold Parser.adjacent at h
  cases ha with
  | inl hv =>
    rw [hv] at h
    rw [show Parser.possible_tokens tokentypes.VALUE = Parser.OPERAND_NEXT
      from rfl] at h
    simpa [Parser.OPERAND_NEXT] using h
  | inr hr =>
    rw [hr] at h
    rw [show Parser.possible_tokens tokentypes.REGISTER = Parser.OPERAND_NEXT
      from rfl] at h
    simpa [Parser.OPERAND_NEXT] using h

lemma adjacent_after_label {a b : TypedToken}
    (ha : a.type = tokentypes.LABEL) (h : Parser.adjacent a b) :
    b.type = tokentypes.END ∨ b.type = tokentypes.SEPARATOR ∨
    b.type = tokentypes.INSTRUCTION ∨ b.type = tokentypes.RIGHT_BRACE ∨
    b.type = tokentypes.LEFT_BRACE ∨ b.type = tokentypes.ASSEMBLY_DIRECTIVE := by
  unfold Parser.adjacent at h
  rw [ha] at h
  rw [show Parser.possible_tokens tokentypes.LABEL = Parser.LABEL_NEXT from rfl] at h
  simpa [Parser.LABEL_NEXT] using h

lemma adjacent_after_separator {a b : TypedToken}
    (ha : a.type = tokentypes.SEPARATOR) (h : Parser.adjacent a b) :
    b.type = tokentypes.ADDRESSING_MODE ∨ b.type = tokentypes.VALUE ∨
    b.type = tokentypes.REGISTER ∨ b.type = tokentypes.LABEL := by
  unfold Parser.adjacent at h
  rw [ha] at h
  rw [show Parser.possible_tokens tokentypes.SEPARATOR = Parser.SEPARATOR_NEXT
    from rfl] at h
  simpa [Parser.SEPARATOR_NEXT] using h


lemma src_operand_spec (token : TypedToken) (rest : List TypedToken)
    (hins : token.type = tokentypes.INSTRUCTION)
    (hl : local_stream (token :: rest)) :
    ∃ am a m, SemanticAnalyser.get_operand (token :: rest) 1 =
        some (⟨am, a⟩, token :: am :: a :: m) ∧
      am.type = tokentypes.ADDRESSING_MODE ∧ operand_type a.type ∧
      local_stream (token :: am :: a :: m) := by
  cases rest with
  | nil =>
    exfalso
    have := hl.2.2
    simp only [List.getLast?_singleton, Option.map_some'] at this
    rw [hins] at this
    exact absurd this (by decide)
  | cons r0 rest1 =>
    have hadj : Parser.adjacent token r0 := (List.chain'_cons.mp hl.1).1
    have hgood := hl.2.1
    rcases adjacent_after_instruction hins hadj with hty | hty | hty | hty | hty | hty
    · -- r0 is the statement END: both defaults inserted
      refine ⟨⟨tokentypes.ADDRESSING_MODE, addressingmodes.REGISTER.symbol, -1, -1⟩,
        ⟨tokentypes.REGISTER, registers.ACCUMULATOR.register, -1, -1⟩,
        r0 :: rest1, ?_, rfl, by right; left; rfl, ?_⟩
      · rw [get_operand_nonsep (show (token :: r0 :: rest1).get? 1 = some r0 from rfl)
          (by rw [hty]; decide)]
        unfold SemanticAnalyser.operand_step
        rw [if_pos hty]
        dsimp only
        rw [py_insert_cons1, py_insert_cons1,
          py_get_nonneg _ _ (by omega),
          show ((1 : Nat) : Int) - 1 = ((0 : Nat) : Int) by omega, Int.toNat_natCast]
        rw [show (token :: ⟨tokentypes.ADDRESSING_MODE, addressingmodes.REGISTER.symbol,
            -1, -1⟩ :: ⟨tokentypes.REGISTER, registers.ACCUMULATOR.register, -1, -1⟩ ::
            r0 :: rest1).get? 0 = some token from rfl]
        dsimp only
        rw [if_neg (by rw [hins]; decide)]
        rfl
      · refine ⟨?_, ?_, ?_⟩
        · rw [List.chain'_cons]
          refine ⟨by unfold Parser.adjacent; rw [hins]; decide, ?_⟩
          rw [List.chain'_cons]
          refine ⟨by unfold Parser.adjacent; decide, ?_⟩
          rw [List.chain'_cons]
          exact ⟨by unfold Parser.adjacent; rw [hty]; decide, hl.1.tail⟩
        · intro t ht
          simp only [List.mem_cons] at ht
          rcases ht with h | h | h | h
          · exact hgood t (by simp [h])
          · subst h; decide
          · subst h; decide
          · exact hgood t (by simp only [List.mem_cons]; right; exact h)
        · rw [List.getLast?_cons_cons, List.getLast?_cons_cons]
          exact hl.2.2
    · -- r0 is an explicit addressing mode: stream unchanged
      cases rest1 with
      | nil =>
        exfalso
        have := hl.2.2
        rw [List.getLast?_cons_cons] at this
        simp only [List.getLast?_singleton, Option.map_some'] at this
        rw [hty] at this
        exact absurd this (by decide)
      | cons r1 rest2 =>
        have hadj2 : Parser.adjacent r0 r1 :=
          (List.chain'_cons.mp (List.chain'_cons.mp hl.1).2).1
        refine ⟨r0, r1, rest2, ?_, hty, ?_, hl⟩
        · rw [get_operand_nonsep (show (token :: r0 :: r1 :: rest2).get? 1 = some r0
            from rfl) (by rw [hty]; decide)]
          unfold SemanticAnalyser.operand_step
          rw [if_neg (by rw [hty]; decide), if_neg (by rw [hty]; decide),
            if_neg (by rw [hty]; decide)]
          rfl
        · exact adjacent_after_am hty hadj2
    · -- r0 is a literal value: direct mode inserted
      refine ⟨⟨tokentypes.ADDRESSING_MODE, addressingmodes.DIRECT.symbol, -1, -1⟩,
        r0, rest1, ?_, rfl, Or.inl hty, ?_⟩
      · rw [get_operand_nonsep (show (token :: r0 :: rest1).get? 1 = some r0 from rfl)
          (by rw [hty]; decide)]
        unfold SemanticAnalyser.operand_step
        rw [if_neg (by rw [hty]; decide), if_neg (by rw [hty]; decide),
          if_pos (by rw [hty]; decide), py_insert_cons1]
        rfl
      · refine ⟨?_, ?_, ?_⟩
        · rw [List.chain'_cons]
          refine ⟨by unfold Parser.adjacent; rw [hins]; decide, ?_⟩
          rw [List.chain'_cons]
          exact ⟨by unfold Parser.adjacent; rw [hty]; decide, hl.1.tail⟩
        · intro t ht
          simp only [List.mem_cons] at ht
          rcases ht with h | h | h
          · exact hgood t (by simp [h])
          · subst h; decide
          · exact hgood t (by simp only [List.mem_cons]; right; exact h)
        · rw [List.getLast?_cons_cons]
          exact hl.2.2
    · -- r0 is a register: register mode inserted
      refine ⟨⟨tokentypes.ADDRESSING_MODE, addressingmodes.REGISTER.symbol, -1, -1⟩,
        r0, rest1, ?_, rfl, Or.inr (Or.inl hty), ?_⟩
      · rw [get_operand_nonsep (show (token :: r0 :: rest1).get? 1 = some r0 from rfl)
          (by rw [hty]; decide)]
        unfold SemanticAnalyser.operand_step
        rw [if_neg (by rw [hty]; decide), if_pos hty, py_insert_cons1]
        rfl
      · refine ⟨?_, ?_, ?_⟩
        · rw [List.chain'_cons]
          refine ⟨by unfold Parser.adjacent; rw [hins]; decide, ?_⟩
          rw [List.chain'_cons]
          exact ⟨by unfold Parser.adjacent; rw [hty]; decide, hl.1.tail⟩
        · intro t ht
          simp only [List.mem_cons] at ht
          rcases ht with h | h | h
          · exact hgood t (by simp [h])
          · subst h; decide
          · exact hgood t (by simp only [List.mem_cons]; right; exact h)
        · rw [List.getLast?_cons_cons]
          exact hl.2.2
    · -- r0 is a label: direct mode inserted
      refine ⟨⟨tokentypes.ADDRESSING_MODE, addressingmodes.DIRECT.symbol, -1, -1⟩,
        r0, rest1, ?_, rfl, Or.inr (Or.inr hty), ?_⟩
      · rw [get_operand_nonsep (show (token :: r0 :: rest1).get? 1 = some r0 from rfl)
          (by rw [hty]; decide)]
        unfold SemanticAnalyser.operand_step
        rw [if_neg (by rw [hty]; decide), if_neg (by rw [hty]; decide),
          if_pos (by rw [hty]; decide), py_insert_cons1]
        rfl
      · refine ⟨?_, ?_, ?_⟩
        · rw [List.chain'_cons]
          refine ⟨by unfold Parser.adjacent; rw [hins]; decide, ?_⟩
          rw [List.chain'_cons]
          exact ⟨by unfold Parser.adjacent; rw [hty]; decide, hl.1.tail⟩
        · intro t ht
          simp only [List.mem_cons] at ht
          rcases ht with h | h | h
          · exact hgood t (by simp [h])
          · subst h; decide
          · exact hgood t (by simp only [List.mem_cons]; right; exact h)
        · rw [List.getLast?_cons_cons]
          exact hl.2.2
    · exact absurd hty (hgood r0 (by simp)).2.1

lemma adjacent_sep_of_operand {a s : TypedToken} (hop : operand_type a.type)
    (hs : s.type = tokentypes.SEPARATOR) : Parser.adjacent a s := by
  unfold Parser.adjacent
  rcases hop with h | h | h <;> rw [h, hs] <;> decide

lemma adjacent_end_of_operand {a e : TypedToken} (hop : operand_type a.type)
    (he : e.type = tokentypes.END) : Parser.adjacent a e := by
  unfold Parser.adjacent
  rcases hop with h | h | h <;> rw [h, he] <;> decide

lemma get_instruction_not_register_symbol {t : TypedToken}
    (h : instructions.get_instruction t.value ≠ none) :
    t.value ≠ addressingmodes.REGISTER.symbol := by
  intro hv
  rw [hv] at h
  exact h (by decide)

lemma dest_operand_spec (a : TypedToken) (m : List TypedToken)
    (hop : operand_type a.type)
    (hl : local_stream (a :: m)) :
    ∃ am v m', SemanticAnalyser.get_operand (a :: m) 1 =
        some (⟨am, v⟩, a :: m') ∧
      local_stream (a :: m') ∧
      (am.value = addressingmodes.REGISTER.symbol →
        ((m'.get? 0).map TypedToken.type = some tokentypes.SEPARATOR ∧
         (m'.get? 1).map TypedToken.type = some tokentypes.ADDRESSING_MODE ∧
         (∃ t, m'.get? 2 = some t ∧ operand_type t.type))) := by
  have hanend : a.type ≠ tokentypes.END := by
    rcases hop with h | h | h <;> rw [h] <;> decide
  cases m with
  | nil =>
    exfalso
    have := hl.2.2
    simp only [List.getLast?_singleton, Option.map_some', Option.some.injEq] at this
    exact hanend this
  | cons m0 m1 =>
    have hadj : Parser.adjacent a m0 := (List.chain'_cons.mp hl.1).1
    have hgood := hl.2.1
    have hm0cases : m0.type = tokentypes.END ∨ m0.type = tokentypes.SEPARATOR ∨
        m0.type = tokentypes.INSTRUCTION := by
      rcases hop with h | h | h
      · rcases adjacent_after_operand (Or.inl h) hadj with h2 | h2 | h2 | h2
        · exact Or.inl h2
        · exact Or.inr (Or.inl h2)
        · exact absurd h2 (hgood m0 (by simp)).2.1
        · exact absurd h2 (hgood m0 (by simp)).1
      · rcases adjacent_after_operand (Or.inr h) hadj with h2 | h2 | h2 | h2
        · exact Or.inl h2
        · exact Or.inr (Or.inl h2)
        · exact absurd h2 (hgood m0 (by simp)).2.1
        · exact absurd h2 (hgood m0 (by simp)).1
      · rcases adjacent_after_label h hadj with h2 | h2 | h2 | h2 | h2 | h2
        · exact Or.inl h2
        · exact Or.inr (Or.inl h2)
        · exact Or.inr (Or.inr h2)
        · exact absurd h2 (hgood m0 (by simp)).2.1
        · exact absurd h2 (hgood m0 (by simp)).1
        · exact absurd h2 (hgood m0 (by simp)).2.2.1
    rcases hm0cases with hty | hty | hty
    · -- m0 is the statement END: separator, mode and accumulator inserted
      refine ⟨⟨tokentypes.ADDRESSING_MODE, addressingmodes.REGISTER.symbol, -1, -1⟩,
        ⟨tokentypes.REGISTER, registers.ACCUMULATOR.register, -1, -1⟩,
        ⟨tokentypes.SEPARATOR, String.mk [lexerdefaults.SEPARATOR], -1, -1⟩ ::
          ⟨tokentypes.ADDRESSING_MODE, addressingmodes.REGISTER.symbol, -1, -1⟩ ::
          ⟨tokentypes.REGISTER, registers.ACCUMULATOR.register, -1, -1⟩ ::
          m0 :: m1, ?_, ?_, ?_⟩
      · rw [get_operand_nonsep (show (a :: m0 :: m1).get? 1 = some m0 from rfl)
          (by rw [hty]; decide)]
        unfold SemanticAnalyser.operand_step
        rw [if_pos hty]
        dsimp only
        rw [py_insert_cons1, py_insert_cons1,
          py_get_nonneg _ _ (by omega),
          show ((1 : Nat) : Int) - 1 = ((0 : Nat) : Int) by omega, Int.toNat_natCast]
        rw [show (a :: ⟨tokentypes.ADDRESSING_MODE, addressingmodes.REGISTER.symbol,
            -1, -1⟩ :: ⟨tokentypes.REGISTER, registers.ACCUMULATOR.register, -1, -1⟩ ::
            m0 :: m1).get? 0 = some a from rfl]
        dsimp only
        rw [if_pos (by rcases hop with h | h | h <;> rw [h] <;> decide),
          py_insert_cons1]
        rfl
      · refine ⟨?_, ?_, ?_⟩
        · rw [List.chain'_cons]
          refine ⟨adjacent_sep_of_operand hop rfl, ?_⟩
          rw [List.chain'_cons]
          refine ⟨by unfold Parser.adjacent; decide, ?_⟩
          rw [List.chain'_cons]
          refine ⟨by unfold Parser.adjacent; decide, ?_⟩
          rw [List.chain'_cons]
          exact ⟨by unfold Parser.adjacent; rw [hty]; decide, hl.1.tail⟩
        · intro t ht
          simp only [List.mem_cons] at ht
          rcases ht with h | h | h | h | h
          · exact hgood t (by simp [h])
          · subst h; decide
          · subst h; decide
          · subst h; decide
          · exact hgood t (by simp only [List.mem_cons]; right; exact h)
        · rw [List.getLast?_cons_cons, List.getLast?_cons_cons,
            List.getLast?_cons_cons]
          exact hl.2.2
      · intro _
        exact ⟨rfl, rfl, ⟨_, rfl, by right; left; rfl⟩⟩
    · -- m0 is a separator: skip it, then handle the token after it
      cases m1 with
      | nil =>
        exfalso
        have := hl.2.2
        rw [List.getLast?_cons_cons] at this
        simp only [List.getLast?_singleton, Option.map_some'] at this
        rw [hty] at this
        exact absurd this (by decide)
      | cons m2 m3 =>
        have hadj2 : Parser.adjacent m0 m2 :=
          (List.chain'_cons.mp (List.chain'_cons.mp hl.1).2).1
        have hsep2 : SemanticAnalyser.get_operand (a :: m0 :: m2 :: m3) 1 =
            SemanticAnalyser.get_operand (a :: m0 :: m2 :: m3) 2 :=
          get_operand_sep (show (a :: m0 :: m2 :: m3).get? 1 = some m0 from rfl) hty
        rcases adjacent_after_separator hty hadj2 with h2 | h2 | h2 | h2
        · -- explicit addressing mode after the separator
          cases m3 with
          | nil =>
            exfalso
            have := hl.2.2
            rw [List.getLast?_cons_cons, List.getLast?_cons_cons] at this
            simp only [List.getLast?_singleton, Option.map_some'] at this
            rw [h2] at this
            exact absurd this (by decide)
          | cons m4 m5 =>
            have hadj3 : Parser.adjacent m2 m4 :=
              (List.chain'_cons.mp (List.chain'_cons.mp
                (List.chain'_cons.mp hl.1).2).2).1
            refine ⟨m2, m4, m0 :: m2 :: m4 :: m5, ?_, hl, ?_⟩
            · rw [hsep2,
                get_operand_nonsep (show (a :: m0 :: m2 :: m4 :: m5).get? 2 = some m2
                  from rfl) (by rw [h2]; decide)]
              unfold SemanticAnalyser.operand_step
              rw [if_neg (by rw [h2]; decide), if_neg (by rw [h2]; decide),
                if_neg (by rw [h2]; decide)]
              rfl
            · intro _
              refine ⟨by rw [show ((m0 :: m2 :: m4 :: m5).get? 0) = some m0 from rfl,
                  Option.map_some', hty], by rw [show ((m0 :: m2 :: m4 :: m5).get? 1) =
                  some m2 from rfl, Option.map_some', h2], m4, rfl, ?_⟩
              exact adjacent_after_am h2 hadj3
        · -- value after the separator: direct mode inserted
          refine ⟨⟨tokentypes.ADDRESSING_MODE, addressingmodes.DIRECT.symbol, -1, -1⟩,
            m2, m0 :: ⟨tokentypes.ADDRESSING_MODE, addressingmodes.DIRECT.symbol,
              -1, -1⟩ :: m2 :: m3, ?_, ?_, ?_⟩
          · rw [hsep2,
              get_operand_nonsep (show (a :: m0 :: m2 :: m3).get? 2 = some m2
                from rfl) (by rw [h2]; decide)]
            unfold SemanticAnalyser.operand_step
            rw [if_neg (by rw [h2]; decide), if_neg (by rw [h2]; decide),
              if_pos (by rw [h2]; decide), py_insert_cons2]
            rfl
          · refine ⟨?_, ?_, ?_⟩
            · rw [List.chain'_cons]
              refine ⟨(List.chain'_cons.mp hl.1).1, ?_⟩
              rw [List.chain'_cons]
              refine ⟨by unfold Parser.adjacent; rw [hty]; decide, ?_⟩
              rw [List.chain'_cons]
              exact ⟨by unfold Parser.adjacent; rw [h2]; decide, hl.1.tail.tail⟩
            · intro t ht
              simp only [List.mem_cons] at ht
              rcases ht with h | h | h | h
              · exact hgood t (by simp [h])
              · exact hgood t (by simp [h])
              · subst h; decide
              · exact hgood t (by simp only [List.mem_cons]; right; right; exact h)
            · rw [List.getLast?_cons_cons, List.getLast?_cons_cons]
              have := hl.2.2
              rw [List.getLast?_cons_cons, List.getLast?_cons_cons] at this
              exact this
          · intro _
            exact ⟨by rw [show ((m0 :: (⟨tokentypes.ADDRESSING_MODE,
                addressingmodes.DIRECT.symbol, -1, -1⟩ : TypedToken) :: m2 :: m3).get? 0)
                = some m0 from rfl, Option.map_some', hty], rfl,
              m2, rfl, Or.inl h2⟩
        · -- register after the separator: register mode inserted
          refine ⟨⟨tokentypes.ADDRESSING_MODE, addressingmodes.REGISTER.symbol, -1, -1⟩,
            m2, m0 :: ⟨tokentypes.ADDRESSING_MODE, addressingmodes.REGISTER.symbol,
              -1, -1⟩ :: m2 :: m3, ?_, ?_, ?_⟩
          · rw [hsep2,
              get_operand_nonsep (show (a :: m0 :: m2 :: m3).get? 2 = some m2
                from rfl) (by rw [h2]; decide)]
            unfold SemanticAnalyser.operand_step
            rw [if_neg (by rw [h2]; decide), if_pos h2, py_insert_cons2]
            rfl
          · refine ⟨?_, ?_, ?_⟩
            · rw [List.chain'_cons]
              refine ⟨(List.chain'_cons.mp hl.1).1, ?_⟩
              rw [List.chain'_cons]
              refine ⟨by unfold Parser.adjacent; rw [hty]; decide, ?_⟩
              rw [List.chain'_cons]
              exact ⟨by unfold Parser.adjacent; rw [h2]; decide, hl.1.tail.tail⟩
            · intro t ht
              simp only [List.mem_cons] at ht
              rcases ht with h | h | h | h
              · exact hgood t (by simp [h])
              · exact hgood t (by simp [h])
              · subst h; decide
              · exact hgood t (by simp only [List.mem_cons]; right; right; exact h)
            · rw [List.getLast?_cons_cons, List.getLast?_cons_cons]
              have := hl.2.2
              rw [List.getLast?_cons_cons, List.getLast?_cons_cons] at this
              exact this
          · intro _
            exact ⟨by rw [show ((m0 :: (⟨tokentypes.ADDRESSING_MODE,
                addressingmodes.REGISTER.symbol, -1, -1⟩ : TypedToken) :: m2 :: m3).get? 0)
                = some m0 from rfl, Option.map_some', hty], rfl,
              m2, rfl, Or.inr (Or.inl h2)⟩
        · -- label after the separator: direct mode inserted
          refine ⟨⟨tokentypes.ADDRESSING_MODE, addressingmodes.DIRECT.symbol, -1, -1⟩,
            m2, m0 :: ⟨tokentypes.ADDRESSING_MODE, addressingmodes.DIRECT.symbol,
              -1, -1⟩ :: m2 :: m3, ?_, ?_, ?_⟩
          · rw [hsep2,
              get_operand_nonsep (show (a :: m0 :: m2 :: m3).get? 2 = some m2
                from rfl) (by rw [h2]; decide)]
            unfold SemanticAnalyser.operand_step
            rw [if_neg (by rw [h2]; decide), if_neg (by rw [h2]; decide),
              if_pos (by rw [h2]; decide), py_insert_cons2]
            rfl
          · refine ⟨?_, ?_, ?_⟩
            · rw [List.chain'_cons]
              refine ⟨(List.chain'_cons.mp hl.1).1, ?_⟩
              rw [List.chain'_cons]
              refine ⟨by unfold Parser.adjacent; rw [hty]; decide, ?_⟩
              rw [List.chain'_cons]
              exact ⟨by unfold Parser.adjacent; rw [h2]; decide, hl.1.tail.tail⟩
            · intro t ht
              simp only [List.mem_cons] at ht
              rcases ht with h | h | h | h
              · exact hgood t (by simp [h])
              · exact hgood t (by simp [h])
              · subst h; decide
              · exact hgood t (by simp only [List.mem_cons]; right; right; exact h)
            · rw [List.getLast?_cons_cons, List.getLast?_cons_cons]
              have := hl.2.2
              rw [List.getLast?_cons_cons, List.getLast?_cons_cons] at this
              exact this
          · intro _
            exact ⟨by rw [show ((m0 :: (⟨tokentypes.ADDRESSING_MODE,
                addressingmodes.DIRECT.symbol, -1, -1⟩ : TypedToken) :: m2 :: m3).get? 0)
                = some m0 from rfl, Option.map_some', hty], rfl,
              m2, rfl, Or.inr (Or.inr h2)⟩
    · -- m0 is the next instruction (a is a branch label operand): no insertion,
      -- and the recorded destination mode is the mnemonic, never "%"
      cases m1 with
      | nil =>
        exfalso
        have := hl.2.2
        rw [List.getLast?_cons_cons] at this
        simp only [List.getLast?_singleton, Option.map_some'] at this
        rw [hty] at this
        exact absurd this (by decide)
      | cons m2 m3 =>
        refine ⟨m0, m2, m0 :: m2 :: m3, ?_, hl, ?_⟩
        · rw [get_operand_nonsep (show (a :: m0 :: m2 :: m3).get? 1 = some m0
            from rfl) (by rw [hty]; decide)]
          unfold SemanticAnalyser.operand_step
          rw [if_neg (by rw [hty]; decide), if_neg (by rw [hty]; decide),
            if_neg (by rw [hty]; decide)]
          rfl
        · intro hv
          exact absurd hv (get_instruction_not_register_symbol
            ((hgood m0 (by simp)).2.2.2 hty))


lemma analyse_instruction_local (gtab ltab : List (String × Symbol))
    (token : TypedToken) (rest tokens' : List TypedToken) (errs : List AnalyserError)
    (hins : token.type = tokentypes.INSTRUCTION)
    (hl : local_stream (token :: rest))
    (hres : SemanticAnalyser.analyse_instruction gtab ltab (token :: rest) 0 =
      some (tokens', errs)) :
    ∃ rest', tokens' = token :: rest' ∧ local_stream (token :: rest') ∧
      (errs = [] → ∀ instr, instructions.get_instruction token.value = some instr →
        1 ≤ instr.operands → instruction_shape (token :: rest') 0 instr.operands) := by
  cases rest with
  | nil =>
    exfalso
    have := hl.2.2
    simp only [List.getLast?_singleton, Option.map_some', Option.some.injEq] at this
    rw [hins] at this
    exact absurd this (by decide)
  | cons r0 rest1 =>
  unfold SemanticAnalyser.analyse_instruction at hres
  rw [show (token :: r0 :: rest1).get? 0 = some token from rfl] at hres
  dsimp only at hres
  cases hgi : instructions.get_instruction token.value with
  | none =>
    rw [hgi] at hres
    exact absurd hres (by simp)
  | some instruction =>
  rw [hgi] at hres
  dsimp only at hres
  cases hcnt : SemanticAnalyser.count_operands (token :: r0 :: rest1) 0 with
  | none =>
    rw [hcnt] at hres
    exact absurd hres (by simp)
  | some n =>
  rw [hcnt] at hres
  dsimp only at hres
  by_cases hex : n > instruction.operands
  · rw [if_pos hex] at hres
    simp only [Option.some.injEq, Prod.mk.injEq] at hres
    refine ⟨r0 :: rest1, hres.1.symm, hl, ?_⟩
    intro herrs
    rw [← hres.2] at herrs
    exact absurd herrs (by simp)
  · rw [if_neg hex] at hres
    by_cases hop1 : instruction.operands > 1
    · rw [if_pos hop1] at hres
      rw [show (token :: r0 :: rest1).get? (0 + 1) = some r0 from rfl] at hres
      dsimp only at hres
      rw [if_pos (show instruction.operands > 0 by omega)] at hres
      obtain ⟨am, a, m, heq, ham, hopa, hl'⟩ := src_operand_spec token (r0 :: rest1)
        hins hl
      rw [show (0 : Nat) + 1 = 1 from rfl, heq] at hres
      dsimp only at hres
      rw [if_pos hop1] at hres
      have hlam : local_stream (a :: m) := by
        have h1 : local_stream (am :: a :: m) :=
          local_stream_cons_tail hl' (by simp)
        exact local_stream_cons_tail h1 (by simp)
      obtain ⟨amd, vd, m', hdeq, hlm', hshape⟩ := dest_operand_spec a m hopa hlam
      rw [show (token :: am :: a :: m) = [token, am] ++ (a :: m) from rfl,
        show (0 : Nat) + 3 = List.length [token, am] + 1 from rfl,
        get_operand_shift [token, am] (a :: m) 1 (by omega), hdeq] at hres
      dsimp only [Option.map_some', List.cons_append, List.nil_append] at hres
      simp only [Option.some.injEq, Prod.mk.injEq] at hres
      refine ⟨am :: a :: m', hres.1.symm, ?_, ?_⟩
      · refine ⟨?_, ?_, ?_⟩
        · rw [List.chain'_cons]
          refine ⟨(List.chain'_cons.mp hl'.1).1, ?_⟩
          rw [List.chain'_cons]
          exact ⟨(List.chain'_cons.mp (List.chain'_cons.mp hl'.1).2).1, hlm'.1⟩
        · intro t ht
          simp only [List.mem_cons] at ht
          rcases ht with h | h | h
          · exact hl'.2.1 t (by simp [h])
          · exact hl'.2.1 t (by simp [h])
          · exact hlm'.2.1 t (by simp only [List.mem_cons]; exact h)
        · rw [List.getLast?_cons_cons, List.getLast?_cons_cons]
          have := hlm'.2.2
          cases m' with
          | nil => simpa using this
          | cons u us => rwa [List.getLast?_cons_cons]
      · intro herrs instr hgi2 hops
        injection hgi2 with hgi3
        subst hgi3
        rw [← hres.2] at herrs
        have herr6 : (if ¬ amd.value = addressingmodes.REGISTER.symbol then
            [(⟨token.row, token.column,
              errormessages.NON_REGISTER_DESTINATION_OPERAND⟩ : AnalyserError)]
            else []) = [] := by
          rcases List.append_eq_nil.mp herrs with ⟨_, h2⟩
          exact h2
        have hamv : amd.value = addressingmodes.REGISTER.symbol := by
          by_contra hc
          rw [if_pos hc] at herr6
          exact absurd herr6 (by simp)
        obtain ⟨hs0, hs1, t2, ht2, hop2⟩ := hshape hamv
        refine ⟨?_, ⟨a, rfl, hopa⟩, ?_⟩
        · rw [show (token :: am :: a :: m').get? (0 + 1) = some am from rfl,
            Option.map_some', ham]
        · intro _
          refine ⟨?_, ?_, ?_⟩
          · rw [show (token :: am :: a :: m').get? (0 + 3) = m'.get? 0 from rfl]
            exact hs0
          · rw [show (token :: am :: a :: m').get? (0 + 4) = m'.get? 1 from rfl]
            exact hs1
          · rw [show (token :: am :: a :: m').get? (0 + 5) = m'.get? 2 from rfl]
            exact ⟨t2, ht2, hop2⟩
    · rw [if_neg hop1] at hres
      dsimp only at hres
      by_cases hop0 : instruction.operands > 0
      · rw [if_pos hop0] at hres
        obtain ⟨am, a, m, heq, ham, hopa, hl'⟩ := src_operand_spec token (r0 :: rest1)
          hins hl
        rw [show (0 : Nat) + 1 = 1 from rfl, heq] at hres
        dsimp only at hres
        rw [if_neg hop1] at hres
        simp only [Option.some.injEq, Prod.mk.injEq] at hres
        refine ⟨am :: a :: m, hres.1.symm, hl', ?_⟩
        intro _ instr hgi2 _
        injection hgi2 with hgi3
        subst hgi3
        refine ⟨?_, ⟨a, rfl, hopa⟩, ?_⟩
        · rw [show (token :: am :: a :: m).get? (0 + 1) = some am from rfl,
            Option.map_some', ham]
        · intro h1a
          omega
      · rw [if_neg hop0] at hres
        simp only [Option.some.injEq, Prod.mk.injEq] at hres
        refine ⟨r0 :: rest1, hres.1.symm, hl, ?_⟩
        intro _ instr hgi2 hops
        injection hgi2 with hgi3
        subst hgi3
        omega


lemma instruction_shape_shift (pre l : List TypedToken) (ar : Nat)
    (h : instruction_shape l 0 ar) : instruction_shape (pre ++ l) pre.length ar := by
  obtain ⟨h1, ⟨t2, ht2, hop2⟩, h3⟩ := h
  refine ⟨?_, ⟨t2, ?_, hop2⟩, ?_⟩
  · rw [get?_append_shift pre l 1]
    exact h1
  · rw [get?_append_shift pre l 2]
    exact ht2
  · intro h1a
    obtain ⟨g3, g4, t5, ht5, hop5⟩ := h3 h1a
    refine ⟨?_, ?_, t5, ?_, hop5⟩
    · rw [get?_append_shift pre l 3]
      exact g3
    · rw [get?_append_shift pre l 4]
      exact g4
    · rw [get?_append_shift pre l 5]
      exact ht5

lemma instruction_shape_preserved {tokens tokens' : List TypedToken}
    {j i arity : Nat} {t : TypedToken}
    (hsh : instruction_shape tokens j arity)
    (hpres : ∀ k, k ≤ i → tokens'.get? k = tokens.get? k)
    (hj : j < i)
    (hi : tokens.get? i = some t) (hins : t.type = tokentypes.INSTRUCTION) :
    instruction_shape tokens' j arity := by
  obtain ⟨h1, ⟨t2, ht2, hop2⟩, h3⟩ := hsh
  have hne1 : i ≠ j + 1 := by
    intro he
    rw [← he, hi] at h1
    simp only [Option.map_some', Option.some.injEq] at h1
    exact absurd (hins.symm.trans h1) (by decide)
  have hne2 : i ≠ j + 2 := by
    intro he
    rw [← he, hi, Option.some.injEq] at ht2
    rw [← ht2, hins] at hop2
    exact absurd hop2 (by decide)
  refine ⟨?_, ⟨t2, ?_, hop2⟩, ?_⟩
  · rw [hpres (j + 1) (by omega)]
    exact h1
  · rw [hpres (j + 2) (by omega)]
    exact ht2
  · intro h1a
    obtain ⟨g3, g4, t5, ht5, hop5⟩ := h3 h1a
    have hne3 : i ≠ j + 3 := by
      intro he
      rw [← he, hi] at g3
      simp only [Option.map_some', Option.some.injEq] at g3
      exact absurd (hins.symm.trans g3) (by decide)
    have hne4 : i ≠ j + 4 := by
      intro he
      rw [← he, hi] at g4
      simp only [Option.map_some', Option.some.injEq] at g4
      exact absurd (hins.symm.trans g4) (by decide)
    have hne5 : i ≠ j + 5 := by
      intro he
      rw [← he, hi, Option.some.injEq] at ht5
      rw [← ht5, hins] at hop5
      exact absurd hop5 (by decide)
    refine ⟨?_, ?_, t5, ?_, hop5⟩
    · rw [hpres (j + 3) (by omega)]
      exact g3
    · rw [hpres (j + 4) (by omega)]
      exact g4
    · rw [hpres (j + 5) (by omega)]
      exact ht5

lemma analyse_instruction_abs (gtab ltab : List (String × Symbol))
    (tokens tokens' : List TypedToken) (i : Nat) (token : TypedToken)
    (errs : List AnalyserError)
    (hP : statement_stream tokens)
    (htok : tokens.get? i = some token)
    (hins : token.type = tokentypes.INSTRUCTION)
    (hres : SemanticAnalyser.analyse_instruction gtab ltab tokens i =
      some (tokens', errs)) :
    (∀ k, k ≤ i → tokens'.get? k = tokens.get? k) ∧
    statement_stream tokens' ∧
    (errs = [] → ∀ instr, instructions.get_instruction token.value = some instr →
      1 ≤ instr.operands → instruction_shape tokens' i instr.operands) := by
  have hi : i < tokens.length := get?_some_lt htok
  obtain ⟨pre, rest, hsplit, hprelen⟩ :
      ∃ pre rest, tokens = pre ++ token :: rest ∧ pre.length = i := by
    refine ⟨tokens.take i, tokens.drop (i + 1), ?_, by rw [List.length_take]; omega⟩
    have hd : tokens.drop i = tokens.get ⟨i, hi⟩ :: tokens.drop (i + 1) :=
      List.drop_eq_get_cons hi
    have htok2 := htok
    rw [List.get?_eq_get hi, Option.some.injEq] at htok2
    rw [htok2] at hd
    rw [← hd, List.take_append_drop]
  subst hsplit
  subst hprelen
  rw [analyse_instruction_shift] at hres
  obtain ⟨r, hloc, hmapped⟩ := Option.map_eq_some'.mp hres
  obtain ⟨ltokens, lerrs⟩ := r
  simp only [Prod.mk.injEq] at hmapped
  rw [hmapped.2] at hloc
  have hlstream : local_stream (token :: rest) :=
    statement_stream_extract hP (by simp)
  obtain ⟨rest', hlt, hl', hshape⟩ := analyse_instruction_local gtab ltab token
    rest ltokens errs hins hlstream hloc
  subst hlt
  have htokens' : tokens' = pre ++ (token :: rest') := hmapped.1.symm
  refine ⟨?_, ?_, ?_⟩
  · intro k hk
    rw [htokens']
    by_cases hki : k < pre.length
    · rw [List.get?_eq_getElem?, List.get?_eq_getElem?,
        List.getElem?_append_left hki, List.getElem?_append_left hki]
    · have hkeq : k = pre.length := by omega
      subst hkeq
      have h1 := get?_append_shift pre (token :: rest') 0
      have h2 := get?_append_shift pre (token :: rest) 0
      rw [Nat.add_zero] at h1 h2
      rw [h1, h2]
      rfl
  · rw [htokens']
    exact statement_stream_reassemble hP hl'
  · intro herrs instr hgi hops
    rw [htokens']
    exact instruction_shape_shift _ _ _ (hshape herrs instr hgi hops)


lemma semantic_analyse_go_errs (gtab ltab : List (String × Symbol)) :
    ∀ fuel tokens index errs res,
      SemanticAnalyser.semantic_analyse_go gtab ltab fuel tokens index errs =
        some res → ∃ tail, res.2 = errs ++ tail := by
  intro fuel
  induction fuel with
  | zero =>
    intro tokens index errs res h
    exact absurd h (by rw [SemanticAnalyser.semantic_analyse_go]; simp)
  | succ fuel ih =>
    intro tokens index errs res h
    rw [SemanticAnalyser.semantic_analyse_go] at h
    cases hx : tokens.get? index with
    | none =>
      rw [hx] at h
      dsimp only at h
      refine ⟨[], ?_⟩
      rw [← Option.some.inj h]
      simp
    | some token =>
      rw [hx] at h
      dsimp only at h
      by_cases ht : token.type = tokentypes.INSTRUCTION
      · rw [if_pos ht] at h
        cases ha : SemanticAnalyser.analyse_instruction gtab ltab tokens index with
        | none =>
          rw [ha] at h
          exact absurd h (by simp)
        | some r2 =>
          obtain ⟨t2, e2⟩ := r2
          rw [ha] at h
          dsimp only at h
          obtain ⟨tail, htail⟩ := ih t2 (index + 1) (errs ++ e2) res h
          exact ⟨e2 ++ tail, by rw [htail, List.append_assoc]⟩
      · rw [if_neg ht] at h
        exact ih tokens (index + 1) errs res h

lemma semantic_analyse_go_spec (gtab ltab : List (String × Symbol)) :
    ∀ fuel tokens index errs tokens' errs',
      statement_stream tokens →
      (∀ j t instr, j < index → tokens.get? j = some t →
        t.type = tokentypes.INSTRUCTION →
        instructions.get_instruction t.value = some instr → 1 ≤ instr.operands →
        instruction_shape tokens j instr.operands) →
      SemanticAnalyser.semantic_analyse_go gtab ltab fuel tokens index errs =
        some (tokens', errs') →
      errs' = [] →
      statement_stream tokens' ∧ normal_form tokens' := by
  intro fuel
  induction fuel with
  | zero =>
    intro tokens index errs tokens' errs' _ _ h _
    exact absurd h (by rw [SemanticAnalyser.semantic_analyse_go]; simp)
  | succ fuel ih =>
    intro tokens index errs tokens' errs' hP hinv h herrs
    rw [SemanticAnalyser.semantic_analyse_go] at h
    cases hx : tokens.get? index with
    | none =>
      rw [hx] at h
      dsimp only at h
      rw [Option.some.injEq, Prod.mk.injEq] at h
      obtain ⟨h1, _⟩ := h
      subst h1
      refine ⟨hP, ?_⟩
      intro j t instr hj hins hgi hops
      by_cases hji : j < index
      · exact hinv j t instr hji hj hins hgi hops
      · exfalso
        have hlen : tokens.length ≤ index := List.get?_eq_none.mp hx
        rw [List.get?_eq_none.mpr (by omega)] at hj
        exact absurd hj (by simp)
    | some token =>
      rw [hx] at h
      dsimp only at h
      by_cases ht : token.type = tokentypes.INSTRUCTION
      · rw [if_pos ht] at h
        cases ha : SemanticAnalyser.analyse_instruction gtab ltab tokens index with
        | none =>
          rw [ha] at h
          exact absurd h (by simp)
        | some r2 =>
          obtain ⟨t2, e2⟩ := r2
          rw [ha] at h
          dsimp only at h
          have he2 : e2 = [] := by
            obtain ⟨tail, htail⟩ := semantic_analyse_go_errs gtab ltab fuel t2
              (index + 1) (errs ++ e2) (tokens', errs') h
            rw [herrs] at htail
            have := List.append_eq_nil.mp htail.symm
            exact (List.append_eq_nil.mp this.1).2
          obtain ⟨hpres, hP2, hshape⟩ := analyse_instruction_abs gtab ltab tokens t2
            index token e2 hP hx ht ha
          refine ih t2 (index + 1) (errs ++ e2) tokens' errs' hP2 ?_ h herrs
          intro j t instr hj hjt hins hgi hops
          by_cases hji : j < index
          · rw [hpres j (by omega)] at hjt
            exact instruction_shape_preserved
              (hinv j t instr hji hjt hins hgi hops) hpres hji hx ht
          · have hje : j = index := by omega
            subst hje
            rw [hpres j (le_refl j), hx, Option.some.injEq] at hjt
            subst hjt
            exact hshape he2 instr hgi hops
      · rw [if_neg ht] at h
        refine ih tokens (index + 1) errs tokens' errs' hP ?_ h herrs
        intro j t instr hj hjt hins hgi hops
        by_cases hji : j < index
        · exact hinv j t instr hji hjt hins hgi hops
        · have hje : j = index := by omega
          subst hje
          rw [hx, Option.some.injEq] at hjt
          subst hjt
          exact absurd hins ht

lemma semantic_analyse_spec (gtab : List (String × Symbol))
    (scope scope' : Scope) (errs : List AnalyserError)
    (hP : statement_stream scope.tokens)
    (h : SemanticAnalyser.semantic_analyse gtab scope = some (scope', errs))
    (herrs : errs = []) : normal_form scope'.tokens := by
  unfold SemanticAnalyser.semantic_analyse at h
  cases hg : SemanticAnalyser.semantic_analyse_go gtab scope.symbol_table
      (6 * scope.tokens.length + 1) scope.tokens 0 [] with
  | none =>
    rw [hg] at h
    exact absurd h (by simp)
  | some r =>
    obtain ⟨tks, es⟩ := r
    rw [hg] at h
    simp only [Option.map_some', Option.some.injEq, Prod.mk.injEq] at h
    subst herrs
    rw [h.2] at hg
    rw [← h.1]
    exact (semantic_analyse_go_spec gtab scope.symbol_table
      (6 * scope.tokens.length + 1) scope.tokens 0 [] tks [] hP
      (by intro j t instr hj _ _ _ _; omega) hg rfl).2

lemma run_procedure_scopes_errs (gtab : List (String × Symbol)) :
    ∀ scopes errs res,
      SemanticAnalyser.run_procedure_scopes gtab scopes errs = some res →
      ∃ tail, res.2 = errs ++ tail := by
  intro scopes
  induction scopes with
  | nil =>
    intro errs res h
    unfold SemanticAnalyser.run_procedure_scopes at h
    refine ⟨[], ?_⟩
    rw [← Option.some.inj h]
    simp
  | cons p rest ih =>
    intro errs res h
    obtain ⟨name, scope⟩ := p
    unfold SemanticAnalyser.run_procedure_scopes at h
    cases hs : SemanticAnalyser.semantic_analyse gtab scope with
    | none =>
      rw [hs] at h
      exact absurd h (by simp)
    | some r2 =>
      obtain ⟨scope2, errs2⟩ := r2
      rw [hs] at h
      dsimp only at h
      cases hr : SemanticAnalyser.run_procedure_scopes gtab rest (errs ++ errs2) with
      | none =>
        rw [hr] at h
        exact absurd h (by simp)
      | some r3 =>
        rw [hr] at h
        simp only [Option.map_some', Option.some.injEq] at h
        obtain ⟨tail, htail⟩ := ih (errs ++ errs2) r3 hr
        refine ⟨errs2 ++ tail, ?_⟩
        rw [← h]
        dsimp only
        rw [htail, List.append_assoc]

lemma run_procedure_scopes_spec (gtab : List (String × Symbol)) :
    ∀ scopes errs procs2 errsall,
      (∀ p ∈ scopes, statement_stream p.2.tokens) →
      SemanticAnalyser.run_procedure_scopes gtab scopes errs =
        some (procs2, errsall) →
      errsall = [] →
      ∀ p ∈ procs2, normal_form p.2.tokens := by
  intro scopes
  induction scopes with
  | nil =>
    intro errs procs2 errsall _ h _
    unfold SemanticAnalyser.run_procedure_scopes at h
    simp only [Option.some.injEq, Prod.mk.injEq] at h
    rw [← h.1]
    intro p hp
    exact absurd hp (by simp)
  | cons q rest ih =>
    intro errs procs2 errsall hPs h herrs
    obtain ⟨name, scope⟩ := q
    unfold SemanticAnalyser.run_procedure_scopes at h
    cases hs : SemanticAnalyser.semantic_analyse gtab scope with
    | none =>
      rw [hs] at h
      exact absurd h (by simp)
    | some r2 =>
      obtain ⟨scope2, errs2⟩ := r2
      rw [hs] at h
      dsimp only at h
      cases hr : SemanticAnalyser.run_procedure_scopes gtab rest (errs ++ errs2) with
      | none =>
        rw [hr] at h
        exact absurd h (by simp)
      | some r3 =>
        obtain ⟨procs3, errs3⟩ := r3
        rw [hr] at h
        simp only [Option.map_some', Option.some.injEq, Prod.mk.injEq] at h
        have herrs2 : errs2 = [] := by
          obtain ⟨tail, htail⟩ := run_procedure_scopes_errs gtab rest (errs ++ errs2)
            (procs3, errs3) hr
          dsimp only at htail
          rw [h.2, herrs] at htail
          have := List.append_eq_nil.mp htail.symm
          exact (List.append_eq_nil.mp this.1).2
        intro p hp
        rw [← h.1] at hp
        rcases List.mem_cons.mp hp with hph | hpt
        · subst hph
          exact semantic_analyse_spec gtab scope scope2 errs2
            (hPs (name, scope) (by simp)) hs herrs2
        · refine ih (errs ++ errs2) procs3 errs3
            (fun q hq => hPs q (by simp [hq])) hr ?_ p hpt
          rw [h.2]
          exact herrs

/-- C9 (amended): if every scope handed to the semantic analyser is a
parser-valid statement stream (adjacency tables hold from a virtual leading
END, braces and assembly directives are gone, instruction mnemonics are
known, and the stream ends with END), then after SemanticAnalyser.run
completes without recording any error, every INSTRUCTION token of arity
at least 1, in the global scope and in every procedure scope, sits in the
positional operand normal form the code generator reads unconditionally:
an ADDRESSING_MODE token at index+1, an operand token (VALUE, REGISTER or
LABEL) at index+2, and for arity 2 a SEPARATOR at index+3 followed by an
ADDRESSING_MODE at index+4 and an operand at index+5.  The original
claim's stronger count — exactly 2·a + (a−1) tokens before the statement's
END — does not hold (see the counterexample), so only the positional form
is guaranteed. -/
theorem analyser_normal_form (global_scope : Scope)
    (procedure_scopes : List (String × Scope))
    (g2 : Scope) (procs2 : List (String × Scope))
    (hg : statement_stream global_scope.tokens)
    (hp : ∀ p ∈ procedure_scopes, statement_stream p.2.tokens)
    (hrun : SemanticAnalyser.run global_scope procedure_scopes =
      some (g2, procs2, [])) :
    normal_form g2.tokens ∧ ∀ p ∈ procs2, normal_form p.2.tokens := by
  unfold SemanticAnalyser.run at hrun
  cases hs : SemanticAnalyser.semantic_analyse global_scope.symbol_table
      global_scope with
  | none =>
    rw [hs] at hrun
    exact absurd hrun (by simp)
  | some r =>
    obtain ⟨g2', errsg⟩ := r
    rw [hs] at hrun
    dsimp only at hrun
    cases hr : SemanticAnalyser.run_procedure_scopes global_scope.symbol_table
        procedure_scopes errsg with
    | none =>
      rw [hr] at hrun
      exact absurd hrun (by simp)
    | some r2 =>
      obtain ⟨procs3, errsall⟩ := r2
      rw [hr] at hrun
      simp only [Option.map_some', Option.some.injEq, Prod.mk.injEq] at hrun
      have herrsg : errsg = [] := by
        obtain ⟨tail, htail⟩ := run_procedure_scopes_errs _ procedure_scopes errsg
          (procs3, errsall) hr
        dsimp only at htail
        rw [hrun.2.2] at htail
        exact (List.append_eq_nil.mp htail.symm).1
      constructor
      · rw [← hrun.1]
        exact semantic_analyse_spec _ global_scope g2' errsg hg hs herrsg
      · rw [← hrun.2.1]
        exact run_procedure_scopes_spec _ procedure_scopes errsg procs3 errsall
          hp hr hrun.2.2

def c9w_scope : Scope :=
  ⟨[⟨tokentypes.INSTRUCTION, "OUT", 1, 1⟩, ⟨tokentypes.ADDRESSING_MODE, "%", 1, 5⟩,
    ⟨tokentypes.REGISTER, "ACC", 1, 6⟩, ⟨tokentypes.END, "/", 1, 9⟩], [], 1, 0⟩

lemma c9w_run : SemanticAnalyser.run c9w_scope [] = some (c9w_scope, [], []) := by
  have h1 : SemanticAnalyser.count_operands c9w_scope.tokens 0 = some 1 := by
    simp [SemanticAnalyser.count_operands, c9w_scope, tokentypes.INSTRUCTION,
      tokentypes.END, tokentypes.ADDRESSING_MODE, tokentypes.VALUE,
      tokentypes.REGISTER, tokentypes.LABEL]
  have h2 : SemanticAnalyser.get_operand c9w_scope.tokens 1 =
      some (⟨⟨tokentypes.ADDRESSING_MODE, "%", 1, 5⟩,
        ⟨tokentypes.REGISTER, "ACC", 1, 6⟩⟩, c9w_scope.tokens) := by
    simp [SemanticAnalyser.get_operand, SemanticAnalyser.operand_step, c9w_scope,
      tokentypes.INSTRUCTION, tokentypes.END, tokentypes.ADDRESSING_MODE,
      tokentypes.VALUE, tokentypes.REGISTER, tokentypes.LABEL, tokentypes.SEPARATOR]
  have h3 : SemanticAnalyser.analyse_instruction [] [] c9w_scope.tokens 0 =
      some (c9w_scope.tokens, []) := by
    simp only [SemanticAnalyser.analyse_instruction]
    rw [h1, h2]
    simp [c9w_scope, SemanticAnalyser.analyse_operand,
      SemanticAnalyser.analyse_addressing_mode, SemanticAnalyser.analyse_operand_value,
      instructions.get_instruction]
    decide
  simp only [SemanticAnalyser.run, SemanticAnalyser.semantic_analyse,
    SemanticAnalyser.run_procedure_scopes]
  have hg : SemanticAnalyser.semantic_analyse_go [] [] (6 * c9w_scope.tokens.length + 1)
      c9w_scope.tokens 0 [] = some (c9w_scope.tokens, []) := by
    simp only [show (6 * c9w_scope.tokens.length + 1) = 24 + 1 by decide]
    rw [SemanticAnalyser.semantic_analyse_go]
    simp only [show c9w_scope.tokens.get? 0 =
      some ⟨tokentypes.INSTRUCTION, "OUT", 1, 1⟩ by decide]
    rw [if_pos trivial, h3]
    dsimp only
    rw [show (24 : Nat) = 23 + 1 from rfl, SemanticAnalyser.semantic_analyse_go]
    simp only [show c9w_scope.tokens.get? (0 + 1) =
      some ⟨tokentypes.ADDRESSING_MODE, "%", 1, 5⟩ by decide]
    rw [if_neg (by decide)]
    rw [show (23 : Nat) = 22 + 1 from rfl, SemanticAnalyser.semantic_analyse_go]
    simp only [show c9w_scope.tokens.get? (0 + 1 + 1) =
      some ⟨tokentypes.REGISTER, "ACC", 1, 6⟩ by decide]
    rw [if_neg (by decide)]
    rw [show (22 : Nat) = 21 + 1 from rfl, SemanticAnalyser.semantic_analyse_go]
    simp only [show c9w_scope.tokens.get? (0 + 1 + 1 + 1) =
      some ⟨tokentypes.END, "/", 1, 9⟩ by decide]
    rw [if_neg (by decide)]
    rw [show (21 : Nat) = 20 + 1 from rfl, SemanticAnalyser.semantic_analyse_go]
    simp only [show c9w_scope.tokens.get? (0 + 1 + 1 + 1 + 1) = none by decide,
      List.append_nil]
  simp only [show c9w_scope.symbol_table = [] from rfl]
  rw [hg]
  rfl

lemma c9w_stream : statement_stream c9w_scope.tokens := by
  refine ⟨?_, by decide, by decide⟩
  refine List.chain'_cons.mpr ⟨by decide, ?_⟩
  refine List.chain'_cons.mpr ⟨by decide, ?_⟩
  refine List.chain'_cons.mpr ⟨by decide, ?_⟩
  refine List.chain'_cons.mpr ⟨by decide, ?_⟩
  exact List.chain'_singleton _

theorem analyser_normal_form_witness :
    normal_form c9w_scope.tokens ∧
      ∀ p ∈ ([] : List (String × Scope)), normal_form p.2.tokens :=
  analyser_normal_form c9w_scope [] c9w_scope [] c9w_stream (by simp) c9w_run


end Csm
